import Mathlib

/-!
# QEPvLoadSave item tree (qeframework)

A shallow embedding of `QEPvLoadSaveItem.cpp`: the load/save tree of Group and
Leaf nodes, the leaf's delta/status computation, the leaf/group actions
(extract, apply, read archive, abort), the display columns, the numeric export
map, clone, and the structural operations on the parent/child links.

Conventions of the embedding.

* `QVariant`, `double`, `QCaAlarmInfo` and `QCaDateTime` are library types. They
  are type parameters `V`, `D`, `A`, `T`; the `QVariant`/`double` operations the
  code calls are the fields of `QVariantOps`.
* C++ `int` is `Int` wrapped to 32 bits by `wrapInt`.
* A member function that emits signals or calls a collaborator returns the new
  object state together with the list of `Event`s it produced, in program order.
* `this` is the field `self` of a leaf (the object's address).
-/

namespace QEPvLoadSave

/-! ## Machine integers -/

/-- Two's complement wrap of an integer to the range of a 32 bit C++ int. -/
def wrapInt (x : Int) : Int := (x + 2147483648) % 4294967296 - 2147483648

/-- Largest value of a 32 bit C++ int. -/
def INT_MAX : Int := 2147483647

/-! ## QVariant and double operations used by the code -/

/-- Numeric value of QMetaType::UnknownType. -/
def UnknownType : Nat := 0

/-- Numeric value of QMetaType::QVariantList. -/
def QVariantListType : Nat := 9

/-- The operations on QVariant (type V) and double (type D) that
QEPvLoadSaveItem.cpp calls. -/
structure QVariantOps (V D : Type) where
  /-- QEPlatform::metaType (v), as the numeric QMetaType::Type. -/
  metaType : V → Nat
  /-- QEVectorVariants::isVectorVariant (v). -/
  isVectorVariant : V → Bool
  /-- Conversion v.toDouble (&ok): the number and the ok flag. -/
  toDouble : V → D × Bool
  /-- QVariant operator==. -/
  equal : V → V → Bool
  /-- Conversion v.toList (). -/
  toList : V → List V
  /-- QEVectorVariants::convertToVariantList (v, okay): the list and the okay flag. -/
  convertToVariantList : V → List V × Bool
  /-- QVariant holding a QString. -/
  ofString : String → V
  /-- QVariant holding a double. -/
  ofDouble : D → V
  /-- Subtraction of doubles. -/
  sub : D → D → D
  /-- The test d == 0 on a double. -/
  isZero : D → Bool

/-- QList operator== on QVariantList: same length and element-wise equal. -/
def listEqual {V D : Type} (Q : QVariantOps V D) : List V → List V → Bool
  | [], [] => true
  | a :: as, b :: bs => Q.equal a b && listEqual Q as bs
  | _, _ => false

/-! ## Common types (QEPvLoadSaveCommon) -/

/-- QEPvLoadSaveCommon::ActionKinds. -/
inductive ActionKinds where
  | NullAction
  | Extract
  | Apply
  | ReadArchive
  | Update
  deriving DecidableEq, Repr

/-- QEPvLoadSaveCommon::StatusSummary: three int counters. -/
structure StatusSummary where
  isEqualCount : Int
  isNotEqualCount : Int
  isNotAplicableCount : Int
  deriving DecidableEq, Repr

/-- Modelled from the spec: QEPvLoadSaveCommon::clear is not among the sources;
it sets the three counts to zero (the all-zero summary). -/
def clear : StatusSummary :=
  { isEqualCount := 0, isNotEqualCount := 0, isNotAplicableCount := 0 }

/-- Modelled from the spec: QEPvLoadSaveCommon::merge is not among the sources;
the spec defines it as the pairwise sum of the three counts (int addition). -/
def merge (a b : StatusSummary) : StatusSummary :=
  { isEqualCount := wrapInt (a.isEqualCount + b.isEqualCount)
    isNotEqualCount := wrapInt (a.isNotEqualCount + b.isNotEqualCount)
    isNotAplicableCount := wrapInt (a.isNotAplicableCount + b.isNotAplicableCount) }

/-! ## Collaborators -/

/-- The part of qcaobject::QCaObject the leaf consults. -/
structure QCaObject (V : Type) where
  recordName : String
  variableIndex : Nat
  /-- Result of getDataIsAvailable (). -/
  dataIsAvailable : Bool
  /-- Result of getChannelIsConnected (). -/
  channelIsConnected : Bool
  /-- Result that writeData (value) returns. -/
  writeDataResult : V → Bool

/-- QEArchiveInterface::How, the interpolation mode of an archive request. -/
inductive How where
  | Raw
  | SpreadSheet
  | Averaged
  | PlotBinning
  | Linear
  deriving DecidableEq, Repr

/-- The arguments of one QEArchiveAccess::readArchive call. -/
structure ReadArchiveCall (T : Type) where
  userData : Nat
  pvName : String
  startTime : T
  endTime : T
  count : Int
  how : How
  element : Nat

/-- QCaDataPoint: one archive sample. -/
structure QCaDataPoint (D A T : Type) where
  value : D
  datetime : T
  alarm : A

/-- What a member function does to the outside: signals emitted and
collaborator calls made. -/
inductive Event (V T : Type) where
  /-- Signal reportActionComplete (item, action, okay). -/
  | reportActionComplete (item : Nat) (action : ActionKinds) (okay : Bool)
  /-- Signal reportActionInComplete (item, action). -/
  | reportActionInComplete (item : Nat) (action : ActionKinds)
  /-- Signal setReadOut (text). -/
  | setReadOut (text : String)
  /-- Call qcaSetPoint->writeData (value). -/
  | writeData (value : V)
  /-- Call QTimer::singleShot (msec, receiver, SLOT (delayedReadArchiveData ())). -/
  | singleShot (msec : Int) (receiver : Nat)
  /-- Call archiveAccess->readArchive (...). -/
  | readArchive (call : ReadArchiveCall T)

/-! ## The leaf -/

/-- State of a QEPvLoadSaveLeaf (with the QEPvLoadSaveItem fields it inherits). -/
structure QEPvLoadSaveLeaf (V A T : Type) where
  /-- Address of the object (this). -/
  self : Nat
  nodeName : String
  value : V
  liveValue : V
  setPointPvName : String
  readBackPvName : String
  archiverPvName : String
  action : ActionKinds
  actionIsComplete : Bool
  leafStatus : StatusSummary
  deltaText : V
  alarmInfo : A
  readArchiveDateTime : T
  qcaSetPoint : Option (QCaObject V)
  qcaReadBack : Option (QCaObject V)
  /-- Whether the archiveAccess pointer is non-null. -/
  archiveAccess : Bool

namespace QEPvLoadSaveLeaf

variable {V D A T : Type}

/-- QEPvLoadSaveLeaf::determineDeltaAndLeafStatus: recomputes the mutable
members leafStatus and deltaText from value and liveValue. -/
def determineDeltaAndLeafStatus (Q : QVariantOps V D) (l : QEPvLoadSaveLeaf V A T) :
    QEPvLoadSaveLeaf V A T :=
  let selfMetaType := Q.metaType l.value
  let selfIsVariantList := selfMetaType == QVariantListType
  let selfIsVectorVariant := Q.isVectorVariant l.value
  let selfIsScalar := !(selfIsVariantList || selfIsVectorVariant)
  let liveMetaType := Q.metaType l.liveValue
  let liveIsVariantList := liveMetaType == QVariantListType
  let liveIsVectorVariant := Q.isVectorVariant l.liveValue
  let liveIsScalar := !(liveIsVariantList || liveIsVectorVariant)
  -- Re(set) all to zero to start with.
  let s0 : StatusSummary :=
    { isEqualCount := 0, isNotEqualCount := 0, isNotAplicableCount := 0 }
  if liveMetaType == UnknownType || selfMetaType == UnknownType then
    -- One of both are undefined.
    { l with deltaText := Q.ofString "n/a"
             leafStatus := { s0 with isNotAplicableCount := 1 } }
  else if selfIsScalar && liveIsScalar then
    -- Both are scalar.
    let r1 := Q.toDouble l.liveValue
    let r2 := Q.toDouble l.value
    let diff := Q.sub r1.1 r2.1
    if r1.2 && r2.2 then
      -- Numerical value - we can calculate a numeric difference.
      let s1 := { s0 with isEqualCount := if Q.isZero diff then 1 else 0 }
      let s2 := { s1 with isNotAplicableCount := wrapInt (1 - s1.isEqualCount) }
      { l with deltaText := Q.ofDouble diff, leafStatus := s2 }
    else
      -- Not numerical
      let r : V × StatusSummary :=
        if Q.equal l.liveValue l.value then
          (Q.ofString "identical", { s0 with isEqualCount := 1 })
        else
          (Q.ofString "different", { s0 with isEqualCount := 0 })
      let s2 := { r.2 with isNotEqualCount := wrapInt (1 - r.2.isEqualCount) }
      { l with deltaText := r.1, leafStatus := s2 }
  else if !selfIsScalar || !liveIsScalar then
    -- Both are multi value: variants list or vector variant.
    let selfList :=
      if selfIsVectorVariant then (Q.convertToVariantList l.value).1
      else Q.toList l.value
    let liveList :=
      if liveIsVectorVariant then (Q.convertToVariantList l.liveValue).1
      else Q.toList l.liveValue
    let r : V × StatusSummary :=
      if listEqual Q liveList selfList then
        (Q.ofString "identical", { s0 with isEqualCount := 1 })
      else
        (Q.ofString "different", { s0 with isEqualCount := 0 })
    let s2 := { r.2 with isNotEqualCount := wrapInt (1 - r.2.isEqualCount) }
    { l with deltaText := r.1, leafStatus := s2 }
  else
    -- A mixture of scalar and array types
    { l with deltaText := Q.ofString "n/a"
             leafStatus := { s0 with isNotAplicableCount := 1 } }

/-- QEPvLoadSaveLeaf::getStatusSummary: forces re-evaluation of the leaf status
and returns it (with the leaf as updated by the re-evaluation). -/
def getStatusSummary (Q : QVariantOps V D) (l : QEPvLoadSaveLeaf V A T) :
    StatusSummary × QEPvLoadSaveLeaf V A T :=
  let l1 := determineDeltaAndLeafStatus Q l
  (l1.leafStatus, l1)

/-- QEPvLoadSaveLeaf::leafCount. -/
def leafCount (_l : QEPvLoadSaveLeaf V A T) : Int := 1

/-- QEPvLoadSaveLeaf::emitReportActionComplete. -/
def emitReportActionComplete (actionSuccessful : Bool) (l : QEPvLoadSaveLeaf V A T) :
    QEPvLoadSaveLeaf V A T × List (Event V T) :=
  -- Only successfull actions are deemed complete
  let l1 := if actionSuccessful then { l with actionIsComplete := true } else l
  (l1, [Event.reportActionComplete l1.self l1.action actionSuccessful])

/-- QEPvLoadSaveLeaf::extractPVData. -/
def extractPVData (l : QEPvLoadSaveLeaf V A T) :
    QEPvLoadSaveLeaf V A T × List (Event V T) :=
  let l1 := { l with action := ActionKinds.Extract }
  let r : QEPvLoadSaveLeaf V A T × Bool :=
    match l1.qcaReadBack with
    | some readBack =>
      if readBack.dataIsAvailable then ({ l1 with value := l1.liveValue }, true)
      else (l1, false)
    | none => (l1, false)
  let l2 := { r.1 with actionIsComplete := r.2 }
  emitReportActionComplete r.2 l2

/-- QEPvLoadSaveLeaf::applyPVData. -/
def applyPVData (l : QEPvLoadSaveLeaf V A T) :
    QEPvLoadSaveLeaf V A T × List (Event V T) :=
  let l1 := { l with action := ActionKinds.Apply, actionIsComplete := false }
  match l1.qcaSetPoint with
  | some setPoint =>
    if setPoint.channelIsConnected then
      let status := setPoint.writeDataResult l1.value
      let r := emitReportActionComplete status l1
      (r.1, Event.writeData l1.value :: r.2)
    else emitReportActionComplete false l1
  | none => emitReportActionComplete false l1

/-- QEPvLoadSaveLeaf::readArchiveData. The static member readArchiveCount is
passed in and returned. -/
def readArchiveData (dateTime : T) (l : QEPvLoadSaveLeaf V A T) (readArchiveCount : Int) :
    QEPvLoadSaveLeaf V A T × Int × List (Event V T) :=
  let l1 := { l with action := ActionKinds.ReadArchive
                     actionIsComplete := false
                     readArchiveDateTime := dateTime }
  let n := readArchiveCount
  let readArchiveCount1 := wrapInt (readArchiveCount + 1)
  (l1, readArchiveCount1, [Event.singleShot (wrapInt (10 * n)) l1.self])

/-- QEPvLoadSaveLeaf::delayedReadArchiveData (slot run by the timer). -/
def delayedReadArchiveData (l : QEPvLoadSaveLeaf V A T) :
    QEPvLoadSaveLeaf V A T × List (Event V T) :=
  if l.archiveAccess then
    (l, [Event.readArchive
          { userData := l.self
            pvName := l.nodeName
            startTime := l.readArchiveDateTime
            endTime := l.readArchiveDateTime
            count := 1
            how := How.Linear
            element := 0 }])
  else emitReportActionComplete false l

/-- QEPvLoadSaveLeaf::abortAction. -/
def abortAction (l : QEPvLoadSaveLeaf V A T) :
    QEPvLoadSaveLeaf V A T × List (Event V T) :=
  let events : List (Event V T) :=
    if !l.actionIsComplete then [Event.reportActionInComplete l.self l.action] else []
  ({ l with actionIsComplete := true }, events)

/-- QEPvLoadSaveLeaf::setArchiveData (slot receiving the archive response).
The test okay && dataPointList.count () > 0 is the first match arm with okay
true, where dataPointList.value (0) is the head of the list. -/
def setArchiveData (Q : QVariantOps V D) (okay : Bool)
    (dataPointList : List (QCaDataPoint D A T)) (l : QEPvLoadSaveLeaf V A T) :
    QEPvLoadSaveLeaf V A T × List (Event V T) :=
  match dataPointList with
  | item :: _ =>
    if okay then
      emitReportActionComplete true
        { l with value := Q.ofDouble item.value, alarmInfo := item.alarm }
    else emitReportActionComplete false l
  | [] => emitReportActionComplete false l

/-- QEPvLoadSaveLeaf::setupQCaObjects: recomputes the node name and replaces the
two PV objects. The parameter mergePvNames is QEPvLoadSaveUtilities::mergePvNames
and newQCaObject stands for creating and opening a QCaObject for a record name
and variable index. -/
def setupQCaObjects (mergePvNames : String → String → String → String)
    (newQCaObject : String → Nat → QCaObject V) (l : QEPvLoadSaveLeaf V A T) :
    QEPvLoadSaveLeaf V A T :=
  let aggragateName := mergePvNames l.setPointPvName l.readBackPvName l.archiverPvName
  { l with nodeName := aggragateName
           qcaSetPoint := some (newQCaObject l.setPointPvName 0)
           qcaReadBack := some (newQCaObject l.readBackPvName 1) }

/-- QEPvLoadSaveLeaf::QEPvLoadSaveLeaf, the constructor. The parameter self is
the address of the new object. The members the constructor does not assign
(liveValue, deltaText, alarmInfo, readArchiveDateTime, action) start as
dfltValue, dfltAlarm, dfltTime and dfltAction. -/
def new (mergePvNames : String → String → String → String)
    (newQCaObject : String → Nat → QCaObject V)
    (dfltValue : V) (dfltAlarm : A) (dfltTime : T) (dfltAction : ActionKinds) (self : Nat)
    (setPointPvNameIn readBackPvNameIn archiverPvNameIn : String) (value : V) :
    QEPvLoadSaveLeaf V A T :=
  let l : QEPvLoadSaveLeaf V A T :=
    { self := self
      nodeName := setPointPvNameIn
      value := value
      liveValue := dfltValue
      setPointPvName := setPointPvNameIn
      readBackPvName := if readBackPvNameIn.isEmpty then setPointPvNameIn else readBackPvNameIn
      archiverPvName := if archiverPvNameIn.isEmpty then setPointPvNameIn else archiverPvNameIn
      action := dfltAction
      actionIsComplete := true
      leafStatus := { isEqualCount := 0, isNotEqualCount := 0, isNotAplicableCount := 0 }
      deltaText := dfltValue
      alarmInfo := dfltAlarm
      readArchiveDateTime := dfltTime
      qcaSetPoint := none
      qcaReadBack := none
      archiveAccess := false }
  let l1 := setupQCaObjects mergePvNames newQCaObject l
  -- Allow item to retrive archive data values.
  { l1 with archiveAccess := true }

end QEPvLoadSaveLeaf

/-! ## The tree -/

/-- A QEPvLoadSaveItem with the subtree it owns: a QEPvLoadSaveGroup with its
childItems in order, or a QEPvLoadSaveLeaf. Child pointers are never null
(appendChild dereferences its argument and insertChild rejects NULL), so the
test if (item) in the loops over childItems always succeeds. -/
inductive QEPvLoadSaveItem (V A T : Type) where
  | group (nodeName : String) (value : V) (childItems : List (QEPvLoadSaveItem V A T))
  | leaf (l : QEPvLoadSaveLeaf V A T)

namespace QEPvLoadSaveItem

variable {V D A T : Type}

mutual
/-- Dispatching leafCount: QEPvLoadSaveGroup::leafCount or
QEPvLoadSaveLeaf::leafCount. -/
def leafCount : QEPvLoadSaveItem V A T → Int
  | group _ _ childItems => leafCountLoop childItems 0
  | leaf l => l.leafCount
/-- The for loop of QEPvLoadSaveGroup::leafCount over the remaining children,
with the running value of result. -/
def leafCountLoop : List (QEPvLoadSaveItem V A T) → Int → Int
  | [], result => result
  | item :: rest, result => leafCountLoop rest (wrapInt (result + leafCount item))
end

mutual
/-- Dispatching getStatusSummary: QEPvLoadSaveGroup::getStatusSummary or
QEPvLoadSaveLeaf::getStatusSummary. Returns the summary and the tree with the
re-evaluated leaves. -/
def getStatusSummary (Q : QVariantOps V D) :
    QEPvLoadSaveItem V A T → StatusSummary × QEPvLoadSaveItem V A T
  | group nodeName value childItems =>
    let r := getStatusSummaryLoop Q childItems clear
    (r.1, group nodeName value r.2)
  | leaf l =>
    let r := l.getStatusSummary Q
    (r.1, leaf r.2)
/-- The for loop of QEPvLoadSaveGroup::getStatusSummary over the remaining
children, with the running value of result. -/
def getStatusSummaryLoop (Q : QVariantOps V D) :
    List (QEPvLoadSaveItem V A T) → StatusSummary →
      StatusSummary × List (QEPvLoadSaveItem V A T)
  | [], result => (result, [])
  | item :: rest, result =>
    let r := getStatusSummary Q item
    let rs := getStatusSummaryLoop Q rest (merge result r.1)
    (rs.1, r.2 :: rs.2)
end

mutual
/-- Dispatching readArchiveData: QEPvLoadSaveGroup::readArchiveData or
QEPvLoadSaveLeaf::readArchiveData, threading the static readArchiveCount. -/
def readArchiveData (dateTime : T) :
    QEPvLoadSaveItem V A T → Int → QEPvLoadSaveItem V A T × Int × List (Event V T)
  | group nodeName value childItems, readArchiveCount =>
    let r := readArchiveDataLoop dateTime childItems readArchiveCount
    (group nodeName value r.1, r.2.1, r.2.2)
  | leaf l, readArchiveCount =>
    let r := l.readArchiveData dateTime readArchiveCount
    (leaf r.1, r.2.1, r.2.2)
/-- The for loop of QEPvLoadSaveGroup::readArchiveData over the remaining
children. -/
def readArchiveDataLoop (dateTime : T) :
    List (QEPvLoadSaveItem V A T) → Int →
      List (QEPvLoadSaveItem V A T) × Int × List (Event V T)
  | [], readArchiveCount => ([], readArchiveCount, [])
  | item :: rest, readArchiveCount =>
    let r := readArchiveData dateTime item readArchiveCount
    let rs := readArchiveDataLoop dateTime rest r.2.1
    (r.1 :: rs.1, rs.2.1, r.2.2 ++ rs.2.2)
end

/-- QEPvLoadSaveItem::initReadArchiveData: the new value of readArchiveCount. -/
def initReadArchiveData : Int := 0

mutual
/-- Structural count of the Leaf nodes of a tree. -/
def numLeaves : QEPvLoadSaveItem V A T → Nat
  | group _ _ childItems => numLeavesList childItems
  | leaf _ => 1
/-- Structural count of the Leaf nodes of a list of trees. -/
def numLeavesList : List (QEPvLoadSaveItem V A T) → Nat
  | [] => 0
  | item :: rest => numLeaves item + numLeavesList rest
end

mutual
/-- The Leaf nodes of a tree in depth-first child order. -/
def leaves : QEPvLoadSaveItem V A T → List (QEPvLoadSaveLeaf V A T)
  | group _ _ childItems => leavesList childItems
  | leaf l => [l]
/-- The Leaf nodes of a list of trees in depth-first child order. -/
def leavesList : List (QEPvLoadSaveItem V A T) → List (QEPvLoadSaveLeaf V A T)
  | [] => []
  | item :: rest => leaves item ++ leavesList rest
end

end QEPvLoadSaveItem

/-! ## Expected timer schedule -/

/-- The timer calls that give the leaves of a list, in order, the delays
10 * c, 10 * (c + 1), 10 * (c + 2), ... -/
def staggeredFrom {V A T : Type} (c : Int) :
    List (QEPvLoadSaveLeaf V A T) → List (Event V T)
  | [] => []
  | l :: rest => Event.singleShot (10 * c) l.self :: staggeredFrom (c + 1) rest

/-! ## Conditions the leaf actions test -/

/-- Whether the read back PV object of a leaf exists and reports data available:
the condition tested by extractPVData. -/
def readBackDataIsAvailable {V A T : Type} (l : QEPvLoadSaveLeaf V A T) : Bool :=
  match l.qcaReadBack with
  | some readBack => readBack.dataIsAvailable
  | none => false

/-- Whether the set point PV object of a leaf exists and reports its channel
connected: the condition tested by applyPVData. -/
def setPointIsConnected {V A T : Type} (l : QEPvLoadSaveLeaf V A T) : Bool :=
  match l.qcaSetPoint with
  | some setPoint => setPoint.channelIsConnected
  | none => false

/-- What writeData (value) on the set point PV object of a leaf returns. -/
def setPointWriteResult {V A T : Type} (l : QEPvLoadSaveLeaf V A T) : Bool :=
  match l.qcaSetPoint with
  | some setPoint => setPoint.writeDataResult l.value
  | none => false

/-! ## A concrete QVariant fragment

Used to evaluate the definitions on concrete inputs. -/

/-- A fragment of QVariant: the invalid variant, a double, a QString holding
text that is not a number, a QVariantList of doubles and a vector variant of
doubles. Doubles are represented by rationals. -/
inductive SampleVariant where
  | invalid
  | double (d : Rat)
  | text (s : String)
  | list (xs : List Rat)
  | vector (xs : List Rat)
  deriving DecidableEq, Repr

/-- QVariant and double operations on the fragment. -/
def sampleOps : QVariantOps SampleVariant Rat where
  metaType
    | SampleVariant.invalid => 0
    | SampleVariant.double _ => 6
    | SampleVariant.text _ => 10
    | SampleVariant.list _ => 9
    | SampleVariant.vector _ => 1024
  isVectorVariant
    | SampleVariant.vector _ => true
    | _ => false
  toDouble
    | SampleVariant.double d => (d, true)
    | _ => (0, false)
  equal a b := decide (a = b)
  toList
    | SampleVariant.list xs => xs.map SampleVariant.double
    | _ => []
  convertToVariantList
    | SampleVariant.vector xs => (xs.map SampleVariant.double, true)
    | _ => ([], false)
  ofString s := SampleVariant.text s
  ofDouble d := SampleVariant.double d
  sub a b := a - b
  isZero d := decide (d = 0)

/-- A QCaObject of the fragment with the given availability and connection
flags, whose writeData returns the given result. -/
def sampleQCaObject (recordName : String) (variableIndex : Nat)
    (dataIsAvailable channelIsConnected writeOkay : Bool) : QCaObject SampleVariant :=
  { recordName := recordName
    variableIndex := variableIndex
    dataIsAvailable := dataIsAvailable
    channelIsConnected := channelIsConnected
    writeDataResult := fun _ => writeOkay }

/-- A leaf over the fragment with the given persisted and live values, node
name and action state; alarm info and times are natural numbers. -/
def sampleLeaf (self : Nat) (name : String) (value liveValue : SampleVariant)
    (action : ActionKinds) (actionIsComplete : Bool)
    (dataIsAvailable channelIsConnected writeOkay : Bool) :
    QEPvLoadSaveLeaf SampleVariant Nat Nat :=
  { self := self
    nodeName := name
    value := value
    liveValue := liveValue
    setPointPvName := name
    readBackPvName := name
    archiverPvName := name
    action := action
    actionIsComplete := actionIsComplete
    leafStatus := { isEqualCount := 0, isNotEqualCount := 0, isNotAplicableCount := 0 }
    deltaText := SampleVariant.invalid
    alarmInfo := 0
    readArchiveDateTime := 0
    qcaSetPoint := some (sampleQCaObject name 0 false channelIsConnected writeOkay)
    qcaReadBack := some (sampleQCaObject name 1 dataIsAvailable false writeOkay)
    archiveAccess := true }

/-- A leaf of the fragment with the given address, persisted and live value. -/
def sampleLeafOf (self : Nat) (value liveValue : SampleVariant) :
    QEPvLoadSaveLeaf SampleVariant Nat Nat :=
  sampleLeaf self "PV" value liveValue ActionKinds.NullAction true true true true

/-- Three sample children: an equal leaf, a leaf with an undefined value and a
nested group of one leaf holding different texts. -/
def sampleChildren : List (QEPvLoadSaveItem SampleVariant Nat Nat) :=
  [ QEPvLoadSaveItem.leaf (sampleLeafOf 1 (SampleVariant.double 10) (SampleVariant.double 10)),
    QEPvLoadSaveItem.leaf (sampleLeafOf 2 SampleVariant.invalid (SampleVariant.double 3)),
    QEPvLoadSaveItem.group "inner" SampleVariant.invalid
      [QEPvLoadSaveItem.leaf (sampleLeafOf 3 (SampleVariant.text "on") (SampleVariant.text "off"))] ]

/-- The sample children in another order. -/
def sampleChildrenShuffled : List (QEPvLoadSaveItem SampleVariant Nat Nat) :=
  [ QEPvLoadSaveItem.leaf (sampleLeafOf 2 SampleVariant.invalid (SampleVariant.double 3)),
    QEPvLoadSaveItem.leaf (sampleLeafOf 1 (SampleVariant.double 10) (SampleVariant.double 10)),
    QEPvLoadSaveItem.group "inner" SampleVariant.invalid
      [QEPvLoadSaveItem.leaf (sampleLeafOf 3 (SampleVariant.text "on") (SampleVariant.text "off"))] ]

/-- A sample tree: a root group holding the sample children and an empty group. -/
def sampleTree : QEPvLoadSaveItem SampleVariant Nat Nat :=
  QEPvLoadSaveItem.group "root" SampleVariant.invalid
    (sampleChildren ++ [QEPvLoadSaveItem.group "empty" SampleVariant.invalid []])

/-! ## Names, display columns and the numeric export map of a leaf -/

/-- QEPvLoadSaveCommon::ColumnKinds: the columns getData is asked for. -/
inductive ColumnKinds where
  | NodeName
  | LoadSave
  | Live
  | Delta
  deriving DecidableEq, Repr

/-- The QVariant operations that getData needs besides those of QVariantOps. -/
structure QVariantTextOps (V : Type) where
  /-- Conversion v.toString (). -/
  toString : V → String
  /-- QEVectorVariants::vectorCount (v). -/
  vectorCount : V → Int

/-- The text arrayImage.arg (n), with arrayImage the QString "<< array [%1] >>". -/
def arrayImage (n : Int) : String := "<< array [" ++ toString n ++ "] >>"

/-- QEPvLoadSaveCommon::PvNameValueMaps, a map from PV name to double: the
value stored under each key, if any. -/
abbrev PvNameValueMaps (D : Type) := String → Option D

/-- The map after result.clear (): no entry. -/
def PvNameValueMaps.empty {D : Type} : PvNameValueMaps D := fun _ => none

/-- The map after result.insert (key, dval): QMap::insert replaces the value of
an existing key. -/
def PvNameValueMaps.insert {D : Type} (m : PvNameValueMaps D) (key : String) (dval : D) :
    PvNameValueMaps D :=
  fun k => if k = key then some dval else m k

/-- Modelled from the spec: QEPvLoadSaveCommon::merge on PvNameValueMaps is not
among the sources; the spec says the group merges the child maps with
last-writer-wins on key collision, so an entry of b replaces the entry of a
with the same key. -/
def mergeMaps {D : Type} (a b : PvNameValueMaps D) : PvNameValueMaps D :=
  fun k =>
    match b k with
    | some v => some v
    | none => a k

namespace QEPvLoadSaveLeaf

variable {V D A T : Type}

/-- QEPvLoadSaveLeaf::setPvNames. -/
def setPvNames (mergePvNames : String → String → String → String)
    (newQCaObject : String → Nat → QCaObject V)
    (setPointPvNameIn readBackPvNameIn archiverPvNameIn : String)
    (l : QEPvLoadSaveLeaf V A T) : QEPvLoadSaveLeaf V A T :=
  let l1 := { l with setPointPvName := setPointPvNameIn }
  let l2 := { l1 with readBackPvName :=
                if readBackPvNameIn.isEmpty then l1.setPointPvName else readBackPvNameIn }
  let l3 := { l2 with archiverPvName :=
                if archiverPvNameIn.isEmpty then l2.setPointPvName else archiverPvNameIn }
  setupQCaObjects mergePvNames newQCaObject l3

/-- QEPvLoadSaveLeaf::setReadBackPvName. -/
def setReadBackPvName (mergePvNames : String → String → String → String)
    (newQCaObject : String → Nat → QCaObject V) (pvName : String)
    (l : QEPvLoadSaveLeaf V A T) : QEPvLoadSaveLeaf V A T :=
  setupQCaObjects mergePvNames newQCaObject { l with readBackPvName := pvName }

/-- QEPvLoadSaveLeaf::setArchiverPvName. -/
def setArchiverPvName (mergePvNames : String → String → String → String)
    (newQCaObject : String → Nat → QCaObject V) (pvName : String)
    (l : QEPvLoadSaveLeaf V A T) : QEPvLoadSaveLeaf V A T :=
  setupQCaObjects mergePvNames newQCaObject { l with archiverPvName := pvName }

/-- QEPvLoadSaveLeaf::setNodeName. The parameter splitPvNames is
QEPvLoadSaveUtilities::splitPvNames: for a name it gives the okay flag and the
set point, read back and archiver parts. -/
def setNodeName (splitPvNames : String → Bool × String × String × String)
    (mergePvNames : String → String → String → String)
    (newQCaObject : String → Nat → QCaObject V) (nodeName : String)
    (l : QEPvLoadSaveLeaf V A T) : QEPvLoadSaveLeaf V A T × List (Event V T) :=
  let r := splitPvNames nodeName
  let okay := r.1
  let setPoint := r.2.1
  let readBack := r.2.2.1
  let archiver := r.2.2.2
  if okay then
    let l1 := { l with setPointPvName := setPoint
                       readBackPvName := readBack
                       archiverPvName := archiver
                       action := ActionKinds.NullAction }
    (setupQCaObjects mergePvNames newQCaObject l1, [])
  else
    (l, [Event.setReadOut ("failed to parse: " ++ nodeName)])

/-- QEPvLoadSaveLeaf::getData: the QVariant shown in a column, with the leaf as
updated by the call (the Delta column re-evaluates the status). The column is
none when the int given names no column (the default branch). -/
def getData (Q : QVariantOps V D) (P : QVariantTextOps V) (column : Option ColumnKinds)
    (l : QEPvLoadSaveLeaf V A T) : V × QEPvLoadSaveLeaf V A T :=
  let selfMetaType := Q.metaType l.value
  let liveMetaType := Q.metaType l.liveValue
  match column with
  | some ColumnKinds.NodeName => (Q.ofString l.nodeName, l)
  | some ColumnKinds.LoadSave =>
    -- For arrays and vectors, we just display type and size.
    let valueImage :=
      if selfMetaType == QVariantListType then
        arrayImage ((Q.toList l.value).length : Int)
      else if Q.isVectorVariant l.value then
        arrayImage (P.vectorCount l.value)
      else P.toString l.value
    (Q.ofString valueImage, l)
  | some ColumnKinds.Live =>
    let valueImage :=
      if liveMetaType == QVariantListType then
        arrayImage ((Q.toList l.value).length : Int)
      else if Q.isVectorVariant l.liveValue then
        arrayImage (P.vectorCount l.liveValue)
      else P.toString l.liveValue
    (Q.ofString valueImage, l)
  | some ColumnKinds.Delta =>
    let l1 := determineDeltaAndLeafStatus Q l
    (l1.deltaText, l1)
  | none => (Q.ofString "error", l)

/-- QEPvLoadSaveLeaf::getPvNameValueMap. -/
def getPvNameValueMap (Q : QVariantOps V D) (l : QEPvLoadSaveLeaf V A T) :
    PvNameValueMaps D :=
  let result : PvNameValueMaps D := PvNameValueMaps.empty
  -- Can this current value be sensible represented as a double value??
  let r := Q.toDouble l.value
  if r.2 then
    let key := l.setPointPvName
    result.insert key r.1
  else result

end QEPvLoadSaveLeaf

namespace QEPvLoadSaveItem

variable {V D A T : Type}

mutual
/-- Dispatching getPvNameValueMap: QEPvLoadSaveGroup::getPvNameValueMap or
QEPvLoadSaveLeaf::getPvNameValueMap. -/
def getPvNameValueMap (Q : QVariantOps V D) : QEPvLoadSaveItem V A T → PvNameValueMaps D
  | group _ _ childItems => getPvNameValueMapLoop Q childItems PvNameValueMaps.empty
  | leaf l => l.getPvNameValueMap Q
/-- The for loop of QEPvLoadSaveGroup::getPvNameValueMap over the remaining
children, with the running value of result. -/
def getPvNameValueMapLoop (Q : QVariantOps V D) :
    List (QEPvLoadSaveItem V A T) → PvNameValueMaps D → PvNameValueMaps D
  | [], result => result
  | theChild :: rest, result =>
    let childMap := getPvNameValueMap Q theChild
    getPvNameValueMapLoop Q rest (mergeMaps result childMap)
end

mutual
/-- Shape relation between a tree and a copy of it: a group is matched by a
group of the same node name whose children match the original children one by
one in order, a leaf by a leaf related by leafRel. -/
def CopyShape (leafRel : QEPvLoadSaveLeaf V A T → QEPvLoadSaveLeaf V A T → Prop) :
    QEPvLoadSaveItem V A T → QEPvLoadSaveItem V A T → Prop
  | group nodeName _ childItems, copy =>
    match copy with
    | group copyName _ copyItems => copyName = nodeName ∧ CopyShapeList leafRel childItems copyItems
    | leaf _ => False
  | leaf l, copy =>
    match copy with
    | leaf c => leafRel l c
    | group _ _ _ => False
/-- The shape relation on child lists: same length, related position by
position. -/
def CopyShapeList (leafRel : QEPvLoadSaveLeaf V A T → QEPvLoadSaveLeaf V A T → Prop) :
    List (QEPvLoadSaveItem V A T) → List (QEPvLoadSaveItem V A T) → Prop
  | [], copies => copies = []
  | item :: rest, copies =>
    match copies with
    | copy :: copyRest => CopyShape leafRel item copy ∧ CopyShapeList leafRel rest copyRest
    | [] => False
end

end QEPvLoadSaveItem

/-- Leaf relation of the claim as stated: the copy has the same set point, read
back and archiver PV names and the same value as the original. -/
def SameNamesAndValue {V A T : Type} (l c : QEPvLoadSaveLeaf V A T) : Prop :=
  c.setPointPvName = l.setPointPvName ∧ c.readBackPvName = l.readBackPvName ∧
    c.archiverPvName = l.archiverPvName ∧ c.value = l.value

/-- Leaf relation the constructor gives: the copy has the same set point name and
value; its read back and archiver names are those of the original when these
are not empty and the set point name otherwise. -/
def DefaultedNamesAndValue {V A T : Type} (l c : QEPvLoadSaveLeaf V A T) : Prop :=
  c.setPointPvName = l.setPointPvName ∧
    c.readBackPvName
      = (if l.readBackPvName.isEmpty then l.setPointPvName else l.readBackPvName) ∧
    c.archiverPvName
      = (if l.archiverPvName.isEmpty then l.setPointPvName else l.archiverPvName) ∧
    c.value = l.value

/-- The numeric value of the last leaf of a list whose set point PV name is key
and whose value converts to double, if there is one. -/
def lastNumericValue {V D A T : Type} (Q : QVariantOps V D)
    (ls : List (QEPvLoadSaveLeaf V A T)) (key : String) : Option D :=
  ((ls.filter fun l => decide (l.setPointPvName = key) && (Q.toDouble l.value).2).getLast?).map
    fun l => (Q.toDouble l.value).1

/-! ## Element sequences -/

/-- QEPvLoadSaveItem::getElementCount, on the value of the item: the vector
count of a vector variant, the size of a list, and 1 for anything else (assumed
to be a scalar). -/
def getElementCount {V D : Type} (Q : QVariantOps V D) (P : QVariantTextOps V) (value : V) :
    Int :=
  if Q.isVectorVariant value then P.vectorCount value
  else if Q.metaType value == QVariantListType then ((Q.toList value).length : Int)
  else 1

/-- Whether a value is multi valued: a QVariantList or a vector variant. -/
def isMultiValue {V D : Type} (Q : QVariantOps V D) (v : V) : Bool :=
  Q.metaType v == QVariantListType || Q.isVectorVariant v

/-- The ordered element sequence of a value that is a list or a vector: the
elements of the vector variant or of the list. A scalar is not a sequence. -/
def elementSequence {V D : Type} (Q : QVariantOps V D) (v : V) : Option (List V) :=
  if Q.isVectorVariant v then some (Q.convertToVariantList v).1
  else if Q.metaType v == QVariantListType then some (Q.toList v)
  else none

/-- The condition of the specification, two values are identical as ordered
element sequences: both are sequences (each a list or a vector), of the same
length and equal element by element under QVariant operator==. A scalar, not
being a sequence, is identical as a sequence to no list and no vector. -/
def IdenticalAsSequences {V D : Type} (Q : QVariantOps V D) (a b : V) : Prop :=
  ∃ as bs, elementSequence Q a = some as ∧ elementSequence Q b = some bs ∧
    List.Forall₂ (fun x y => Q.equal x y = true) as bs

/-! ## More of the concrete fragment -/

/-- Text and element count of the fragment: toString gives the text of a QString,
the digits of a whole double, numerator/denominator for another double, and the
empty text for the invalid variant, a list and a vector. -/
def sampleTextOps : QVariantTextOps SampleVariant where
  toString
    | SampleVariant.text s => s
    | SampleVariant.double d =>
      if d.den = 1 then toString d.num else toString d.num ++ "/" ++ toString d.den
    | _ => ""
  vectorCount
    | SampleVariant.vector xs => (xs.length : Int)
    | _ => 0

/-- A stand-in for QEPvLoadSaveUtilities::mergePvNames when definitions are
evaluated: the name itself when the three names agree, otherwise the three
names joined by semicolons. -/
def sampleMergePvNames (setPoint readBack archiver : String) : String :=
  if setPoint = readBack ∧ readBack = archiver then setPoint
  else setPoint ++ ";" ++ readBack ++ ";" ++ archiver

/-- A stand-in for QEPvLoadSaveUtilities::splitPvNames when definitions are
evaluated: the empty name fails to parse, any other name is taken as a plain PV
name standing for all three roles. -/
def sampleSplitPvNames (name : String) : Bool × String × String × String :=
  if name.isEmpty then (false, "", "", "") else (true, name, name, name)

/-- A newly created QCaObject of the fragment: no data yet, not connected. -/
def sampleNewQCaObject (recordName : String) (variableIndex : Nat) : QCaObject SampleVariant :=
  sampleQCaObject recordName variableIndex false false false

/-- A leaf of the fragment, with set point name PV, whose read back name has been
set to the empty name by setReadBackPvName. -/
def sampleLeafEmptyReadBack : QEPvLoadSaveLeaf SampleVariant Nat Nat :=
  QEPvLoadSaveLeaf.setReadBackPvName sampleMergePvNames sampleNewQCaObject ""
    (sampleLeafOf 1 (SampleVariant.double 10) (SampleVariant.double 10))

/-! ## The tree as linked objects

The structural members of the QEPvLoadSaveItem objects (parentItem and
childItems), kept per object address, for the operations that change the
structure through pointers. Addresses are handed out in order and never reused.
A call through a pointer to an object that is not alive is undefined behaviour
in C++; here it reads and writes the members kept for that address. -/

/-- The dynamic type of an item: QEPvLoadSaveGroup or QEPvLoadSaveLeaf. -/
inductive ItemKind where
  | group
  | leaf
  deriving DecidableEq, Repr

/-- The objects and their structural members, by address. -/
structure ItemStore where
  /-- Whether the object at the address is alive (constructed and not deleted). -/
  live : Nat → Bool
  /-- The dynamic type of the object. -/
  kind : Nat → ItemKind
  /-- The member parentItem (none for NULL). -/
  parentItem : Nat → Option Nat
  /-- The member childItems. -/
  childItems : Nat → List Nat
  /-- The address the next object created gets. -/
  next : Nat

namespace ItemStore

/-- The store before any object is created. -/
def empty : ItemStore :=
  { live := fun _ => false
    kind := fun _ => ItemKind.group
    parentItem := fun _ => none
    childItems := fun _ => []
    next := 0 }

/-- QEPvLoadSaveItem::appendChild, called on the object this. -/
def appendChild (this child : Nat) (s : ItemStore) : ItemStore :=
  -- Check for duplicates???
  let s1 := { s with childItems := Function.update s.childItems this
                        (s.childItems this ++ [child]) }
  -- Ensure consistency
  { s1 with parentItem := Function.update s1.parentItem child (some this) }

/-- QEPvLoadSaveItem::QEPvLoadSaveItem, the constructor, reached through the
group constructor or the leaf constructor (kind says which): gives the store
with the new object and the address of the new object. -/
def construct (kind : ItemKind) (parentIn : Option Nat) (s : ItemStore) : ItemStore × Nat :=
  let self := s.next
  let s1 : ItemStore :=
    { live := Function.update s.live self true
      kind := Function.update s.kind self kind
      parentItem := Function.update s.parentItem self parentIn
      childItems := Function.update s.childItems self []
      next := s.next + 1 }
  -- Add to parent's own/specific QEPvLoadSaveItem child list.
  match parentIn with
  | some parent => (appendChild parent self s1, self)
  | none => (s1, self)

/-- QList::insert (n, c) for 0 <= n <= size: c is at index n, the former
elements keep their order. -/
def insertAt (l : List Nat) (n : Nat) (c : Nat) : List Nat :=
  l.take n ++ c :: l.drop n

/-- QEPvLoadSaveItem::insertChild, called on the object this; child is none for
a null pointer. Gives the value returned and the store. -/
def insertChild (this : Nat) (position : Int) (child : Option Nat) (s : ItemStore) :
    Bool × ItemStore :=
  if position < 0 || position > ((s.childItems this).length : Int) then (false, s)
  else
    match child with
    | none => (false, s)
    | some c =>
      let s1 := { s with parentItem := Function.update s.parentItem c (some this) }
      let s2 := { s1 with childItems := Function.update s1.childItems this
                            (insertAt (s1.childItems this) position.toNat c) }
      (true, s2)

/-- The effect of delete on an item: QEPvLoadSaveItem::~QEPvLoadSaveItem deletes
all childItems (qDeleteAll), then the object is gone. The first argument bounds
the depth of the recursion; deleting an object that is not alive (undefined
behaviour in C++) is left without effect. -/
def destroy : Nat → Nat → ItemStore → ItemStore
  | 0, _, s => s
  | fuel + 1, item, s =>
    if s.live item then
      let s1 := (s.childItems item).foldl (fun st c => destroy fuel c st) s
      { s1 with live := Function.update s1.live item false }
    else s

/-- The for loop of QEPvLoadSaveItem::removeChildren with the given number of
rows still to do: delete childItems.takeAt (position). -/
def removeChildrenLoop (fuel : Nat) (this : Nat) (position : Int) : Nat → ItemStore → ItemStore
  | 0, s => s
  | rows + 1, s =>
    match (s.childItems this).get? position.toNat with
    | some c =>
      let s1 := { s with childItems := Function.update s.childItems this
                          ((s.childItems this).eraseIdx position.toNat) }
      removeChildrenLoop fuel this position rows (destroy fuel c s1)
    | none => s

/-- QEPvLoadSaveItem::removeChildren, called on the object this. Gives the value
returned and the store; fuel bounds the depth of the deletions. -/
def removeChildren (fuel : Nat) (this : Nat) (position count : Int) (s : ItemStore) :
    Bool × ItemStore :=
  if position < 0 || wrapInt (position + count) > ((s.childItems this).length : Int) then
    (false, s)
  else (true, removeChildrenLoop fuel this position count.toNat s)

mutual
/-- Dispatching clone on the object this: QEPvLoadSaveGroup::clone or
QEPvLoadSaveLeaf::clone. Gives the store and the address of the copy; the first
argument bounds the number of nested calls and loop rounds. -/
def clone : Nat → Nat → Option Nat → ItemStore → ItemStore × Option Nat
  | 0, _, _, s => (s, none)
  | fuel + 1, this, parent, s =>
    let r := construct (s.kind this) parent s
    match s.kind this with
    | ItemKind.leaf => (r.1, some r.2)
    | ItemKind.group => (cloneLoop fuel this r.2 0 r.1, some r.2)
/-- The for loop of QEPvLoadSaveGroup::clone at index j: the child at j is
cloned under result. -/
def cloneLoop : Nat → Nat → Nat → Nat → ItemStore → ItemStore
  | 0, _, _, _, s => s
  | fuel + 1, this, result, j, s =>
    match (s.childItems this).get? j with
    | some theChild => cloneLoop fuel this result (j + 1) (clone fuel theChild (some result) s).1
    | none => s
end

end ItemStore

/-- A structural operation on the tree. -/
inductive StructuralOp where
  | construct (kind : ItemKind) (parentIn : Option Nat)
  | appendChild (this child : Nat)
  | insertChild (this : Nat) (position : Int) (child : Option Nat)
  | removeChildren (fuel : Nat) (this : Nat) (position count : Int)
  | clone (fuel : Nat) (this : Nat) (parent : Option Nat)

/-- The store after one structural operation. -/
def applyOp : StructuralOp → ItemStore → ItemStore
  | StructuralOp.construct kind parentIn, s => (ItemStore.construct kind parentIn s).1
  | StructuralOp.appendChild this child, s => ItemStore.appendChild this child s
  | StructuralOp.insertChild this position child, s =>
    (ItemStore.insertChild this position child s).2
  | StructuralOp.removeChildren fuel this position count, s =>
    (ItemStore.removeChildren fuel this position count s).2
  | StructuralOp.clone fuel this parent, s => (ItemStore.clone fuel this parent s).1

/-- The store after a sequence of structural operations. -/
def runOps : List StructuralOp → ItemStore → ItemStore
  | [], s => s
  | op :: rest, s => runOps rest (applyOp op s)

/-- Tree well-formedness: among the objects alive, every child list is free of
duplicates, every node of a child list has the owner of the list as its
parentItem, and no node is in the child lists of two nodes. -/
def WellFormed (s : ItemStore) : Prop :=
  (∀ p, s.live p = true → (s.childItems p).Nodup) ∧
  (∀ p c, s.live p = true → s.live c = true → c ∈ s.childItems p →
    s.parentItem c = some p) ∧
  (∀ p q c, s.live p = true → s.live q = true → c ∈ s.childItems p → c ∈ s.childItems q →
    p = q)

/-- The addresses not yet handed out belong to no object alive and are in no
child list of an object alive. -/
def Fresh (s : ItemStore) : Prop :=
  ∀ a, s.next ≤ a → s.live a = false ∧ ∀ p, s.live p = true → a ∉ s.childItems p

/-- The node is in no child list of an object alive. -/
def Detached (s : ItemStore) (c : Nat) : Prop :=
  ∀ p, s.live p = true → c ∉ s.childItems p

/-- The condition under which an operation keeps the tree well formed: the node
given to appendChild, or to an insertChild call whose position is accepted, is
alive and in no child list. -/
def OpAdmissible : StructuralOp → ItemStore → Prop
  | StructuralOp.appendChild _ child, s => s.live child = true ∧ Detached s child
  | StructuralOp.insertChild this position (some c), s =>
    (0 ≤ position ∧ position ≤ ((s.childItems this).length : Int)) →
      s.live c = true ∧ Detached s c
  | _, _ => True

/-- Every operation of the sequence is admissible in the store it is applied to. -/
def Admissible : List StructuralOp → ItemStore → Prop
  | [], _ => True
  | op :: rest, s => OpAdmissible op s ∧ Admissible rest (applyOp op s)

/-- The children of every node alive in both stores keep their relative order
from one store to the other: one child list is the other with some nodes left
out. -/
def OrderKept (s t : ItemStore) : Prop :=
  ∀ p, s.live p = true → t.live p = true →
    List.Sublist (s.childItems p) (t.childItems p) ∨
      List.Sublist (t.childItems p) (s.childItems p)

/-- The store t is the store s after additions only: every object alive in s is
alive in t, and its child list in s is its child list in t with some nodes left
out. -/
def Grows (s t : ItemStore) : Prop :=
  (∀ p, s.live p = true → t.live p = true) ∧
  (∀ p, s.live p = true → List.Sublist (s.childItems p) (t.childItems p))

/-- The store t is the store s after deletions only: every object alive in t was
alive in s, every child list of t is the child list of s with some nodes left
out, and the parentItem members and the next address are the same. -/
def Shrinks (s t : ItemStore) : Prop :=
  (∀ p, t.live p = true → s.live p = true) ∧
  (∀ p, List.Sublist (t.childItems p) (s.childItems p)) ∧
  t.parentItem = s.parentItem ∧ t.next = s.next

/-- A root group with one child built with the root as parent, and then
insertChild (0, child) on the root with that same child. -/
def sampleDoubleInsert : List StructuralOp :=
  [ StructuralOp.construct ItemKind.group none,
    StructuralOp.construct ItemKind.leaf (some 0),
    StructuralOp.insertChild 0 0 (some 1) ]

/-- A sequence of admissible operations: a root group, a leaf under it, a group
built without parent and inserted in front of the leaf, a clone of the leaf
under the inserted group, and the removal of the first child of the root. -/
def sampleOpSequence : List StructuralOp :=
  [ StructuralOp.construct ItemKind.group none,
    StructuralOp.construct ItemKind.leaf (some 0),
    StructuralOp.construct ItemKind.group none,
    StructuralOp.insertChild 0 0 (some 2),
    StructuralOp.clone 5 1 (some 2),
    StructuralOp.removeChildren 5 0 0 1 ]

/-! ## Clone on the linked objects -/

/-- The members of an item besides parentItem and childItems, by dynamic type:
nodeName and value of a QEPvLoadSaveGroup, or the members of a
QEPvLoadSaveLeaf. -/
inductive ItemMembers (V A T : Type) where
  | group (nodeName : String) (value : V)
  | leaf (l : QEPvLoadSaveLeaf V A T)

/-- The objects by address: the structural members and the other members. -/
structure ObjectStore (V A T : Type) where
  items : ItemStore
  members : Nat → ItemMembers V A T

namespace ObjectStore

variable {V A T : Type}

mutual
/-- Dispatching clone (parent), called on the object this: QEPvLoadSaveGroup::clone
or QEPvLoadSaveLeaf::clone by the dynamic type of this. Gives the store and the
address returned, or none when the call has not returned within the bound: the
first argument bounds the number of nested calls and loop rounds. The group
constructor passes nilValue (the parameter dfltValue, the default constructed
QVariant) as value. -/
def clone (mergePvNames : String → String → String → String)
    (newQCaObject : String → Nat → QCaObject V)
    (dfltValue : V) (dfltAlarm : A) (dfltTime : T) (dfltAction : ActionKinds) :
    Nat → Nat → Option Nat → ObjectStore V A T → Option (ObjectStore V A T × Nat)
  | 0, _, _, _ => none
  | fuel + 1, this, parent, s =>
    match s.members this with
    | ItemMembers.leaf l =>
      let r := ItemStore.construct ItemKind.leaf parent s.items
      let result := QEPvLoadSaveLeaf.new mergePvNames newQCaObject dfltValue dfltAlarm
        dfltTime dfltAction r.2 l.setPointPvName l.readBackPvName l.archiverPvName l.value
      some ({ items := r.1, members := Function.update s.members r.2 (ItemMembers.leaf result) },
        r.2)
    | ItemMembers.group nodeName _ =>
      let r := ItemStore.construct ItemKind.group parent s.items
      let s1 : ObjectStore V A T :=
        { items := r.1
          members := Function.update s.members r.2 (ItemMembers.group nodeName dfltValue) }
      -- Now clone each child.
      match cloneLoop mergePvNames newQCaObject dfltValue dfltAlarm dfltTime dfltAction
          fuel this r.2 0 s1 with
      | some s2 => some (s2, r.2)
      | none => none
/-- The for loop of QEPvLoadSaveGroup::clone at index j, which runs while
j < this->childItems.count (): the child at j is cloned with result as
parent. -/
def cloneLoop (mergePvNames : String → String → String → String)
    (newQCaObject : String → Nat → QCaObject V)
    (dfltValue : V) (dfltAlarm : A) (dfltTime : T) (dfltAction : ActionKinds) :
    Nat → Nat → Nat → Nat → ObjectStore V A T → Option (ObjectStore V A T)
  | 0, _, _, _, _ => none
  | fuel + 1, this, result, j, s =>
    match (s.items.childItems this).get? j with
    | some theChild =>
      match clone mergePvNames newQCaObject dfltValue dfltAlarm dfltTime dfltAction
          fuel theChild (some result) s with
      | some r =>
        cloneLoop mergePvNames newQCaObject dfltValue dfltAlarm dfltTime dfltAction
          fuel this result (j + 1) r.1
      | none => none
    | none => some s
end

end ObjectStore

mutual
/-- The object at address node is the root of a subtree of the store that is the
tree given: a group object with the node name and value of the group whose
child list holds, in order, the roots of the subtrees that are the children; or
a leaf object with the members of the leaf. Every object of the subtree
satisfies inSubtree. -/
def Holds {V A T : Type} (s : ObjectStore V A T) (inSubtree : Nat → Prop) :
    Nat → QEPvLoadSaveItem V A T → Prop
  | node, QEPvLoadSaveItem.group nodeName value childItems =>
    inSubtree node ∧ s.members node = ItemMembers.group nodeName value ∧
      HoldsList s inSubtree (s.items.childItems node) childItems
  | node, QEPvLoadSaveItem.leaf l => inSubtree node ∧ s.members node = ItemMembers.leaf l
/-- The objects at the addresses listed are, one by one in order, the roots of
subtrees that are the trees listed. -/
def HoldsList {V A T : Type} (s : ObjectStore V A T) (inSubtree : Nat → Prop) :
    List Nat → List (QEPvLoadSaveItem V A T) → Prop
  | nodes, [] => nodes = []
  | nodes, item :: rest =>
    match nodes with
    | node :: others => Holds s inSubtree node item ∧ HoldsList s inSubtree others rest
    | [] => False
end

mutual
/-- A bound on the nested calls and loop rounds of clone on a tree that
suffices for the call to return: one for the call, and for a group the rounds of
its loop. -/
def cloneFuel {V A T : Type} : QEPvLoadSaveItem V A T → Nat
  | QEPvLoadSaveItem.group _ _ childItems => 1 + cloneLoopFuel childItems
  | QEPvLoadSaveItem.leaf _ => 1
/-- The bound for the loop over the children: one for each round, the last test
of the loop condition included, and the bound of each child. -/
def cloneLoopFuel {V A T : Type} : List (QEPvLoadSaveItem V A T) → Nat
  | [] => 1
  | item :: rest => 1 + cloneFuel item + cloneLoopFuel rest
end

/-- A store of the fragment with five objects: the group 0 named magnets with
children 1, a leaf whose read back name is empty, and 2, a group named
correctors with the leaf 3 as its only child; and the group 4 named copies,
without parent and children. -/
def sampleObjects : ObjectStore SampleVariant Nat Nat :=
  { items :=
      { live := fun a => decide (a < 5)
        kind := fun a => if a = 1 ∨ a = 3 then ItemKind.leaf else ItemKind.group
        parentItem := fun a =>
          if a = 1 ∨ a = 2 then some 0 else if a = 3 then some 2 else none
        childItems := fun a => if a = 0 then [1, 2] else if a = 2 then [3] else []
        next := 5 }
    members := fun a =>
      if a = 1 then ItemMembers.leaf sampleLeafEmptyReadBack
      else if a = 3 then
        ItemMembers.leaf (sampleLeafOf 3 (SampleVariant.text "on") (SampleVariant.text "on"))
      else if a = 2 then ItemMembers.group "correctors" SampleVariant.invalid
      else if a = 4 then ItemMembers.group "copies" SampleVariant.invalid
      else ItemMembers.group "magnets" SampleVariant.invalid }

/-- The tree at object 0 of the sample store. -/
def sampleObjectsTree : QEPvLoadSaveItem SampleVariant Nat Nat :=
  QEPvLoadSaveItem.group "magnets" SampleVariant.invalid
    [ QEPvLoadSaveItem.leaf sampleLeafEmptyReadBack,
      QEPvLoadSaveItem.group "correctors" SampleVariant.invalid
        [ QEPvLoadSaveItem.leaf
            (sampleLeafOf 3 (SampleVariant.text "on") (SampleVariant.text "on")) ] ]

/-- ObjectStore.clone on the fragment. -/
def sampleCloneObject (fuel this : Nat) (parent : Option Nat) :
    Option (ObjectStore SampleVariant Nat Nat × Nat) :=
  ObjectStore.clone sampleMergePvNames sampleNewQCaObject SampleVariant.invalid 0 0
    ActionKinds.NullAction fuel this parent sampleObjects

/-! ## Abort over the tree and the branches of the delta computation -/

namespace QEPvLoadSaveItem

variable {V D A T : Type}

mutual
/-- Dispatching abortAction: QEPvLoadSaveGroup::abortAction or
QEPvLoadSaveLeaf::abortAction. Gives the tree afterwards and the signals
emitted, in order. -/
def abortAction : QEPvLoadSaveItem V A T → QEPvLoadSaveItem V A T × List (Event V T)
  | group nodeName value childItems =>
    let r := abortActionLoop childItems
    (group nodeName value r.1, r.2)
  | leaf l =>
    let r := l.abortAction
    (leaf r.1, r.2)
/-- The for loop of QEPvLoadSaveGroup::abortAction over the remaining children. -/
def abortActionLoop :
    List (QEPvLoadSaveItem V A T) → List (QEPvLoadSaveItem V A T) × List (Event V T)
  | [] => ([], [])
  | item :: rest =>
    let r := abortAction item
    let rs := abortActionLoop rest
    (r.1 :: rs.1, r.2 ++ rs.2)
end

mutual
/-- The tree with f applied to every leaf: node names, group values and the
order and nesting of the children are kept. -/
def mapLeaves (f : QEPvLoadSaveLeaf V A T → QEPvLoadSaveLeaf V A T) :
    QEPvLoadSaveItem V A T → QEPvLoadSaveItem V A T
  | group nodeName value childItems => group nodeName value (mapLeavesList f childItems)
  | leaf l => leaf (f l)
/-- The list of trees with f applied to every leaf. -/
def mapLeavesList (f : QEPvLoadSaveLeaf V A T → QEPvLoadSaveLeaf V A T) :
    List (QEPvLoadSaveItem V A T) → List (QEPvLoadSaveItem V A T)
  | [] => []
  | item :: rest => mapLeaves f item :: mapLeavesList f rest
end

end QEPvLoadSaveItem

/-- The branch of the if / else if chain of determineDeltaAndLeafStatus. -/
inductive DeltaBranch where
  /-- One of both are undefined. -/
  | undefined
  /-- Both are scalar. -/
  | bothScalar
  /-- The branch commented "Both are multi value". -/
  | multiValue
  /-- The final else, commented "A mixture of scalar and array types". -/
  | mixture
  deriving DecidableEq, Repr

namespace QEPvLoadSaveLeaf

variable {V D A T : Type}

/-- The branch that determineDeltaAndLeafStatus takes: the conditions of its
if / else if chain, in order. -/
def deltaBranch (Q : QVariantOps V D) (l : QEPvLoadSaveLeaf V A T) : DeltaBranch :=
  let selfMetaType := Q.metaType l.value
  let selfIsVariantList := selfMetaType == QVariantListType
  let selfIsVectorVariant := Q.isVectorVariant l.value
  let selfIsScalar := !(selfIsVariantList || selfIsVectorVariant)
  let liveMetaType := Q.metaType l.liveValue
  let liveIsVariantList := liveMetaType == QVariantListType
  let liveIsVectorVariant := Q.isVectorVariant l.liveValue
  let liveIsScalar := !(liveIsVariantList || liveIsVectorVariant)
  if liveMetaType == UnknownType || selfMetaType == UnknownType then DeltaBranch.undefined
  else if selfIsScalar && liveIsScalar then DeltaBranch.bothScalar
  else if !selfIsScalar || !liveIsScalar then DeltaBranch.multiValue
  else DeltaBranch.mixture

/-- QEPvLoadSaveLeaf::determineDeltaAndLeafStatus with the body of its final
else branch replaced by mixture: every other line is as in
determineDeltaAndLeafStatus. -/
def determineDeltaWithMixture (Q : QVariantOps V D)
    (mixture : QEPvLoadSaveLeaf V A T → QEPvLoadSaveLeaf V A T)
    (l : QEPvLoadSaveLeaf V A T) : QEPvLoadSaveLeaf V A T :=
  let selfMetaType := Q.metaType l.value
  let selfIsVariantList := selfMetaType == QVariantListType
  let selfIsVectorVariant := Q.isVectorVariant l.value
  let selfIsScalar := !(selfIsVariantList || selfIsVectorVariant)
  let liveMetaType := Q.metaType l.liveValue
  let liveIsVariantList := liveMetaType == QVariantListType
  let liveIsVectorVariant := Q.isVectorVariant l.liveValue
  let liveIsScalar := !(liveIsVariantList || liveIsVectorVariant)
  let s0 : StatusSummary :=
    { isEqualCount := 0, isNotEqualCount := 0, isNotAplicableCount := 0 }
  if liveMetaType == UnknownType || selfMetaType == UnknownType then
    { l with deltaText := Q.ofString "n/a"
             leafStatus := { s0 with isNotAplicableCount := 1 } }
  else if selfIsScalar && liveIsScalar then
    let r1 := Q.toDouble l.liveValue
    let r2 := Q.toDouble l.value
    let diff := Q.sub r1.1 r2.1
    if r1.2 && r2.2 then
      let s1 := { s0 with isEqualCount := if Q.isZero diff then 1 else 0 }
      let s2 := { s1 with isNotAplicableCount := wrapInt (1 - s1.isEqualCount) }
      { l with deltaText := Q.ofDouble diff, leafStatus := s2 }
    else
      let r : V × StatusSummary :=
        if Q.equal l.liveValue l.value then
          (Q.ofString "identical", { s0 with isEqualCount := 1 })
        else
          (Q.ofString "different", { s0 with isEqualCount := 0 })
      let s2 := { r.2 with isNotEqualCount := wrapInt (1 - r.2.isEqualCount) }
      { l with deltaText := r.1, leafStatus := s2 }
  else if !selfIsScalar || !liveIsScalar then
    let selfList :=
      if selfIsVectorVariant then (Q.convertToVariantList l.value).1
      else Q.toList l.value
    let liveList :=
      if liveIsVectorVariant then (Q.convertToVariantList l.liveValue).1
      else Q.toList l.liveValue
    let r : V × StatusSummary :=
      if listEqual Q liveList selfList then
        (Q.ofString "identical", { s0 with isEqualCount := 1 })
      else
        (Q.ofString "different", { s0 with isEqualCount := 0 })
    let s2 := { r.2 with isNotEqualCount := wrapInt (1 - r.2.isEqualCount) }
    { l with deltaText := r.1, leafStatus := s2 }
  else mixture l

end QEPvLoadSaveLeaf

/-- A tree of the fragment with three leaves, of which the second and the third
(in a nested group) have an action that is not complete. -/
def sampleAbortTree : QEPvLoadSaveItem SampleVariant Nat Nat :=
  QEPvLoadSaveItem.group "root" SampleVariant.invalid
    [ QEPvLoadSaveItem.leaf
        (sampleLeaf 1 "A" (SampleVariant.double 1) (SampleVariant.double 1)
          ActionKinds.Extract true true true true),
      QEPvLoadSaveItem.leaf
        (sampleLeaf 2 "B" (SampleVariant.double 2) (SampleVariant.double 3)
          ActionKinds.Apply false true true true),
      QEPvLoadSaveItem.group "inner" SampleVariant.invalid
        [QEPvLoadSaveItem.leaf
          (sampleLeaf 3 "C" (SampleVariant.text "on") (SampleVariant.text "off")
            ActionKinds.ReadArchive false true true true)] ]

/-! ## Child lookup and node path on the linked objects -/

namespace ItemStore

/-- QEPvLoadSaveItem::getChild, called on the object this:
childItems.value (position, NULL), none standing for NULL. -/
def getChild (this : Nat) (position : Int) (s : ItemStore) : Option Nat :=
  if position < 0 then none else (s.childItems this).get? position.toNat

/-- QEPvLoadSaveItem::getNodePath, called on the object this, with nodeName the
member nodeName of every object. The first argument bounds the number of nested
calls; the result is none when the bound is reached. -/
def getNodePath (nodeName : Nat → String) (s : ItemStore) : Nat → Nat → Option (List String)
  | 0, _ => none
  | fuel + 1, this =>
    match s.parentItem this with
    | none => some []
    | some parentNode =>
      -- Want to exclude the 'internal' tree core node, i.e. start from user root.
      match s.parentItem parentNode with
      | none => some []
      | some _ =>
        (getNodePath nodeName s fuel parentNode).map fun result =>
          result ++ [nodeName parentNode]

end ItemStore

/-- The ancestors of a node from the core root down to its parent: the node
without parentItem has none, and a node with parentItem p has the ancestors of p
followed by p. The length of the list is the depth of the node. -/
inductive AncestorsOf (s : ItemStore) : Nat → List Nat → Prop where
  | root (node : Nat) : s.parentItem node = none → AncestorsOf s node []
  | child (node parent : Nat) (chain : List Nat) :
      s.parentItem node = some parent → AncestorsOf s parent chain →
        AncestorsOf s node (chain ++ [parent])

/-- A chain of four objects: the core root 0, a group 1 under it, a group 2
under 1 and a leaf 3 under 2. -/
def sampleChainStore : ItemStore :=
  runOps
    [ StructuralOp.construct ItemKind.group none,
      StructuralOp.construct ItemKind.group (some 0),
      StructuralOp.construct ItemKind.group (some 1),
      StructuralOp.construct ItemKind.leaf (some 2) ]
    ItemStore.empty

/-- Node names for the sample chain. -/
def sampleNodeName (node : Nat) : String :=
  match node with
  | 0 => "core"
  | 1 => "user root"
  | 2 => "magnets"
  | _ => "PV"

end QEPvLoadSave

/-! # QECommon macros -/

namespace QECommon

/-- Modelled from the spec: the macro MIN of QECommon.h is not among the
sources; it is the smaller of its two arguments. -/
def MIN {α : Type} [LinearOrder α] (a b : α) : α := min a b

/-- Modelled from the spec: the macro MAX of QECommon.h is not among the
sources; it is the larger of its two arguments. -/
def MAX {α : Type} [LinearOrder α] (a b : α) : α := max a b

/-- Modelled from the spec: the macro LIMIT of QECommon.h is not among the
sources; LIMIT (x, low, high) limits x to the range low .. high. -/
def LIMIT {α : Type} [LinearOrder α] (x low high : α) : α := MAX low (MIN x high)

end QECommon

/-! # QESpectrogram: the colour index of a pixel -/

namespace QESpectrogram

open QECommon

/-- The conversion int (value) of a double to int: truncation toward zero.
Doubles are represented by rationals. -/
def toInt (value : Rat) : Int := if 0 ≤ value then ⌊value⌋ else -⌊-value⌋

/-- QESpectrogram::setScaleWrap: the new value of mScaleWrap. -/
def setScaleWrap (scaleWrap : Int) : Int := LIMIT scaleWrap 1 10

/-- The value of scaledMax in QESpectrogram::updateDataVisulation. -/
def scaledMax (breakPoint1 breakPoint2 mScaleWrap : Int) : Int :=
  let maxLoops := mScaleWrap - 1
  let wrapSpread := breakPoint2 - breakPoint1
  255 + (maxLoops * wrapSpread)

/-- The two values the variable index takes for one pixel. -/
structure PixelIndex where
  /-- After the line commented "wrap index". -/
  wrapped : Int
  /-- After the final LIMIT (index, 0, 255): the index into the pixel map. -/
  limited : Int
  deriving DecidableEq, Repr

/-- The body of the inner loop of QESpectrogram::updateDataVisulation from
"scale (y = m.x + c), wrap and limit" on, where scaled is the value of
scale*value + offset. -/
def pixelIndex (breakPoint1 breakPoint2 mScaleWrap : Int) (scaled : Rat) : PixelIndex :=
  let scaledMin : Int := 0
  let maxLoops := mScaleWrap - 1
  let wrapSpread := breakPoint2 - breakPoint1
  let scaledMax := 255 + (maxLoops * wrapSpread)
  let value := LIMIT scaled (scaledMin : Rat) (scaledMax : Rat)
  let index := toInt value
  let loops := (index - breakPoint1).tdiv wrapSpread
  let loops := MIN loops maxLoops
  let index := index - (loops * wrapSpread)
  { wrapped := index, limited := LIMIT index 0 255 }

end QESpectrogram

/-! # QEAxisPainter: the axis bounds and the markers -/

namespace QEAxisPainter

open QECommon

/-! ## Doubles

The type double is IEEE 754 binary64 and every arithmetic operation gives the
double nearest to the exact result (round to nearest, ties to even). A finite
double is represented by the rational number it denotes; an operation whose
result is not a finite double (overflow, division by zero) gives none. -/

/-- The integer nearest to q, the even one of the two when q is half way. -/
def roundHalfEven (q : Rat) : Int :=
  let f := ⌊q⌋
  let r := q - (f : Rat)
  if r < 1 / 2 then f
  else if 1 / 2 < r then f + 1
  else if f % 2 = 0 then f else f + 1

/-- The exponent of the spacing of the doubles at magnitude a: the significand
has 53 bits, and below the smallest normal exponent -1022 the spacing stays that
of the subnormal numbers. -/
def ulpExponent (a : Rat) : Int := max (Int.log 2 a) (-1022) - 52

/-- The rational x rounded to the nearest multiple of the spacing of the doubles
at x, ties to the even significand. -/
def roundDouble (x : Rat) : Rat :=
  let ulp : Rat := (2 : Rat) ^ ulpExponent |x|
  (roundHalfEven (x / ulp) : Rat) * ulp

/-- The largest finite double, (2 ^ 53 - 1) * 2 ^ 971. -/
def DBL_MAX : Rat := (2 ^ 53 - 1) * 2 ^ 971

/-- The double given by an operation whose exact result is x: the nearest
double, or none when that is beyond the largest finite double. -/
def toDouble (x : Rat) : Option Rat :=
  if |roundDouble x| ≤ DBL_MAX then some (roundDouble x) else none

/-- The operator + on doubles. -/
def dadd (x y : Rat) : Option Rat := toDouble (x + y)

/-- The operator - on doubles. -/
def dsub (x y : Rat) : Option Rat := toDouble (x - y)

/-- The operator * on doubles. -/
def dmul (x y : Rat) : Option Rat := toDouble (x * y)

/-- The operator / on doubles; with a zero divisor the result is not a finite
double. -/
def ddiv (x y : Rat) : Option Rat := if y = 0 then none else toDouble (x / y)

/-! ## The axis bounds -/

/-- The macro MAX_VALUE, the literal +1.0E+24 as a double. -/
def MAX_VALUE : Rat := roundDouble (10 ^ 24)

/-- The macro MIN_VALUE, -1.0E+24. -/
def MIN_VALUE : Rat := -roundDouble (10 ^ 24)

/-- The macro MIN_INTERVAL, the literal +1.0E-20 as a double. -/
def MIN_INTERVAL : Rat := roundDouble (1 / 10 ^ 20)

/-- The macro MAX_INTERVAL, the literal +1.0E+23 as a double. -/
def MAX_INTERVAL : Rat := roundDouble (10 ^ 23)

/-- The macro MAX_MINOR_TICKS, 1000, where it is converted to double. -/
def MAX_MINOR_TICKS : Rat := 1000

/-- The members of a QEAxisPainter that setMinimum and setMaximum read and
write, each a finite double. -/
structure Axis where
  mMinimum : Rat
  mMaximum : Rat
  mMinorInterval : Rat
  deriving DecidableEq

/-- The state set by the constructor: mMinimum = 0.0, mMaximum = 10.0,
mMinorInterval = 0.2. -/
def constructed : Axis :=
  { mMinimum := 0, mMaximum := 10, mMinorInterval := roundDouble (2 / 10) }

/-- QEAxisPainter::setMinorInterval. -/
def setMinorInterval (minorInterval : Rat) (a : Axis) : Option Axis :=
  -- Ensure in range
  let limitedMin := LIMIT minorInterval MIN_INTERVAL MAX_INTERVAL
  (dsub a.mMaximum a.mMinimum).bind fun range =>
  (ddiv range MAX_MINOR_TICKS).bind fun dynamicMin =>
  some { a with mMinorInterval := MAX limitedMin dynamicMin }

/-- QEAxisPainter::setMinimum. -/
def setMinimum (minimum : Rat) (a : Axis) : Option Axis :=
  -- Ensure in range
  let a1 := { a with mMinimum := LIMIT minimum MIN_VALUE MAX_VALUE }
  -- Ensure consistant.
  (dadd a1.mMinimum MIN_INTERVAL).bind fun consistent =>
  let a2 := { a1 with mMaximum := MAX a1.mMaximum consistent }
  (dsub a2.mMaximum a2.mMinimum).bind fun range =>
  (ddiv range a2.mMinorInterval).bind fun n =>
  if n > MAX_MINOR_TICKS then
    (dmul a2.mMinorInterval n).bind fun product =>
    (ddiv product MAX_MINOR_TICKS).bind fun minorInterval =>
    setMinorInterval minorInterval a2
  else some a2

/-- QEAxisPainter::setMaximum. -/
def setMaximum (maximum : Rat) (a : Axis) : Option Axis :=
  -- Ensure in range
  let a1 := { a with mMaximum := LIMIT maximum MIN_VALUE MAX_VALUE }
  -- Ensure consistant.
  (dsub a1.mMaximum MIN_INTERVAL).bind fun consistent =>
  let a2 := { a1 with mMinimum := MIN a1.mMinimum consistent }
  (dsub a2.mMaximum a2.mMinimum).bind fun range =>
  (ddiv range a2.mMinorInterval).bind fun n =>
  if n > MAX_MINOR_TICKS then
    (dmul a2.mMinorInterval n).bind fun product =>
    (ddiv product MAX_MINOR_TICKS).bind fun minorInterval =>
    setMinorInterval minorInterval a2
  else some a2

/-- QEAxisPainter::calcFraction on the linear scale (getLogScale () false); none
when the division is by zero or the result is not a finite double. -/
def calcFraction (x : Rat) (a : Axis) : Option Rat :=
  (dsub x a.mMinimum).bind fun numerator =>
  (dsub a.mMaximum a.mMinimum).bind fun divisor =>
  (ddiv numerator divisor).bind fun result =>
  some (LIMIT result 0 1)


/-- A QColor by its red, green, blue and alpha parts. -/
structure QColor where
  red : Nat
  green : Nat
  blue : Nat
  alpha : Nat
  deriving DecidableEq, Repr

/-- The marker arrays of a QEAxisPainter, each of NUMBER_OF_MARKERS entries; D
is the type double. -/
structure Markers (D : Type) where
  markerColour : List QColor
  markerVisible : List Bool
  markerValue : List D

/-- What a marker function does: it completes with a result, or it indexes a
marker array outside its bounds (undefined behaviour). -/
inductive Outcome (α : Type) where
  | done (result : α)
  | outOfBounds
  deriving DecidableEq, Repr

/-- The condition of the macro ASSERT_VALID_INDEX, under which its action is
taken: (index < 0) && (index >= NUMBER_OF_MARKERS). -/
def assertValidIndexActs (NUMBER_OF_MARKERS index : Int) : Bool :=
  decide (index < 0) && decide (index ≥ NUMBER_OF_MARKERS)

/-- The array access array [index]: the entry, or none outside the bounds. -/
def arrayAt {α : Type} (array : List α) (index : Int) : Option α :=
  if 0 ≤ index then array.get? index.toNat else none

/-- The array assignment array [index] = value: the new array, or none outside
the bounds. -/
def arraySet {α : Type} (array : List α) (index : Int) (value : α) : Option (List α) :=
  if 0 ≤ index ∧ index < (array.length : Int) then some (array.set index.toNat value)
  else none

/-- QEAxisPainter::setMarkerColour. -/
def setMarkerColour {D : Type} (NUMBER_OF_MARKERS index : Int) (colour : QColor)
    (m : Markers D) : Outcome (Markers D) :=
  if assertValidIndexActs NUMBER_OF_MARKERS index then Outcome.done m
  else
    match arraySet m.markerColour index colour with
    | some array => Outcome.done { m with markerColour := array }
    | none => Outcome.outOfBounds

/-- QEAxisPainter::getMarkerColour. -/
def getMarkerColour {D : Type} (NUMBER_OF_MARKERS index : Int) (m : Markers D) :
    Outcome QColor :=
  if assertValidIndexActs NUMBER_OF_MARKERS index then
    Outcome.done { red := 0, green := 0, blue := 0, alpha := 0 }
  else
    match arrayAt m.markerColour index with
    | some colour => Outcome.done colour
    | none => Outcome.outOfBounds

/-- QEAxisPainter::setMarkerVisible. -/
def setMarkerVisible {D : Type} (NUMBER_OF_MARKERS index : Int) (isVisible : Bool)
    (m : Markers D) : Outcome (Markers D) :=
  if assertValidIndexActs NUMBER_OF_MARKERS index then Outcome.done m
  else
    match arraySet m.markerVisible index isVisible with
    | some array => Outcome.done { m with markerVisible := array }
    | none => Outcome.outOfBounds

/-- QEAxisPainter::getMarkerVisible. -/
def getMarkerVisible {D : Type} (NUMBER_OF_MARKERS index : Int) (m : Markers D) :
    Outcome Bool :=
  if assertValidIndexActs NUMBER_OF_MARKERS index then Outcome.done false
  else
    match arrayAt m.markerVisible index with
    | some isVisible => Outcome.done isVisible
    | none => Outcome.outOfBounds

/-- QEAxisPainter::setMarkerValue. -/
def setMarkerValue {D : Type} (NUMBER_OF_MARKERS index : Int) (value : D)
    (m : Markers D) : Outcome (Markers D) :=
  if assertValidIndexActs NUMBER_OF_MARKERS index then Outcome.done m
  else
    match arraySet m.markerValue index value with
    | some array => Outcome.done { m with markerValue := array }
    | none => Outcome.outOfBounds

/-- QEAxisPainter::getMarkerValue; zero is the double 0.0. -/
def getMarkerValue {D : Type} (zero : D) (NUMBER_OF_MARKERS index : Int) (m : Markers D) :
    Outcome D :=
  if assertValidIndexActs NUMBER_OF_MARKERS index then Outcome.done zero
  else
    match arrayAt m.markerValue index with
    | some value => Outcome.done value
    | none => Outcome.outOfBounds

/-- The arrays have NUMBER_OF_MARKERS entries each. -/
def Markers.Sized {D : Type} (NUMBER_OF_MARKERS : Int) (m : Markers D) : Prop :=
  (m.markerColour.length : Int) = NUMBER_OF_MARKERS ∧
  (m.markerVisible.length : Int) = NUMBER_OF_MARKERS ∧
  (m.markerValue.length : Int) = NUMBER_OF_MARKERS

/-- The marker arrays as the constructor leaves them, for four markers: black,
not visible, value 0. -/
def sampleMarkers : Markers Rat :=
  { markerColour := List.replicate 4 { red := 0, green := 0, blue := 0, alpha := 255 }
    markerVisible := List.replicate 4 false
    markerValue := List.replicate 4 0 }

end QEAxisPainter

/-! # Theorems -/

namespace QEPvLoadSave

open QEPvLoadSaveLeaf

variable {V D A T : Type}

/-! ## Leaf status -/

/-- C1: code evaluated at the failing input. For two numeric scalars the code
reports a zero difference as equal (value 10.0, liveValue 10.0 gives counts
1, 0, 0), but for value 10.0 and liveValue 12.5 getStatusSummary returns
isNotAplicableCount = 1 and isNotEqualCount = 0, not the not-equal status. -/
theorem getStatusSummary_numeric_difference :
    (getStatusSummary sampleOps
        (sampleLeaf 1 "PV" (SampleVariant.double 10) (SampleVariant.double 10)
          ActionKinds.NullAction true true true true)).1
      = { isEqualCount := 1, isNotEqualCount := 0, isNotAplicableCount := 0 } ∧
    (getStatusSummary sampleOps
        (sampleLeaf 1 "PV" (SampleVariant.double 10) (SampleVariant.double (25 / 2))
          ActionKinds.NullAction true true true true)).1
      = { isEqualCount := 0, isNotEqualCount := 0, isNotAplicableCount := 1 } := by
  constructor <;>
    norm_num [getStatusSummary, determineDeltaAndLeafStatus, sampleLeaf, sampleOps, wrapInt,
      UnknownType, QVariantListType]

/-- The numeric branch in general: when value and liveValue are both defined
scalars and both convert to double, the returned counts are (1, 0, 0) for a
zero difference and (0, 0, 1) otherwise. -/
theorem getStatusSummary_numeric_branch (Q : QVariantOps V D) (l : QEPvLoadSaveLeaf V A T)
    (hlive : Q.metaType l.liveValue ≠ UnknownType) (hself : Q.metaType l.value ≠ UnknownType)
    (hliveScalar : Q.metaType l.liveValue ≠ QVariantListType ∧ Q.isVectorVariant l.liveValue = false)
    (hselfScalar : Q.metaType l.value ≠ QVariantListType ∧ Q.isVectorVariant l.value = false)
    (hok1 : (Q.toDouble l.liveValue).2 = true) (hok2 : (Q.toDouble l.value).2 = true) :
    (getStatusSummary Q l).1
      = (if Q.isZero (Q.sub (Q.toDouble l.liveValue).1 (Q.toDouble l.value).1) then
          { isEqualCount := 1, isNotEqualCount := 0, isNotAplicableCount := 0 }
        else { isEqualCount := 0, isNotEqualCount := 0, isNotAplicableCount := 1 }) := by
  simp only [getStatusSummary, determineDeltaAndLeafStatus]
  split_ifs <;> simp_all [wrapInt]

/-- C2: for every leaf, whatever its value, liveValue and previous leafStatus,
each of the three counts returned by getStatusSummary is 0 or 1 and the three
add up to 1. -/
theorem getStatusSummary_counts_sum_one (Q : QVariantOps V D) (l : QEPvLoadSaveLeaf V A T) :
    ((getStatusSummary Q l).1.isEqualCount = 0 ∨ (getStatusSummary Q l).1.isEqualCount = 1) ∧
    ((getStatusSummary Q l).1.isNotEqualCount = 0 ∨
      (getStatusSummary Q l).1.isNotEqualCount = 1) ∧
    ((getStatusSummary Q l).1.isNotAplicableCount = 0 ∨
      (getStatusSummary Q l).1.isNotAplicableCount = 1) ∧
    (getStatusSummary Q l).1.isEqualCount + (getStatusSummary Q l).1.isNotEqualCount +
      (getStatusSummary Q l).1.isNotAplicableCount = 1 := by
  simp only [getStatusSummary, determineDeltaAndLeafStatus]
  split_ifs <;> simp [wrapInt]

/-! ## Leaf actions -/

/-- C5: extractPVData copies liveValue into value exactly when the read back PV
object reports data available and leaves value unchanged otherwise; it emits
exactly one action-complete report (this leaf, Extract, okay) with okay true
exactly when the copy happened, and actionIsComplete equals okay afterwards. -/
theorem extractPVData_copies_iff_available (l : QEPvLoadSaveLeaf V A T) :
    (extractPVData l).1.value
      = (if readBackDataIsAvailable l then l.liveValue else l.value) ∧
    (extractPVData l).2
      = [Event.reportActionComplete l.self ActionKinds.Extract (readBackDataIsAvailable l)] ∧
    (extractPVData l).1.actionIsComplete = readBackDataIsAvailable l ∧
    (extractPVData l).1.liveValue = l.liveValue := by
  unfold extractPVData readBackDataIsAvailable emitReportActionComplete
  cases hrb : l.qcaReadBack with
  | none => simp
  | some readBack => cases hd : readBack.dataIsAvailable <;> simp [hd]

/-- C6: applyPVData calls writeData (value) on the set point object exactly when
the set point channel is connected; it emits exactly one action-complete report
(this leaf, Apply, s), where s is the result of the write when connected and
false otherwise; value is unchanged and actionIsComplete equals s afterwards. -/
theorem applyPVData_writes_iff_connected (l : QEPvLoadSaveLeaf V A T) :
    (applyPVData l).2
      = (if setPointIsConnected l then
          [Event.writeData l.value,
            Event.reportActionComplete l.self ActionKinds.Apply (setPointWriteResult l)]
        else [Event.reportActionComplete l.self ActionKinds.Apply false]) ∧
    (applyPVData l).1.value = l.value ∧
    (applyPVData l).1.actionIsComplete
      = (setPointIsConnected l && setPointWriteResult l) := by
  unfold applyPVData setPointIsConnected setPointWriteResult emitReportActionComplete
  cases hsp : l.qcaSetPoint with
  | none => simp
  | some setPoint =>
    cases hc : setPoint.channelIsConnected <;>
      cases hw : setPoint.writeDataResult l.value <;> simp [hc, hw]

/-- C9: setArchiveData with okay true and a non-empty point list sets value to
the value of the first point (later points are ignored) and alarmInfo to its
alarm, marks the action complete and emits one action-complete report with
success true; with okay false, or with an empty point list, the leaf is
unchanged (value, alarmInfo and actionIsComplete included) and one
action-complete report with success false is emitted. -/
theorem setArchiveData_first_point_or_failure (Q : QVariantOps V D)
    (l : QEPvLoadSaveLeaf V A T) (p : QCaDataPoint D A T) (ps : List (QCaDataPoint D A T)) :
    ((setArchiveData Q true (p :: ps) l).1
        = { l with value := Q.ofDouble p.value, alarmInfo := p.alarm,
                   actionIsComplete := true } ∧
      (setArchiveData Q true (p :: ps) l).2
        = [Event.reportActionComplete l.self l.action true]) ∧
    (∀ points : List (QCaDataPoint D A T),
      setArchiveData Q false points l
        = (l, [Event.reportActionComplete l.self l.action false])) ∧
    (∀ okay : Bool,
      setArchiveData Q okay [] l
        = (l, [Event.reportActionComplete l.self l.action false])) := by
  refine ⟨⟨?_, ?_⟩, ?_, ?_⟩
  · simp [setArchiveData, emitReportActionComplete]
  · simp [setArchiveData, emitReportActionComplete]
  · intro points
    cases points <;> simp [setArchiveData, emitReportActionComplete]
  · intro okay
    simp [setArchiveData, emitReportActionComplete]

/-- C10: abortAction emits exactly one action-incomplete notification (this
leaf, current action) when actionIsComplete was false and none when it was
true; afterwards actionIsComplete is true; a second consecutive abortAction
emits nothing and changes nothing; value, liveValue and action never change. -/
theorem abortAction_once_then_idempotent (l : QEPvLoadSaveLeaf V A T) :
    (abortAction l).2
      = (if l.actionIsComplete then []
        else [Event.reportActionInComplete l.self l.action]) ∧
    (abortAction l).1.actionIsComplete = true ∧
    abortAction (abortAction l).1 = ((abortAction l).1, []) ∧
    (abortAction l).1.value = l.value ∧
    (abortAction l).1.liveValue = l.liveValue ∧
    (abortAction l).1.action = l.action ∧
    (abortAction l).1 = { l with actionIsComplete := true } := by
  cases h : l.actionIsComplete <;> simp [abortAction, h]

/-! ## Group summary and leaf count -/

theorem wrapInt_add_wrapInt (a b : Int) : wrapInt (wrapInt a + b) = wrapInt (a + b) := by
  unfold wrapInt
  omega

theorem wrapInt_of_inRange (a : Int) (h0 : 0 ≤ a) (h1 : a ≤ INT_MAX) : wrapInt a = a := by
  unfold wrapInt
  unfold INT_MAX at h1
  omega

theorem merge_right_comm (z x y : StatusSummary) :
    merge (merge z x) y = merge (merge z y) x := by
  simp only [merge, wrapInt_add_wrapInt, StatusSummary.mk.injEq]
  refine ⟨?_, ?_, ?_⟩ <;> congr 1 <;> omega

theorem getStatusSummaryLoop_fst (Q : QVariantOps V D)
    (childItems : List (QEPvLoadSaveItem V A T)) (result : StatusSummary) :
    (QEPvLoadSaveItem.getStatusSummaryLoop Q childItems result).1
      = (childItems.map fun item => (QEPvLoadSaveItem.getStatusSummary Q item).1).foldl
          merge result := by
  induction childItems generalizing result with
  | nil => simp [QEPvLoadSaveItem.getStatusSummaryLoop]
  | cons item rest ih => simp [QEPvLoadSaveItem.getStatusSummaryLoop, ih]

/-- C3: getStatusSummary of a group is the merge (pairwise sum), starting from
the all-zero summary, of the getStatusSummary results of its children, and a
group whose child list is a permutation of it has the same summary. -/
theorem group_getStatusSummary_merge_perm (Q : QVariantOps V D) (nodeName : String) (value : V)
    (childItems shuffled : List (QEPvLoadSaveItem V A T))
    (hperm : List.Perm childItems shuffled) :
    (QEPvLoadSaveItem.getStatusSummary Q (QEPvLoadSaveItem.group nodeName value childItems)).1
      = (childItems.map fun item => (QEPvLoadSaveItem.getStatusSummary Q item).1).foldl
          merge clear ∧
    (QEPvLoadSaveItem.getStatusSummary Q (QEPvLoadSaveItem.group nodeName value shuffled)).1
      = (QEPvLoadSaveItem.getStatusSummary Q
          (QEPvLoadSaveItem.group nodeName value childItems)).1 := by
  simp only [QEPvLoadSaveItem.getStatusSummary, getStatusSummaryLoop_fst, true_and]
  symm
  apply List.Perm.foldl_eq' (hperm.map _)
  intro x _ y _ z
  exact merge_right_comm z x y

theorem group_getStatusSummary_merge_perm_witness :
    List.Perm sampleChildren sampleChildrenShuffled ∧
    (QEPvLoadSaveItem.getStatusSummary sampleOps
        (QEPvLoadSaveItem.group "root" SampleVariant.invalid sampleChildren)).1
      = { isEqualCount := 1, isNotEqualCount := 1, isNotAplicableCount := 1 } ∧
    (QEPvLoadSaveItem.getStatusSummary sampleOps
        (QEPvLoadSaveItem.group "root" SampleVariant.invalid sampleChildrenShuffled)).1
      = (QEPvLoadSaveItem.getStatusSummary sampleOps
          (QEPvLoadSaveItem.group "root" SampleVariant.invalid sampleChildren)).1 := by
  have hperm : List.Perm sampleChildren sampleChildrenShuffled := List.Perm.swap _ _ _
  have h := group_getStatusSummary_merge_perm sampleOps "root" SampleVariant.invalid
    sampleChildren sampleChildrenShuffled hperm
  refine ⟨hperm, ?_, h.2⟩
  rw [h.1]
  have hne : ("off" : String) ≠ "on" := by decide
  norm_num [hne, sampleChildren, sampleLeafOf, sampleLeaf, sampleOps, merge, clear, wrapInt,
    UnknownType, QVariantListType, QEPvLoadSaveItem.getStatusSummary,
    QEPvLoadSaveItem.getStatusSummaryLoop, QEPvLoadSaveLeaf.getStatusSummary,
    determineDeltaAndLeafStatus]

mutual
theorem leafCount_eq_aux : ∀ (item : QEPvLoadSaveItem V A T),
    (QEPvLoadSaveItem.numLeaves item : Int) ≤ INT_MAX →
      QEPvLoadSaveItem.leafCount item = QEPvLoadSaveItem.numLeaves item
  | QEPvLoadSaveItem.group _ _ childItems, h => by
    simp only [QEPvLoadSaveItem.leafCount, QEPvLoadSaveItem.numLeaves] at h ⊢
    rw [leafCountLoop_eq_aux childItems 0 (le_refl 0) (by simpa using h)]
    simp
  | QEPvLoadSaveItem.leaf l, _ => by
    simp [QEPvLoadSaveItem.leafCount, QEPvLoadSaveItem.numLeaves, QEPvLoadSaveLeaf.leafCount]
theorem leafCountLoop_eq_aux : ∀ (childItems : List (QEPvLoadSaveItem V A T)) (result : Int),
    0 ≤ result → result + (QEPvLoadSaveItem.numLeavesList childItems : Int) ≤ INT_MAX →
      QEPvLoadSaveItem.leafCountLoop childItems result
        = result + QEPvLoadSaveItem.numLeavesList childItems
  | [], result, _, _ => by
    simp [QEPvLoadSaveItem.leafCountLoop, QEPvLoadSaveItem.numLeavesList]
  | item :: rest, result, h0, h => by
    simp only [QEPvLoadSaveItem.leafCountLoop, QEPvLoadSaveItem.numLeavesList,
      Nat.cast_add] at h ⊢
    have hitem : (QEPvLoadSaveItem.numLeaves item : Int) ≤ INT_MAX := by omega
    rw [leafCount_eq_aux item hitem]
    have hw : wrapInt (result + (QEPvLoadSaveItem.numLeaves item : Int))
        = result + (QEPvLoadSaveItem.numLeaves item : Int) :=
      wrapInt_of_inRange _ (by omega) (by omega)
    rw [hw, leafCountLoop_eq_aux rest _ (by omega) (by omega)]
    omega
end

/-- C4: for every finite tree of Group and Leaf nodes, however deeply nested,
whose number of Leaf nodes is within the range of int, leafCount of the root is
the number of Leaf nodes counted structurally (a Leaf counts 1, a Group without
children 0). -/
theorem leafCount_eq_numLeaves (item : QEPvLoadSaveItem V A T)
    (hrange : (QEPvLoadSaveItem.numLeaves item : Int) ≤ INT_MAX) :
    QEPvLoadSaveItem.leafCount item = QEPvLoadSaveItem.numLeaves item :=
  leafCount_eq_aux item hrange

theorem leafCount_eq_numLeaves_witness :
    QEPvLoadSaveItem.numLeaves sampleTree = 3 ∧
    QEPvLoadSaveItem.leafCount sampleTree = 3 ∧
    QEPvLoadSaveItem.leafCount
      (QEPvLoadSaveItem.group "empty" SampleVariant.invalid
        ([] : List (QEPvLoadSaveItem SampleVariant Nat Nat))) = 0 := by
  have h3 : QEPvLoadSaveItem.numLeaves sampleTree = 3 := by
    simp [sampleTree, sampleChildren, QEPvLoadSaveItem.numLeaves,
      QEPvLoadSaveItem.numLeavesList]
  refine ⟨h3, ?_, ?_⟩
  · have h := leafCount_eq_numLeaves sampleTree (by rw [h3]; decide)
    rw [h, h3]
    rfl
  · simp [QEPvLoadSaveItem.leafCount, QEPvLoadSaveItem.leafCountLoop]

/-! ## Staggered archive reads -/

theorem staggeredFrom_append (c : Int) (xs ys : List (QEPvLoadSaveLeaf V A T)) :
    staggeredFrom c (xs ++ ys) = staggeredFrom c xs ++ staggeredFrom (c + xs.length) ys := by
  induction xs generalizing c with
  | nil => simp [staggeredFrom]
  | cons x xs ih =>
    have hc : c + 1 + (xs.length : Int) = c + ((xs.length : Int) + 1) := by omega
    rw [List.cons_append]
    simp only [staggeredFrom, List.length_cons, Nat.cast_add, Nat.cast_one, List.cons_append]
    rw [ih (c + 1), hc]

theorem staggeredFrom_eq_enumFrom (c : Int) (k : Nat) (ls : List (QEPvLoadSaveLeaf V A T)) :
    staggeredFrom (c + k) ls
      = (ls.enumFrom k).map fun p => (Event.singleShot (10 * (c + p.1)) p.2.self : Event V T) := by
  induction ls generalizing k with
  | nil => simp [staggeredFrom]
  | cons l rest ih =>
    simp only [staggeredFrom, List.enumFrom_cons, List.map_cons]
    have : c + (k : Int) + 1 = c + ((k + 1 : Nat) : Int) := by push_cast; omega
    rw [this, ih]

mutual
theorem leaves_length_aux : ∀ (item : QEPvLoadSaveItem V A T),
    (QEPvLoadSaveItem.leaves item).length = QEPvLoadSaveItem.numLeaves item
  | QEPvLoadSaveItem.group _ _ childItems => by
    simp only [QEPvLoadSaveItem.leaves, QEPvLoadSaveItem.numLeaves]
    exact leavesList_length_aux childItems
  | QEPvLoadSaveItem.leaf _ => by
    simp [QEPvLoadSaveItem.leaves, QEPvLoadSaveItem.numLeaves]
theorem leavesList_length_aux : ∀ (childItems : List (QEPvLoadSaveItem V A T)),
    (QEPvLoadSaveItem.leavesList childItems).length
      = QEPvLoadSaveItem.numLeavesList childItems
  | [] => by simp [QEPvLoadSaveItem.leavesList, QEPvLoadSaveItem.numLeavesList]
  | item :: rest => by
    simp [QEPvLoadSaveItem.leavesList, QEPvLoadSaveItem.numLeavesList,
      leaves_length_aux item, leavesList_length_aux rest]
end

mutual
theorem readArchiveData_aux (dateTime : T) : ∀ (item : QEPvLoadSaveItem V A T) (c : Int),
    0 ≤ c → 10 * (c + (QEPvLoadSaveItem.numLeaves item : Int)) ≤ INT_MAX →
      (QEPvLoadSaveItem.readArchiveData dateTime item c).2.1
          = c + QEPvLoadSaveItem.numLeaves item ∧
        (QEPvLoadSaveItem.readArchiveData dateTime item c).2.2
          = staggeredFrom c (QEPvLoadSaveItem.leaves item)
  | QEPvLoadSaveItem.group _ _ childItems, c, h0, h => by
    simp only [QEPvLoadSaveItem.readArchiveData, QEPvLoadSaveItem.numLeaves,
      QEPvLoadSaveItem.leaves] at h ⊢
    exact readArchiveDataLoop_aux dateTime childItems c h0 h
  | QEPvLoadSaveItem.leaf l, c, h0, h => by
    simp only [QEPvLoadSaveItem.numLeaves, Nat.cast_one] at h
    unfold INT_MAX at h
    have h1 : wrapInt (c + 1) = c + 1 := wrapInt_of_inRange _ (by omega) (by unfold INT_MAX; omega)
    have h2 : wrapInt (10 * c) = 10 * c :=
      wrapInt_of_inRange _ (by omega) (by unfold INT_MAX; omega)
    simp [QEPvLoadSaveItem.readArchiveData, QEPvLoadSaveLeaf.readArchiveData,
      QEPvLoadSaveItem.numLeaves, QEPvLoadSaveItem.leaves, staggeredFrom, h1, h2]
theorem readArchiveDataLoop_aux (dateTime : T) :
    ∀ (childItems : List (QEPvLoadSaveItem V A T)) (c : Int),
    0 ≤ c → 10 * (c + (QEPvLoadSaveItem.numLeavesList childItems : Int)) ≤ INT_MAX →
      (QEPvLoadSaveItem.readArchiveDataLoop dateTime childItems c).2.1
          = c + QEPvLoadSaveItem.numLeavesList childItems ∧
        (QEPvLoadSaveItem.readArchiveDataLoop dateTime childItems c).2.2
          = staggeredFrom c (QEPvLoadSaveItem.leavesList childItems)
  | [], c, _, _ => by
    simp [QEPvLoadSaveItem.readArchiveDataLoop, QEPvLoadSaveItem.numLeavesList,
      QEPvLoadSaveItem.leavesList, staggeredFrom]
  | item :: rest, c, h0, h => by
    simp only [QEPvLoadSaveItem.numLeavesList, Nat.cast_add] at h
    have hi := readArchiveData_aux dateTime item c h0 (by omega)
    have hr := readArchiveDataLoop_aux dateTime rest
      (c + QEPvLoadSaveItem.numLeaves item) (by omega) (by omega)
    simp only [QEPvLoadSaveItem.readArchiveDataLoop, QEPvLoadSaveItem.numLeavesList,
      QEPvLoadSaveItem.leavesList, hi.1, hi.2, hr.1, hr.2, staggeredFrom_append,
      leaves_length_aux, Nat.cast_add]
    simp only [and_true]
    omega
end

/-- C8: with readArchiveCount at c (not negative, and 10 * (c + n) within the
range of int), readArchiveData on a tree with n leaves calls the timer once per
leaf, in depth-first child order, the k-th leaf (k = 0 .. n-1) with delay
10 * (c + k), and leaves the counter at c + n: the counter runs on through
nested groups and is never reset inside the traversal. -/
theorem readArchiveData_staggered_schedule (dateTime : T) (item : QEPvLoadSaveItem V A T)
    (c : Int) (hc : 0 ≤ c)
    (hrange : 10 * (c + (QEPvLoadSaveItem.numLeaves item : Int)) ≤ INT_MAX) :
    (QEPvLoadSaveItem.readArchiveData dateTime item c).2.2
      = (QEPvLoadSaveItem.leaves item).enum.map
          (fun p => (Event.singleShot (10 * (c + p.1)) p.2.self : Event V T)) ∧
    (QEPvLoadSaveItem.readArchiveData dateTime item c).2.1
      = c + QEPvLoadSaveItem.numLeaves item ∧
    (QEPvLoadSaveItem.leaves item).length = QEPvLoadSaveItem.numLeaves item := by
  have h := readArchiveData_aux dateTime item c hc hrange
  refine ⟨?_, h.1, leaves_length_aux item⟩
  rw [h.2]
  have he := staggeredFrom_eq_enumFrom c 0 (QEPvLoadSaveItem.leaves item)
  simpa [List.enum] using he

theorem readArchiveData_staggered_schedule_witness :
    (QEPvLoadSaveItem.readArchiveData (7 : Nat) sampleTree
        QEPvLoadSaveItem.initReadArchiveData).2.2
      = [Event.singleShot 0 1, Event.singleShot 10 2, Event.singleShot 20 3] ∧
    (QEPvLoadSaveItem.readArchiveData (7 : Nat) sampleTree
        QEPvLoadSaveItem.initReadArchiveData).2.1 = 3 := by
  have h3 : QEPvLoadSaveItem.numLeaves sampleTree = 3 := by
    simp [sampleTree, sampleChildren, QEPvLoadSaveItem.numLeaves,
      QEPvLoadSaveItem.numLeavesList]
  have h := readArchiveData_staggered_schedule (7 : Nat) sampleTree
    QEPvLoadSaveItem.initReadArchiveData (by decide) (by rw [h3]; decide)
  refine ⟨?_, ?_⟩
  · rw [h.1]
    simp [sampleTree, sampleChildren, sampleLeafOf, sampleLeaf, QEPvLoadSaveItem.leaves,
      QEPvLoadSaveItem.leavesList, QEPvLoadSaveItem.initReadArchiveData, List.enum]
  · rw [h.2.1, h3]
    rfl

/-- C7: code evaluated at the failing input. For a leaf constructed with set
point name SP, read back name RB and archiver name AR, the archive request that
delayedReadArchiveData issues after readArchiveData (atTime) has startTime =
endTime = atTime, count 1, linear interpolation and element 0, but its pvName is
the node name, that is mergePvNames (SP, RB, AR), while the archiver PV name of
the leaf is AR. -/
theorem delayedReadArchiveData_requests_nodeName
    (mergePvNames : String → String → String → String)
    (newQCaObject : String → Nat → QCaObject V)
    (dfltValue value : V) (dfltAlarm : A) (dfltTime atTime : T) (dfltAction : ActionKinds)
    (self : Nat) (c : Int) :
    (delayedReadArchiveData
        (readArchiveData atTime
          (QEPvLoadSaveLeaf.new mergePvNames newQCaObject dfltValue dfltAlarm dfltTime
            dfltAction self "SP" "RB" "AR" value) c).1).2
      = [Event.readArchive
          { userData := self
            pvName := mergePvNames "SP" "RB" "AR"
            startTime := atTime
            endTime := atTime
            count := 1
            how := How.Linear
            element := 0 }] ∧
    (readArchiveData atTime
        (QEPvLoadSaveLeaf.new mergePvNames newQCaObject dfltValue dfltAlarm dfltTime
          dfltAction self "SP" "RB" "AR" value) c).1.archiverPvName = "AR" ∧
    (readArchiveData atTime
        (QEPvLoadSaveLeaf.new mergePvNames newQCaObject dfltValue dfltAlarm dfltTime
          dfltAction self "SP" "RB" "AR" value) c).1.nodeName
      = mergePvNames "SP" "RB" "AR" := by
  have hRB : ("RB" : String).isEmpty = false := by decide
  have hAR : ("AR" : String).isEmpty = false := by decide
  simp [delayedReadArchiveData, readArchiveData, QEPvLoadSaveLeaf.new, setupQCaObjects,
    hRB, hAR]

/-! ## Clone -/

theorem construct_snd (kind : ItemKind) (parentIn : Option Nat) (s : ItemStore) :
    (ItemStore.construct kind parentIn s).2 = s.next := by
  cases parentIn <;> rfl

theorem construct_next (kind : ItemKind) (parentIn : Option Nat) (s : ItemStore) :
    (ItemStore.construct kind parentIn s).1.next = s.next + 1 := by
  cases parentIn <;> rfl

theorem construct_parentItem (kind : ItemKind) (parentIn : Option Nat) (s : ItemStore)
    (a : Nat) :
    (ItemStore.construct kind parentIn s).1.parentItem a
      = if a = s.next then parentIn else s.parentItem a := by
  cases parentIn with
  | none =>
    simp only [ItemStore.construct, Function.update_apply]
  | some p =>
    simp only [ItemStore.construct, ItemStore.appendChild, Function.update_apply]
    split_ifs <;> rfl

theorem construct_childItems (kind : ItemKind) (parentIn : Option Nat) (s : ItemStore)
    (hparent : ∀ p, parentIn = some p → p < s.next) (a : Nat) :
    (ItemStore.construct kind parentIn s).1.childItems a
      = if a = s.next then []
        else if parentIn = some a then s.childItems a ++ [s.next] else s.childItems a := by
  cases parentIn with
  | none =>
    simp only [ItemStore.construct, Function.update_apply]
    split_ifs <;> simp_all
  | some p =>
    have hp : p ≠ s.next := Nat.ne_of_lt (hparent p rfl)
    simp only [ItemStore.construct, ItemStore.appendChild, Function.update_apply,
      Option.some.injEq]
    by_cases ha : a = s.next
    · have hap : a ≠ p := fun h => hp (h ▸ ha)
      simp [ha, hap, Ne.symm hp]
    · by_cases hap : a = p
      · subst hap
        simp [ha]
      · simp [ha, hap, Ne.symm hap]

mutual
theorem holds_transfer (s s2 : ObjectStore V A T) (ok ok2 : Nat → Prop)
    (h : ∀ a, ok a → ok2 a ∧ s2.members a = s.members a ∧
      s2.items.childItems a = s.items.childItems a) :
    ∀ (item : QEPvLoadSaveItem V A T) (node : Nat),
      Holds s ok node item → Holds s2 ok2 node item
  | QEPvLoadSaveItem.group nodeName value childItems, node => by
    intro hh
    simp only [Holds] at hh ⊢
    obtain ⟨hok, hm, hl⟩ := hh
    obtain ⟨h1, h2, h3⟩ := h node hok
    refine ⟨h1, by rw [h2, hm], ?_⟩
    rw [h3]
    exact holdsList_transfer s s2 ok ok2 h childItems _ hl
  | QEPvLoadSaveItem.leaf l, node => by
    intro hh
    simp only [Holds] at hh ⊢
    obtain ⟨h1, h2, _⟩ := h node hh.1
    exact ⟨h1, by rw [h2, hh.2]⟩
theorem holdsList_transfer (s s2 : ObjectStore V A T) (ok ok2 : Nat → Prop)
    (h : ∀ a, ok a → ok2 a ∧ s2.members a = s.members a ∧
      s2.items.childItems a = s.items.childItems a) :
    ∀ (items : List (QEPvLoadSaveItem V A T)) (nodes : List Nat),
      HoldsList s ok nodes items → HoldsList s2 ok2 nodes items
  | [], nodes => by
    intro hh
    simpa only [HoldsList] using hh
  | item :: rest, nodes => by
    intro hh
    cases nodes with
    | nil => simp only [HoldsList] at hh
    | cons node others =>
      simp only [HoldsList] at hh ⊢
      exact ⟨holds_transfer s s2 ok ok2 h item node hh.1,
        holdsList_transfer s s2 ok ok2 h rest others hh.2⟩
end

theorem new_defaultedNamesAndValue (mergePvNames : String → String → String → String)
    (newQCaObject : String → Nat → QCaObject V)
    (dfltValue : V) (dfltAlarm : A) (dfltTime : T) (dfltAction : ActionKinds) (self : Nat)
    (l : QEPvLoadSaveLeaf V A T) :
    DefaultedNamesAndValue l
      (QEPvLoadSaveLeaf.new mergePvNames newQCaObject dfltValue dfltAlarm dfltTime dfltAction
        self l.setPointPvName l.readBackPvName l.archiverPvName l.value) := by
  simp [DefaultedNamesAndValue, QEPvLoadSaveLeaf.new, QEPvLoadSaveLeaf.setupQCaObjects]

mutual
theorem clone_aux (mergePvNames : String → String → String → String)
    (newQCaObject : String → Nat → QCaObject V)
    (dfltValue : V) (dfltAlarm : A) (dfltTime : T) (dfltAction : ActionKinds) :
    ∀ (item : QEPvLoadSaveItem V A T) (s : ObjectStore V A T) (this : Nat)
      (parent : Option Nat) (fuel : Nat),
      Holds s (fun a => a < s.items.next ∧ some a ≠ parent) this item →
      (∀ p, parent = some p → p < s.items.next) →
      cloneFuel item ≤ fuel →
      ∃ (s2 : ObjectStore V A T) (copy : QEPvLoadSaveItem V A T),
        ObjectStore.clone mergePvNames newQCaObject dfltValue dfltAlarm dfltTime dfltAction
          fuel this parent s = some (s2, s.items.next) ∧
        s.items.next < s2.items.next ∧
        (∀ a, a < s.items.next →
          s2.members a = s.members a ∧ s2.items.parentItem a = s.items.parentItem a ∧
          s2.items.childItems a
            = if parent = some a then s.items.childItems a ++ [s.items.next]
              else s.items.childItems a) ∧
        s2.items.parentItem s.items.next = parent ∧
        Holds s2 (fun a => s.items.next ≤ a ∧ a < s2.items.next) s.items.next copy ∧
        QEPvLoadSaveItem.CopyShape DefaultedNamesAndValue item copy
  | QEPvLoadSaveItem.leaf l, s, this, parent, fuel => by
    intro hholds hparent hfuel
    simp only [Holds] at hholds
    obtain ⟨_, hm⟩ := hholds
    cases fuel with
    | zero => simp [cloneFuel] at hfuel
    | succ fuel =>
      refine ⟨
        { items := (ItemStore.construct ItemKind.leaf parent s.items).1
          members := Function.update s.members s.items.next
            (ItemMembers.leaf
              (QEPvLoadSaveLeaf.new mergePvNames newQCaObject dfltValue dfltAlarm dfltTime
                dfltAction s.items.next l.setPointPvName l.readBackPvName l.archiverPvName
                l.value)) },
        QEPvLoadSaveItem.leaf
          (QEPvLoadSaveLeaf.new mergePvNames newQCaObject dfltValue dfltAlarm dfltTime dfltAction
            s.items.next l.setPointPvName l.readBackPvName l.archiverPvName l.value),
        ?_, ?_, ?_, ?_, ?_, ?_⟩
      · simp only [ObjectStore.clone, hm, construct_snd]
      · simp only [construct_next]
        omega
      · intro a ha
        have hne : a ≠ s.items.next := Nat.ne_of_lt ha
        refine ⟨?_, ?_, ?_⟩
        · simp only [Function.update_noteq hne]
        · simp only [construct_parentItem, hne, if_false]
        · simp only [construct_childItems _ _ _ hparent, hne, if_false]
      · simp only [construct_parentItem, if_true]
      · simp only [Holds, construct_next, Function.update_same]
        exact ⟨⟨le_refl _, Nat.lt_succ_self _⟩, trivial⟩
      · simp only [QEPvLoadSaveItem.CopyShape]
        exact new_defaultedNamesAndValue _ _ _ _ _ _ _ l
  | QEPvLoadSaveItem.group nodeName value childItems, s, this, parent, fuel => by
    intro hholds hparent hfuel
    simp only [Holds] at hholds
    obtain ⟨⟨hthis, hthisp⟩, hm, hlist⟩ := hholds
    cases fuel with
    | zero => simp [cloneFuel] at hfuel
    | succ fuel =>
      have hfuel2 : cloneLoopFuel childItems ≤ fuel := by
        simp only [cloneFuel] at hfuel
        omega
      have hthisne : this ≠ s.items.next := Nat.ne_of_lt hthis
      have hthisp2 : ¬ parent = some this := fun h => hthisp h.symm
      -- the store after the constructor of the copy
      have hloop := cloneLoop_aux mergePvNames newQCaObject dfltValue dfltAlarm dfltTime
        dfltAction childItems
        { items := (ItemStore.construct ItemKind.group parent s.items).1
          members := Function.update s.members s.items.next
            (ItemMembers.group nodeName dfltValue) }
        this s.items.next 0 s.items.next fuel (le_refl _)
        (by simp only [construct_next]; omega) hthis
        (by
          simp only [List.drop_zero, construct_childItems _ _ _ hparent, hthisne, hthisp2,
            if_false]
          refine holdsList_transfer s _ _ _ ?_ childItems _ hlist
          intro a ha
          have hne : a ≠ s.items.next := Nat.ne_of_lt ha.1
          have hap : ¬ parent = some a := fun h => ha.2 h.symm
          refine ⟨ha.1, ?_, ?_⟩
          · simp only [Function.update_noteq hne]
          · simp only [construct_childItems _ _ _ hparent, hne, hap, if_false])
        hfuel2
      obtain ⟨s2, copies, newChildren, hrun, hnext, hframe, hchildren, hcopies, hshape⟩ := hloop
      simp only [construct_next] at hnext hframe hcopies
      refine ⟨s2, QEPvLoadSaveItem.group nodeName dfltValue copies, ?_, ?_, ?_, ?_, ?_, ?_⟩
      · simp only [ObjectStore.clone, hm, construct_snd, hrun]
      · omega
      · intro a ha
        have hne : a ≠ s.items.next := Nat.ne_of_lt ha
        obtain ⟨h1, h2, h3⟩ := hframe a (by omega)
        refine ⟨?_, ?_, ?_⟩
        · rw [h1]
          simp only [Function.update_noteq hne]
        · rw [h2]
          simp only [construct_parentItem, hne, if_false]
        · rw [h3 hne]
          simp only [construct_childItems _ _ _ hparent, hne, if_false]
      · rw [(hframe s.items.next (by omega)).2.1]
        simp only [construct_parentItem, if_true]
      · simp only [Holds]
        refine ⟨⟨le_refl _, by omega⟩, ?_, ?_⟩
        · rw [(hframe s.items.next (by omega)).1]
          simp only [Function.update_same]
        · rw [hchildren]
          simp only [construct_childItems _ _ _ hparent, if_true, List.nil_append]
          refine holdsList_transfer s2 s2 _ _ ?_ copies _ hcopies
          intro a ha
          exact ⟨⟨by omega, ha.2⟩, rfl, rfl⟩
      · simp only [QEPvLoadSaveItem.CopyShape]
        exact ⟨trivial, hshape⟩
theorem cloneLoop_aux (mergePvNames : String → String → String → String)
    (newQCaObject : String → Nat → QCaObject V)
    (dfltValue : V) (dfltAlarm : A) (dfltTime : T) (dfltAction : ActionKinds) :
    ∀ (items : List (QEPvLoadSaveItem V A T)) (s : ObjectStore V A T)
      (this result j bound fuel : Nat),
      bound ≤ result → result < s.items.next → this < bound →
      HoldsList s (fun a => a < bound) ((s.items.childItems this).drop j) items →
      cloneLoopFuel items ≤ fuel →
      ∃ (s2 : ObjectStore V A T) (copies : List (QEPvLoadSaveItem V A T))
        (newChildren : List Nat),
        ObjectStore.cloneLoop mergePvNames newQCaObject dfltValue dfltAlarm dfltTime
          dfltAction fuel this result j s = some s2 ∧
        s.items.next ≤ s2.items.next ∧
        (∀ a, a < s.items.next →
          s2.members a = s.members a ∧ s2.items.parentItem a = s.items.parentItem a ∧
          (a ≠ result → s2.items.childItems a = s.items.childItems a)) ∧
        s2.items.childItems result = s.items.childItems result ++ newChildren ∧
        HoldsList s2 (fun a => s.items.next ≤ a ∧ a < s2.items.next) newChildren copies ∧
        QEPvLoadSaveItem.CopyShapeList DefaultedNamesAndValue items copies
  | [], s, this, result, j, bound, fuel => by
    intro _ _ _ hlist hfuel
    simp only [HoldsList] at hlist
    cases fuel with
    | zero => simp [cloneLoopFuel] at hfuel
    | succ fuel =>
      have hget : (s.items.childItems this).get? j = none := by
        rw [List.get?_eq_none]
        exact List.drop_eq_nil_iff.1 hlist
      refine ⟨s, [], [], ?_, le_refl _, fun a _ => ⟨rfl, rfl, fun _ => rfl⟩, ?_, ?_, ?_⟩
      · simp only [ObjectStore.cloneLoop, hget]
      · simp
      · simp only [HoldsList]
      · simp only [QEPvLoadSaveItem.CopyShapeList]
  | item :: rest, s, this, result, j, bound, fuel => by
    intro hbound hresult hthis hlist hfuel
    cases hdrop : (s.items.childItems this).drop j with
    | nil =>
      rw [hdrop] at hlist
      simp only [HoldsList] at hlist
    | cons node others =>
      rw [hdrop] at hlist
      simp only [HoldsList] at hlist
      obtain ⟨hnode, hothers⟩ := hlist
      cases fuel with
      | zero =>
        simp only [cloneLoopFuel] at hfuel
        omega
      | succ fuel =>
        simp only [cloneLoopFuel] at hfuel
        have hget : (s.items.childItems this).get? j = some node := by
          have h := List.head?_drop (s.items.childItems this) j
          rw [hdrop] at h
          simpa using h.symm
        have hrest : (s.items.childItems this).drop (j + 1) = others := by
          have h := List.tail_drop (s.items.childItems this) j
          rw [hdrop] at h
          simpa using h.symm
        have hthisne : this ≠ result := Nat.ne_of_lt (lt_of_lt_of_le hthis hbound)
        -- the clone of the child at j
        obtain ⟨s1, copy, hrun1, hnext1, hframe1, _, hcopy, hshape1⟩ :=
          clone_aux mergePvNames newQCaObject dfltValue dfltAlarm dfltTime dfltAction item s
            node (some result) fuel
            (holds_transfer s s _ _
              (fun a ha => ⟨⟨by omega, fun h => by
                have := Option.some.inj h
                omega⟩, rfl, rfl⟩) item node hnode)
            (fun p hp => by
              have := Option.some.inj hp
              omega)
            (by omega)
        have hchild1 : ∀ a, a < bound →
            s1.members a = s.members a ∧ s1.items.childItems a = s.items.childItems a := by
          intro a ha
          obtain ⟨h1, _, h3⟩ := hframe1 a (by omega)
          refine ⟨h1, ?_⟩
          rw [h3, if_neg]
          intro h
          have := Option.some.inj h
          omega
        -- the remaining rounds
        obtain ⟨s2, copies, newChildren, hrun2, hnext2, hframe2, hchildren2, hcopies, hshape2⟩ :=
          cloneLoop_aux mergePvNames newQCaObject dfltValue dfltAlarm dfltTime dfltAction rest
            s1 this result (j + 1) bound fuel hbound (by omega) hthis
            (by
              rw [(hchild1 this hthis).2, hrest]
              exact holdsList_transfer s s1 _ _
                (fun a ha => ⟨ha, (hchild1 a ha).1, (hchild1 a ha).2⟩) rest others hothers)
            (by omega)
        refine ⟨s2, copy :: copies, s.items.next :: newChildren, ?_, by omega, ?_, ?_, ?_, ?_⟩
        · simp only [ObjectStore.cloneLoop, hget, hrun1, hrun2]
        · intro a ha
          obtain ⟨h1, h2, h3⟩ := hframe1 a ha
          obtain ⟨g1, g2, g3⟩ := hframe2 a (by omega)
          refine ⟨g1.trans h1, g2.trans h2, ?_⟩
          intro hne
          rw [g3 hne, h3, if_neg]
          intro h
          exact hne (Option.some.inj h).symm
        · rw [hchildren2, (hframe1 result hresult).2.2, if_pos rfl, List.append_assoc]
          rfl
        · simp only [HoldsList]
          refine ⟨?_, ?_⟩
          · refine holds_transfer s1 s2 _ _ ?_ copy _ hcopy
            intro a ha
            obtain ⟨g1, _, g3⟩ := hframe2 a ha.2
            exact ⟨⟨ha.1, by omega⟩, g1, g3 (by omega)⟩
          · refine holdsList_transfer s2 s2 _ _ ?_ copies _ hcopies
            intro a ha
            exact ⟨⟨by omega, ha.2⟩, rfl, rfl⟩
        · simp only [QEPvLoadSaveItem.CopyShapeList]
          exact ⟨hshape1, hshape2⟩
end

/-- A group without children cloned with itself as parent: the loop finds the
copy in the child list it walks and clones it under itself in turn, so the call
has not returned within any bound. -/
theorem clone_under_itself_none (mergePvNames : String → String → String → String)
    (newQCaObject : String → Nat → QCaObject V)
    (dfltValue : V) (dfltAlarm : A) (dfltTime : T) (dfltAction : ActionKinds) (fuel : Nat) :
    ∀ (s : ObjectStore V A T) (this : Nat) (nodeName : String) (value : V),
      s.members this = ItemMembers.group nodeName value → s.items.childItems this = [] →
      this < s.items.next →
      ObjectStore.clone mergePvNames newQCaObject dfltValue dfltAlarm dfltTime dfltAction
        fuel this (some this) s = none := by
  induction fuel using Nat.strong_induction_on with
  | _ fuel ih =>
    intro s this nodeName value hm hchildren hthis
    cases fuel with
    | zero => simp only [ObjectStore.clone]
    | succ fuel =>
      have hparent : ∀ p, some this = some p → p < s.items.next := fun p hp => by
        rw [← Option.some.inj hp]
        exact hthis
      have hne : this ≠ s.items.next := Nat.ne_of_lt hthis
      have hloop : ObjectStore.cloneLoop mergePvNames newQCaObject dfltValue dfltAlarm dfltTime
          dfltAction fuel this s.items.next 0
          { items := (ItemStore.construct ItemKind.group (some this) s.items).1
            members := Function.update s.members s.items.next
              (ItemMembers.group nodeName dfltValue) } = none := by
        cases fuel with
        | zero => simp only [ObjectStore.cloneLoop]
        | succ fuel =>
          have hrec := ih fuel (by omega)
            { items := (ItemStore.construct ItemKind.group (some this) s.items).1
              members := Function.update s.members s.items.next
                (ItemMembers.group nodeName dfltValue) }
            s.items.next nodeName dfltValue (by simp only [Function.update_same])
            (by simp only [construct_childItems _ _ _ hparent, if_true])
            (by simp only [construct_next]; omega)
          simp only [ObjectStore.cloneLoop, construct_childItems _ _ _ hparent, hne, if_false,
            if_true, hchildren, List.nil_append, List.get?_cons_zero, hrec]
      simp only [ObjectStore.clone, hm, construct_snd, hloop]

/-- C11 (amended): for every tree and every parent that is null or an existing
object outside the tree, clone (parent) on the root of the tree returns (with
every bound from cloneFuel on) a new object under parent, appended to the child
list of parent, that is the root of a tree of the same shape made of new objects
only: the copy of a group is a group with the same node name whose children are
the copies of the original children in the original order; the copy of a leaf
has the same set point name and value, and its read back and archiver names are
those of the original when these are not empty and the set point name
otherwise. The original tree is unchanged. -/
theorem clone_gives_copy_under_parent (mergePvNames : String → String → String → String)
    (newQCaObject : String → Nat → QCaObject V)
    (dfltValue : V) (dfltAlarm : A) (dfltTime : T) (dfltAction : ActionKinds)
    (s : ObjectStore V A T) (this : Nat) (parent : Option Nat)
    (item : QEPvLoadSaveItem V A T) (fuel : Nat)
    (htree : Holds s (fun a => a < s.items.next ∧ some a ≠ parent) this item)
    (hparent : ∀ p, parent = some p → p < s.items.next)
    (hfuel : cloneFuel item ≤ fuel) :
    ∃ (s2 : ObjectStore V A T) (copy : QEPvLoadSaveItem V A T),
      ObjectStore.clone mergePvNames newQCaObject dfltValue dfltAlarm dfltTime dfltAction
        fuel this parent s = some (s2, s.items.next) ∧
      Holds s2 (fun a => s.items.next ≤ a ∧ a < s2.items.next) s.items.next copy ∧
      QEPvLoadSaveItem.CopyShape DefaultedNamesAndValue item copy ∧
      s2.items.parentItem s.items.next = parent ∧
      (∀ p, parent = some p → s2.items.childItems p = s.items.childItems p ++ [s.items.next]) ∧
      Holds s2 (fun a => a < s.items.next ∧ some a ≠ parent) this item := by
  obtain ⟨s2, copy, hrun, _, hframe, hpar, hcopy, hshape⟩ :=
    clone_aux mergePvNames newQCaObject dfltValue dfltAlarm dfltTime dfltAction item s this
      parent fuel htree hparent hfuel
  refine ⟨s2, copy, hrun, hcopy, hshape, hpar, ?_, ?_⟩
  · intro p hp
    rw [(hframe p (hparent p hp)).2.2, if_pos hp]
  · refine holds_transfer s s2 _ _ ?_ item this htree
    intro a ha
    obtain ⟨h1, _, h3⟩ := hframe a ha.1
    refine ⟨ha, h1, ?_⟩
    rw [h3, if_neg (fun h => ha.2 h.symm)]

theorem sampleObjects_holds :
    Holds sampleObjects (fun a => a < sampleObjects.items.next ∧ some a ≠ some 4) 0
      sampleObjectsTree := by
  simp [Holds, HoldsList, sampleObjects, sampleObjectsTree]

theorem clone_gives_copy_under_parent_witness :
    Holds sampleObjects (fun a => a < sampleObjects.items.next ∧ some a ≠ some 4) 0
      sampleObjectsTree ∧
    ∃ (s2 : ObjectStore SampleVariant Nat Nat) (copy : QEPvLoadSaveItem SampleVariant Nat Nat),
      sampleCloneObject 10 0 (some 4) = some (s2, 5) ∧
      Holds s2 (fun a => 5 ≤ a ∧ a < s2.items.next) 5 copy ∧
      QEPvLoadSaveItem.CopyShape DefaultedNamesAndValue sampleObjectsTree copy ∧
      s2.items.parentItem 5 = some 4 ∧
      s2.items.childItems 4 = [5] := by
  refine ⟨sampleObjects_holds, ?_⟩
  obtain ⟨s2, copy, h1, h2, h3, h4, h5, _⟩ :=
    clone_gives_copy_under_parent sampleMergePvNames sampleNewQCaObject SampleVariant.invalid
      0 0 ActionKinds.NullAction sampleObjects 0 (some 4) sampleObjectsTree 10
      sampleObjects_holds
      (fun p hp => by
        rw [← Option.some.inj hp]
        decide)
      (by decide)
  exact ⟨s2, copy, h1, h2, h3, h4, h5 4 rfl⟩

/-- C11 as stated fails. The leaf 1 of the sample store has read back name "" and
set point name PV, and its clone, the new object 5, has read back name PV, so
the copy does not have the same three PV names as the original. And clone on the
group 4 with the group 4 itself as parent has not returned within any bound. -/
theorem clone_changes_empty_name_or_never_returns :
    sampleObjects.members 1 = ItemMembers.leaf sampleLeafEmptyReadBack ∧
    sampleLeafEmptyReadBack.readBackPvName = "" ∧
    (sampleCloneObject 1 1 none).map (fun r => r.2) = some 5 ∧
    (sampleCloneObject 1 1 none).map (fun r => r.1.members r.2)
      = some (ItemMembers.leaf
          (QEPvLoadSaveLeaf.new sampleMergePvNames sampleNewQCaObject SampleVariant.invalid 0 0
            ActionKinds.NullAction 5 "PV" "PV" "PV" (SampleVariant.double 10))) ∧
    ¬ SameNamesAndValue sampleLeafEmptyReadBack
        (QEPvLoadSaveLeaf.new sampleMergePvNames sampleNewQCaObject SampleVariant.invalid 0 0
          ActionKinds.NullAction 5 "PV" "PV" "PV" (SampleVariant.double 10)) ∧
    (∀ fuel : Nat, sampleCloneObject fuel 4 (some 4) = none) := by
  have hPV : ("PV" : String).isEmpty = false := by decide
  have hE : ("" : String).isEmpty = true := by decide
  have hne : ¬ ("PV" : String) = "" := by decide
  have hm : sampleObjects.members 1 = ItemMembers.leaf sampleLeafEmptyReadBack := rfl
  have hnext : sampleObjects.items.next = 5 := rfl
  refine ⟨hm, rfl, ?_, ?_, ?_, ?_⟩
  · simp only [sampleCloneObject, ObjectStore.clone, hm, Option.map_some', construct_snd, hnext]
  · simp only [sampleCloneObject, ObjectStore.clone, hm, Option.map_some', construct_snd,
      Function.update_same, hnext]
    simp [QEPvLoadSaveLeaf.new, QEPvLoadSaveLeaf.setupQCaObjects,
      sampleLeafEmptyReadBack, QEPvLoadSaveLeaf.setReadBackPvName, sampleLeafOf, sampleLeaf,
      hPV, hE]
  · simp [SameNamesAndValue, QEPvLoadSaveLeaf.new, QEPvLoadSaveLeaf.setupQCaObjects,
      sampleLeafEmptyReadBack, QEPvLoadSaveLeaf.setReadBackPvName, sampleLeafOf, sampleLeaf,
      hPV, hE, hne]
  · intro fuel
    exact clone_under_itself_none sampleMergePvNames sampleNewQCaObject SampleVariant.invalid
      0 0 ActionKinds.NullAction fuel sampleObjects 4 "copies" SampleVariant.invalid rfl rfl
      (by decide)

/-! ## Delta text and status, branch by branch -/

/-- C12: when value or liveValue (or both) is of undefined type, getStatusSummary
returns isNotAplicableCount = 1 with the other two counts 0, and getData (Delta)
is the text "n/a". -/
theorem undefined_gives_not_applicable (Q : QVariantOps V D) (P : QVariantTextOps V)
    (l : QEPvLoadSaveLeaf V A T)
    (hundef : Q.metaType l.value = UnknownType ∨ Q.metaType l.liveValue = UnknownType) :
    (getStatusSummary Q l).1
      = { isEqualCount := 0, isNotEqualCount := 0, isNotAplicableCount := 1 } ∧
    (getData Q P (some ColumnKinds.Delta) l).1 = Q.ofString "n/a" := by
  have hcond : (Q.metaType l.liveValue == UnknownType || Q.metaType l.value == UnknownType)
      = true := by
    rcases hundef with h | h <;> simp [h]
  simp [getStatusSummary, getData, determineDeltaAndLeafStatus, hcond]

theorem undefined_gives_not_applicable_witness :
    (getStatusSummary sampleOps (sampleLeafOf 1 SampleVariant.invalid (SampleVariant.double 3))).1
      = { isEqualCount := 0, isNotEqualCount := 0, isNotAplicableCount := 1 } ∧
    (getData sampleOps sampleTextOps (some ColumnKinds.Delta)
        (sampleLeafOf 1 SampleVariant.invalid (SampleVariant.double 3))).1
      = SampleVariant.text "n/a" :=
  undefined_gives_not_applicable sampleOps sampleTextOps
    (sampleLeafOf 1 SampleVariant.invalid (SampleVariant.double 3)) (Or.inl rfl)

theorem listEqual_iff_forall₂ (Q : QVariantOps V D) (as bs : List V) :
    listEqual Q as bs = true ↔ List.Forall₂ (fun x y => Q.equal x y = true) as bs := by
  induction as generalizing bs with
  | nil => cases bs <;> simp [listEqual]
  | cons a as ih => cases bs <;> simp [listEqual, ih]

/-- When value and liveValue are both defined and both a list or a vector, the
status is equal (isEqualCount = 1, text "identical") exactly when the two values
are identical as ordered element sequences, and otherwise not-equal
(isNotEqualCount = 1, text "different"); it is never not-applicable. -/
theorem multi_value_identical_iff_sequences (Q : QVariantOps V D) (P : QVariantTextOps V)
    (l : QEPvLoadSaveLeaf V A T)
    (hself : Q.metaType l.value ≠ UnknownType) (hlive : Q.metaType l.liveValue ≠ UnknownType)
    (hselfMulti : isMultiValue Q l.value = true)
    (hliveMulti : isMultiValue Q l.liveValue = true) :
    (IdenticalAsSequences Q l.liveValue l.value →
      (getStatusSummary Q l).1
          = { isEqualCount := 1, isNotEqualCount := 0, isNotAplicableCount := 0 } ∧
        (getData Q P (some ColumnKinds.Delta) l).1 = Q.ofString "identical") ∧
    (¬ IdenticalAsSequences Q l.liveValue l.value →
      (getStatusSummary Q l).1
          = { isEqualCount := 0, isNotEqualCount := 1, isNotAplicableCount := 0 } ∧
        (getData Q P (some ColumnKinds.Delta) l).1 = Q.ofString "different") ∧
    (getStatusSummary Q l).1.isNotAplicableCount = 0 := by
  have hs : elementSequence Q l.value
      = some (if Q.isVectorVariant l.value then (Q.convertToVariantList l.value).1
          else Q.toList l.value) := by
    unfold elementSequence
    unfold isMultiValue at hselfMulti
    by_cases hv : Q.isVectorVariant l.value = true
    · simp [hv]
    · simp only [hv, Bool.or_false, Bool.false_eq_true, if_false] at hselfMulti ⊢
      simp [hselfMulti]
  have hl : elementSequence Q l.liveValue
      = some (if Q.isVectorVariant l.liveValue then (Q.convertToVariantList l.liveValue).1
          else Q.toList l.liveValue) := by
    unfold elementSequence
    unfold isMultiValue at hliveMulti
    by_cases hv : Q.isVectorVariant l.liveValue = true
    · simp [hv]
    · simp only [hv, Bool.or_false, Bool.false_eq_true, if_false] at hliveMulti ⊢
      simp [hliveMulti]
  have hiff : IdenticalAsSequences Q l.liveValue l.value ↔
      listEqual Q
        (if Q.isVectorVariant l.liveValue = true then (Q.convertToVariantList l.liveValue).1
          else Q.toList l.liveValue)
        (if Q.isVectorVariant l.value = true then (Q.convertToVariantList l.value).1
          else Q.toList l.value) = true := by
    unfold IdenticalAsSequences
    rw [hs, hl, listEqual_iff_forall₂]
    constructor
    · rintro ⟨as, bs, has, hbs, h⟩
      rw [← Option.some.inj has, ← Option.some.inj hbs] at h
      exact h
    · intro h
      exact ⟨_, _, rfl, rfl, h⟩
  unfold isMultiValue at hselfMulti hliveMulti
  have hself2 : (Q.metaType l.value == UnknownType) = false := by simpa using hself
  have hlive2 : (Q.metaType l.liveValue == UnknownType) = false := by simpa using hlive
  rw [hiff]
  simp only [getStatusSummary, getData, determineDeltaAndLeafStatus, hself2, hlive2,
    hselfMulti, hliveMulti]
  by_cases heq : listEqual Q
      (if Q.isVectorVariant l.liveValue = true then (Q.convertToVariantList l.liveValue).1
        else Q.toList l.liveValue)
      (if Q.isVectorVariant l.value = true then (Q.convertToVariantList l.value).1
        else Q.toList l.value) = true
  · simp [heq, wrapInt]
  · simp [heq, wrapInt]

theorem multi_value_identical_iff_sequences_witness :
    IdenticalAsSequences sampleOps (SampleVariant.vector [1, 2]) (SampleVariant.list [1, 2]) ∧
    (getStatusSummary sampleOps
        (sampleLeafOf 1 (SampleVariant.list [1, 2]) (SampleVariant.vector [1, 2]))).1
      = { isEqualCount := 1, isNotEqualCount := 0, isNotAplicableCount := 0 } ∧
    (getData sampleOps sampleTextOps (some ColumnKinds.Delta)
        (sampleLeafOf 1 (SampleVariant.list [1, 2]) (SampleVariant.vector [1, 2]))).1
      = SampleVariant.text "identical" := by
  have hid : IdenticalAsSequences sampleOps (SampleVariant.vector [1, 2])
      (SampleVariant.list [1, 2]) := by
    refine ⟨[SampleVariant.double 1, SampleVariant.double 2],
      [SampleVariant.double 1, SampleVariant.double 2], ?_, ?_, ?_⟩ <;>
      simp [elementSequence, sampleOps, QVariantListType]
  have h := multi_value_identical_iff_sequences sampleOps sampleTextOps
    (sampleLeafOf 1 (SampleVariant.list [1, 2]) (SampleVariant.vector [1, 2]))
    (by decide) (by decide) (by decide) (by decide)
  exact ⟨hid, h.1 hid⟩

/-- C13: code evaluated at the failing input. With value the scalar 5.0 and
liveValue the empty list (both defined, one of them a list) the status is equal
with text "identical", although the two values are not identical as ordered
element sequences: the scalar is no sequence, and getElementCount counts one
element for it and none for the empty list. Against the list [1, 2] the text
"on" is reported different, as the claim says. -/
theorem scalar_against_empty_list_reported_identical :
    (getStatusSummary sampleOps
        (sampleLeafOf 1 (SampleVariant.double 5) (SampleVariant.list []))).1
      = { isEqualCount := 1, isNotEqualCount := 0, isNotAplicableCount := 0 } ∧
    (getData sampleOps sampleTextOps (some ColumnKinds.Delta)
        (sampleLeafOf 1 (SampleVariant.double 5) (SampleVariant.list []))).1
      = SampleVariant.text "identical" ∧
    getElementCount sampleOps sampleTextOps (SampleVariant.double 5) = 1 ∧
    getElementCount sampleOps sampleTextOps (SampleVariant.list []) = 0 ∧
    ¬ IdenticalAsSequences sampleOps (SampleVariant.list []) (SampleVariant.double 5) ∧
    (getStatusSummary sampleOps
        (sampleLeafOf 1 (SampleVariant.text "on") (SampleVariant.list [1, 2]))).1
      = { isEqualCount := 0, isNotEqualCount := 1, isNotAplicableCount := 0 } ∧
    (getData sampleOps sampleTextOps (some ColumnKinds.Delta)
        (sampleLeafOf 1 (SampleVariant.text "on") (SampleVariant.list [1, 2]))).1
      = SampleVariant.text "different" ∧
    ¬ IdenticalAsSequences sampleOps (SampleVariant.list [1, 2]) (SampleVariant.text "on") := by
  refine ⟨?_, ?_, ?_, ?_, ?_, ?_, ?_, ?_⟩
  · simp [getStatusSummary, determineDeltaAndLeafStatus, sampleLeafOf, sampleLeaf, sampleOps,
      listEqual, wrapInt, UnknownType, QVariantListType]
  · simp [getData, determineDeltaAndLeafStatus, sampleLeafOf, sampleLeaf, sampleOps,
      listEqual, wrapInt, UnknownType, QVariantListType]
  · simp [getElementCount, sampleOps, sampleTextOps, QVariantListType]
  · simp [getElementCount, sampleOps, sampleTextOps, QVariantListType]
  · rintro ⟨as, bs, _, hbs, _⟩
    simp [elementSequence, sampleOps, QVariantListType] at hbs
  · simp [getStatusSummary, determineDeltaAndLeafStatus, sampleLeafOf, sampleLeaf, sampleOps,
      listEqual, wrapInt, UnknownType, QVariantListType]
  · simp [getData, determineDeltaAndLeafStatus, sampleLeafOf, sampleLeaf, sampleOps,
      listEqual, wrapInt, UnknownType, QVariantListType]
  · rintro ⟨as, bs, _, hbs, _⟩
    simp [elementSequence, sampleOps, QVariantListType] at hbs

/-- C14: when value and liveValue are both defined scalars and at least one of
them does not convert to double, the status is equal (isEqualCount = 1, text
"identical") exactly when liveValue == value as QVariants, and otherwise
not-equal (isNotEqualCount = 1, text "different"). -/
theorem non_numeric_scalars_identical_iff_equal (Q : QVariantOps V D)
    (P : QVariantTextOps V) (l : QEPvLoadSaveLeaf V A T)
    (hself : Q.metaType l.value ≠ UnknownType) (hlive : Q.metaType l.liveValue ≠ UnknownType)
    (hselfScalar : isMultiValue Q l.value = false)
    (hliveScalar : isMultiValue Q l.liveValue = false)
    (hnonNumeric : (Q.toDouble l.liveValue).2 = false ∨ (Q.toDouble l.value).2 = false) :
    (Q.equal l.liveValue l.value = true →
      (getStatusSummary Q l).1
          = { isEqualCount := 1, isNotEqualCount := 0, isNotAplicableCount := 0 } ∧
        (getData Q P (some ColumnKinds.Delta) l).1 = Q.ofString "identical") ∧
    (Q.equal l.liveValue l.value = false →
      (getStatusSummary Q l).1
          = { isEqualCount := 0, isNotEqualCount := 1, isNotAplicableCount := 0 } ∧
        (getData Q P (some ColumnKinds.Delta) l).1 = Q.ofString "different") := by
  unfold isMultiValue at hselfScalar hliveScalar
  have hself' : (Q.metaType l.value == UnknownType) = false := by simpa using hself
  have hlive' : (Q.metaType l.liveValue == UnknownType) = false := by simpa using hlive
  have hok : ((Q.toDouble l.liveValue).2 && (Q.toDouble l.value).2) = false := by
    rcases hnonNumeric with h | h <;> simp [h]
  constructor <;> intro heq <;>
    simp [getStatusSummary, getData, determineDeltaAndLeafStatus, hself', hlive',
      hselfScalar, hliveScalar, hok, heq, wrapInt]

theorem non_numeric_scalars_identical_iff_equal_witness :
    ((getStatusSummary sampleOps
          (sampleLeafOf 1 (SampleVariant.text "on") (SampleVariant.text "on"))).1
        = { isEqualCount := 1, isNotEqualCount := 0, isNotAplicableCount := 0 } ∧
      (getData sampleOps sampleTextOps (some ColumnKinds.Delta)
          (sampleLeafOf 1 (SampleVariant.text "on") (SampleVariant.text "on"))).1
        = SampleVariant.text "identical") ∧
    ((getStatusSummary sampleOps
          (sampleLeafOf 1 (SampleVariant.text "on") (SampleVariant.double 1))).1
        = { isEqualCount := 0, isNotEqualCount := 1, isNotAplicableCount := 0 } ∧
      (getData sampleOps sampleTextOps (some ColumnKinds.Delta)
          (sampleLeafOf 1 (SampleVariant.text "on") (SampleVariant.double 1))).1
        = SampleVariant.text "different") :=
  ⟨(non_numeric_scalars_identical_iff_equal sampleOps sampleTextOps
      (sampleLeafOf 1 (SampleVariant.text "on") (SampleVariant.text "on"))
      (by decide) (by decide) (by decide) (by decide) (Or.inl rfl)).1 (by decide),
    (non_numeric_scalars_identical_iff_equal sampleOps sampleTextOps
      (sampleLeafOf 1 (SampleVariant.text "on") (SampleVariant.double 1))
      (by decide) (by decide) (by decide) (by decide) (Or.inr rfl)).2 (by decide)⟩

/-- C15: when value and liveValue are both defined scalars that convert to
double, getData (Delta) is the number liveValue - value (live minus
persisted). -/
theorem delta_is_live_minus_value (Q : QVariantOps V D) (P : QVariantTextOps V)
    (l : QEPvLoadSaveLeaf V A T)
    (hself : Q.metaType l.value ≠ UnknownType) (hlive : Q.metaType l.liveValue ≠ UnknownType)
    (hselfScalar : isMultiValue Q l.value = false)
    (hliveScalar : isMultiValue Q l.liveValue = false)
    (hok1 : (Q.toDouble l.liveValue).2 = true) (hok2 : (Q.toDouble l.value).2 = true) :
    (getData Q P (some ColumnKinds.Delta) l).1
      = Q.ofDouble (Q.sub (Q.toDouble l.liveValue).1 (Q.toDouble l.value).1) := by
  unfold isMultiValue at hselfScalar hliveScalar
  have hself' : (Q.metaType l.value == UnknownType) = false := by simpa using hself
  have hlive' : (Q.metaType l.liveValue == UnknownType) = false := by simpa using hlive
  simp [getData, determineDeltaAndLeafStatus, hself', hlive', hselfScalar, hliveScalar,
    hok1, hok2]

theorem delta_is_live_minus_value_witness :
    (getData sampleOps sampleTextOps (some ColumnKinds.Delta)
        (sampleLeafOf 1 (SampleVariant.double 10) (SampleVariant.double 10))).1
      = SampleVariant.double 0 ∧
    (getData sampleOps sampleTextOps (some ColumnKinds.Delta)
        (sampleLeafOf 1 (SampleVariant.double 10) (SampleVariant.double (25 / 2)))).1
      = SampleVariant.double (5 / 2) := by
  have h0 := delta_is_live_minus_value sampleOps sampleTextOps
    (sampleLeafOf 1 (SampleVariant.double 10) (SampleVariant.double 10))
    (by decide) (by decide) (by decide) (by decide) rfl rfl
  have h1 := delta_is_live_minus_value sampleOps sampleTextOps
    (sampleLeafOf 1 (SampleVariant.double 10) (SampleVariant.double (25 / 2)))
    (by decide) (by decide) (by decide) (by decide) rfl rfl
  refine ⟨?_, ?_⟩
  · rw [h0]
    norm_num [sampleOps, sampleLeafOf, sampleLeaf]
  · rw [h1]
    norm_num [sampleOps, sampleLeafOf, sampleLeaf]

/-! ## Numeric export map -/

theorem lastNumericValue_append (Q : QVariantOps V D) (xs ys : List (QEPvLoadSaveLeaf V A T))
    (key : String) :
    lastNumericValue Q (xs ++ ys) key
      = mergeMaps (lastNumericValue Q xs) (lastNumericValue Q ys) key := by
  unfold lastNumericValue mergeMaps
  rw [List.filter_append, List.getLast?_append]
  beta_reduce
  generalize (List.filter (fun l => decide (l.setPointPvName = key) && (Q.toDouble l.value).2)
    ys).getLast? = oy
  generalize (List.filter (fun l => decide (l.setPointPvName = key) && (Q.toDouble l.value).2)
    xs).getLast? = ox
  cases oy <;> cases ox <;> rfl

theorem mergeMaps_assoc (a b c : PvNameValueMaps D) :
    mergeMaps (mergeMaps a b) c = mergeMaps a (mergeMaps b c) := by
  funext k
  unfold mergeMaps
  cases c k <;> simp

theorem mergeMaps_empty_left (b : PvNameValueMaps D) :
    mergeMaps PvNameValueMaps.empty b = b := by
  funext k
  unfold mergeMaps PvNameValueMaps.empty
  cases b k <;> simp

mutual
theorem getPvNameValueMap_aux (Q : QVariantOps V D) : ∀ (item : QEPvLoadSaveItem V A T),
    QEPvLoadSaveItem.getPvNameValueMap Q item
      = fun key => lastNumericValue Q (QEPvLoadSaveItem.leaves item) key
  | QEPvLoadSaveItem.group _ _ childItems => by
    simp only [QEPvLoadSaveItem.getPvNameValueMap, QEPvLoadSaveItem.leaves]
    rw [getPvNameValueMapLoop_aux Q childItems PvNameValueMaps.empty, mergeMaps_empty_left]
  | QEPvLoadSaveItem.leaf l => by
    funext key
    simp only [QEPvLoadSaveItem.getPvNameValueMap, QEPvLoadSaveItem.leaves,
      QEPvLoadSaveLeaf.getPvNameValueMap, lastNumericValue]
    by_cases hok : (Q.toDouble l.value).2 = true
    · by_cases hk : l.setPointPvName = key
      · simp [hok, hk, List.filter, PvNameValueMaps.insert, PvNameValueMaps.empty]
      · have hk2 : ¬ key = l.setPointPvName := fun h => hk h.symm
        simp [hok, hk, hk2, List.filter, PvNameValueMaps.insert, PvNameValueMaps.empty]
    · simp [hok, List.filter, PvNameValueMaps.insert, PvNameValueMaps.empty]
theorem getPvNameValueMapLoop_aux (Q : QVariantOps V D) :
    ∀ (childItems : List (QEPvLoadSaveItem V A T)) (result : PvNameValueMaps D),
    QEPvLoadSaveItem.getPvNameValueMapLoop Q childItems result
      = mergeMaps result
          (fun key => lastNumericValue Q (QEPvLoadSaveItem.leavesList childItems) key)
  | [], result => by
    funext key
    simp [QEPvLoadSaveItem.getPvNameValueMapLoop, QEPvLoadSaveItem.leavesList, mergeMaps,
      lastNumericValue]
  | theChild :: rest, result => by
    simp only [QEPvLoadSaveItem.getPvNameValueMapLoop, QEPvLoadSaveItem.leavesList]
    rw [getPvNameValueMapLoop_aux Q rest _, getPvNameValueMap_aux Q theChild, mergeMaps_assoc]
    have happ : (fun key => lastNumericValue Q
          (QEPvLoadSaveItem.leaves theChild ++ QEPvLoadSaveItem.leavesList rest) key)
        = mergeMaps (fun key => lastNumericValue Q (QEPvLoadSaveItem.leaves theChild) key)
            (fun key => lastNumericValue Q (QEPvLoadSaveItem.leavesList rest) key) := by
      funext key
      exact lastNumericValue_append Q _ _ key
    rw [happ]
end

/-- C16: for every tree and every key, getPvNameValueMap of the root holds under
the key the numeric value of the last leaf, in depth-first child order, whose
set point PV name is the key and whose value converts to double; the key is
present exactly when there is such a leaf, so a leaf whose value does not
convert contributes no entry. -/
theorem getPvNameValueMap_last_writer_wins (Q : QVariantOps V D)
    (item : QEPvLoadSaveItem V A T) (key : String) :
    QEPvLoadSaveItem.getPvNameValueMap Q item key
      = lastNumericValue Q (QEPvLoadSaveItem.leaves item) key ∧
    ((QEPvLoadSaveItem.getPvNameValueMap Q item key).isSome = true ↔
      ∃ l ∈ QEPvLoadSaveItem.leaves item,
        l.setPointPvName = key ∧ (Q.toDouble l.value).2 = true) := by
  have h := congrFun (getPvNameValueMap_aux Q item) key
  refine ⟨h, ?_⟩
  rw [h]
  unfold lastNumericValue
  rw [Option.isSome_map', List.getLast?_isSome]
  constructor
  · intro hne
    obtain ⟨l, hl⟩ := List.exists_mem_of_ne_nil _ hne
    rw [List.mem_filter] at hl
    exact ⟨l, hl.1, by simpa using hl.2⟩
  · rintro ⟨l, hl, hk, hok⟩
    apply List.ne_nil_of_mem (a := l)
    rw [List.mem_filter]
    exact ⟨hl, by simp [hk, hok]⟩

/-! ## PV names of a leaf -/

/-- C17: when splitPvNames fails for the name, setNodeName leaves the leaf
unchanged (its three PV names, node name, action and PV objects included) and
emits exactly one read-out message, "failed to parse: " followed by the name;
when splitPvNames succeeds, the three PV names become exactly the three parts it
returned and no message is emitted. -/
theorem setNodeName_rejects_or_takes_parts
    (splitPvNames : String → Bool × String × String × String)
    (mergePvNames : String → String → String → String)
    (newQCaObject : String → Nat → QCaObject V) (nodeName : String)
    (l : QEPvLoadSaveLeaf V A T) :
    ((splitPvNames nodeName).1 = false →
      setNodeName splitPvNames mergePvNames newQCaObject nodeName l
        = (l, [Event.setReadOut ("failed to parse: " ++ nodeName)])) ∧
    ((splitPvNames nodeName).1 = true →
      (setNodeName splitPvNames mergePvNames newQCaObject nodeName l).1.setPointPvName
          = (splitPvNames nodeName).2.1 ∧
        (setNodeName splitPvNames mergePvNames newQCaObject nodeName l).1.readBackPvName
          = (splitPvNames nodeName).2.2.1 ∧
        (setNodeName splitPvNames mergePvNames newQCaObject nodeName l).1.archiverPvName
          = (splitPvNames nodeName).2.2.2 ∧
        (setNodeName splitPvNames mergePvNames newQCaObject nodeName l).2 = []) := by
  constructor <;> intro h <;> simp [setNodeName, setupQCaObjects, h]

theorem setNodeName_rejects_or_takes_parts_witness :
    setNodeName sampleSplitPvNames sampleMergePvNames sampleNewQCaObject ""
        (sampleLeafOf 1 (SampleVariant.double 10) (SampleVariant.double 10))
      = (sampleLeafOf 1 (SampleVariant.double 10) (SampleVariant.double 10),
          [Event.setReadOut "failed to parse: "]) ∧
    (setNodeName sampleSplitPvNames sampleMergePvNames sampleNewQCaObject "OTHER"
        (sampleLeafOf 1 (SampleVariant.double 10) (SampleVariant.double 10))).1.readBackPvName
      = "OTHER" := by
  have hfail := (setNodeName_rejects_or_takes_parts sampleSplitPvNames sampleMergePvNames
    sampleNewQCaObject ""
    (sampleLeafOf 1 (SampleVariant.double 10) (SampleVariant.double 10))).1 (by decide)
  have hok := (setNodeName_rejects_or_takes_parts sampleSplitPvNames sampleMergePvNames
    sampleNewQCaObject "OTHER"
    (sampleLeafOf 1 (SampleVariant.double 10) (SampleVariant.double 10))).2 (by decide)
  refine ⟨?_, ?_⟩
  · rw [hfail]
    rfl
  · rw [hok.2.1]
    decide

/-- C18: a leaf built by the constructor, and a leaf updated by setPvNames, has
the set point name given, the read back name given if that is not empty and the
set point name otherwise, and the archiver name given if that is not empty and
the set point name otherwise. -/
theorem constructor_and_setPvNames_default_names
    (mergePvNames : String → String → String → String)
    (newQCaObject : String → Nat → QCaObject V)
    (dfltValue value : V) (dfltAlarm : A) (dfltTime : T) (dfltAction : ActionKinds)
    (self : Nat) (setPoint readBack archiver : String) (l : QEPvLoadSaveLeaf V A T) :
    ((QEPvLoadSaveLeaf.new mergePvNames newQCaObject dfltValue dfltAlarm dfltTime dfltAction
          self setPoint readBack archiver value).setPointPvName = setPoint ∧
      (QEPvLoadSaveLeaf.new mergePvNames newQCaObject dfltValue dfltAlarm dfltTime dfltAction
          self setPoint readBack archiver value).readBackPvName
        = (if readBack.isEmpty then setPoint else readBack) ∧
      (QEPvLoadSaveLeaf.new mergePvNames newQCaObject dfltValue dfltAlarm dfltTime dfltAction
          self setPoint readBack archiver value).archiverPvName
        = (if archiver.isEmpty then setPoint else archiver)) ∧
    ((setPvNames mergePvNames newQCaObject setPoint readBack archiver l).setPointPvName
        = setPoint ∧
      (setPvNames mergePvNames newQCaObject setPoint readBack archiver l).readBackPvName
        = (if readBack.isEmpty then setPoint else readBack) ∧
      (setPvNames mergePvNames newQCaObject setPoint readBack archiver l).archiverPvName
        = (if archiver.isEmpty then setPoint else archiver)) := by
  simp [QEPvLoadSaveLeaf.new, setPvNames, setupQCaObjects]

/-! ## Display columns -/

/-- C19: code evaluated at the failing input. The LoadSave column of a leaf whose
value is a list of 3 elements shows the placeholder with 3, but the Live column
of a leaf whose liveValue is a list of 3 elements shows the size of value as a
list: 0 when value is the scalar 5.0 and 1 when value is a list of one
element. -/
theorem getData_live_list_shows_size_of_value :
    (getData sampleOps sampleTextOps (some ColumnKinds.LoadSave)
        (sampleLeafOf 1 (SampleVariant.list [1, 2, 3]) (SampleVariant.double 5))).1
      = SampleVariant.text "<< array [3] >>" ∧
    (getData sampleOps sampleTextOps (some ColumnKinds.Live)
        (sampleLeafOf 1 (SampleVariant.double 5) (SampleVariant.list [1, 2, 3]))).1
      = SampleVariant.text "<< array [0] >>" ∧
    (getData sampleOps sampleTextOps (some ColumnKinds.Live)
        (sampleLeafOf 1 (SampleVariant.list [7]) (SampleVariant.list [1, 2, 3]))).1
      = SampleVariant.text "<< array [1] >>" := by
  refine ⟨?_, ?_, ?_⟩ <;>
    simp [getData, sampleOps, sampleTextOps, sampleLeafOf, sampleLeaf, QVariantListType,
      arrayImage] <;> decide

/-! ## Well-formedness of the linked tree -/

theorem insertAt_perm (l : List Nat) (n c : Nat) :
    (ItemStore.insertAt l n c).Perm (c :: l) := by
  unfold ItemStore.insertAt
  have h : (l.take n ++ c :: l.drop n).Perm (c :: (l.take n ++ l.drop n)) :=
    List.perm_middle
  rwa [List.take_append_drop] at h

theorem sublist_insertAt (l : List Nat) (n c : Nat) :
    List.Sublist l (ItemStore.insertAt l n c) := by
  unfold ItemStore.insertAt
  have h : List.Sublist (l.take n ++ l.drop n) (l.take n ++ c :: l.drop n) :=
    List.Sublist.append (List.Sublist.refl _) (List.sublist_cons_self _ _)
  rwa [List.take_append_drop] at h

/-- Linking a detached node into one child list keeps the tree well formed. -/
theorem wellFormed_link (s : ItemStore) (this c : Nat) (L : List Nat)
    (hL : L.Perm (c :: s.childItems this)) (hwf : WellFormed s) (hdet : Detached s c) :
    WellFormed
      { s with parentItem := Function.update s.parentItem c (some this)
               childItems := Function.update s.childItems this L } := by
  obtain ⟨hnd, hpar, huniq⟩ := hwf
  have hmemL : ∀ x, x ∈ L ↔ x = c ∨ x ∈ s.childItems this := fun x => by
    rw [hL.mem_iff, List.mem_cons]
  refine ⟨?_, ?_, ?_⟩
  · intro p hp
    by_cases hpt : p = this
    · subst hpt
      simp only [Function.update_same]
      rw [hL.nodup_iff, List.nodup_cons]
      exact ⟨hdet p hp, hnd p hp⟩
    · simp only [Function.update_noteq hpt]
      exact hnd p hp
  · intro p x hp hx hmem
    by_cases hpt : p = this
    · subst hpt
      simp only [Function.update_same] at hmem
      rcases (hmemL x).1 hmem with hxc | hxold
      · subst hxc
        simp
      · have hxc : x ≠ c := fun h => hdet p hp (h ▸ hxold)
        simp only [Function.update_noteq hxc]
        exact hpar p x hp hx hxold
    · simp only [Function.update_noteq hpt] at hmem
      have hxc : x ≠ c := fun h => hdet p hp (h ▸ hmem)
      simp only [Function.update_noteq hxc]
      exact hpar p x hp hx hmem
  · intro p q x hp hq hmp hmq
    by_cases hpt : p = this <;> by_cases hqt : q = this
    · rw [hpt, hqt]
    · subst hpt
      simp only [Function.update_same] at hmp
      simp only [Function.update_noteq hqt] at hmq
      rcases (hmemL x).1 hmp with hxc | hxold
      · exact absurd (hxc ▸ hmq) (hdet q hq)
      · exact huniq p q x hp hq hxold hmq
    · subst hqt
      simp only [Function.update_same] at hmq
      simp only [Function.update_noteq hpt] at hmp
      rcases (hmemL x).1 hmq with hxc | hxold
      · exact absurd (hxc ▸ hmp) (hdet p hp)
      · exact huniq p q x hp hq hmp hxold
    · simp only [Function.update_noteq hpt] at hmp
      simp only [Function.update_noteq hqt] at hmq
      exact huniq p q x hp hq hmp hmq

/-- Linking a node that is alive keeps the unused addresses unused. -/
theorem fresh_link (s : ItemStore) (this c : Nat) (L : List Nat)
    (hL : L.Perm (c :: s.childItems this)) (hfresh : Fresh s) (hc : s.live c = true) :
    Fresh
      { s with parentItem := Function.update s.parentItem c (some this)
               childItems := Function.update s.childItems this L } := by
  intro a ha
  obtain ⟨hdead, hnot⟩ := hfresh a ha
  refine ⟨hdead, ?_⟩
  intro p hp
  by_cases hpt : p = this
  · subst hpt
    simp only [Function.update_same]
    rw [hL.mem_iff, List.mem_cons]
    rintro (hac | hold)
    · rw [hac, hc] at hdead
      exact Bool.noConfusion hdead
    · exact hnot p hp hold
  · simp only [Function.update_noteq hpt]
    exact hnot p hp

theorem appendChild_eq (this child : Nat) (s : ItemStore) :
    ItemStore.appendChild this child s
      = { s with parentItem := Function.update s.parentItem child (some this)
                 childItems := Function.update s.childItems this
                   (s.childItems this ++ [child]) } := rfl

theorem appendChild_inv (this child : Nat) (s : ItemStore) (hwf : WellFormed s)
    (hfresh : Fresh s) (hlive : s.live child = true) (hdet : Detached s child) :
    WellFormed (ItemStore.appendChild this child s) ∧
      Fresh (ItemStore.appendChild this child s) := by
  rw [appendChild_eq]
  exact ⟨wellFormed_link s this child _ (List.perm_append_singleton _ _) hwf hdet,
    fresh_link s this child _ (List.perm_append_singleton _ _) hfresh hlive⟩

theorem insertChild_inv (this : Nat) (position : Int) (child : Option Nat) (s : ItemStore)
    (hwf : WellFormed s) (hfresh : Fresh s)
    (hadm : OpAdmissible (StructuralOp.insertChild this position child) s) :
    WellFormed (ItemStore.insertChild this position child s).2 ∧
      Fresh (ItemStore.insertChild this position child s).2 := by
  unfold ItemStore.insertChild
  by_cases hpos : (position < 0 || position > ((s.childItems this).length : Int)) = true
  · simp only [hpos, if_true]
    exact ⟨hwf, hfresh⟩
  · simp only [hpos]
    cases child with
    | none => exact ⟨hwf, hfresh⟩
    | some c =>
      have hrange : 0 ≤ position ∧ position ≤ ((s.childItems this).length : Int) := by
        simp only [Bool.or_eq_true, decide_eq_true_eq, not_or, not_lt] at hpos
        exact hpos
      obtain ⟨hlive, hdet⟩ := hadm hrange
      exact ⟨wellFormed_link s this c _ (insertAt_perm _ _ _) hwf hdet,
        fresh_link s this c _ (insertAt_perm _ _ _) hfresh hlive⟩

theorem construct_inv (kind : ItemKind) (parentIn : Option Nat) (s : ItemStore)
    (hwf : WellFormed s) (hfresh : Fresh s) :
    WellFormed (ItemStore.construct kind parentIn s).1 ∧
      Fresh (ItemStore.construct kind parentIn s).1 := by
  obtain ⟨hnd, hpar, huniq⟩ := hwf
  have hnextDead : s.live s.next = false := (hfresh s.next (le_refl _)).1
  have hnextOut : ∀ p, s.live p = true → s.next ∉ s.childItems p :=
    (hfresh s.next (le_refl _)).2
  -- the store after the members of the new object are set
  have hliveOld : ∀ x, Function.update s.live s.next true x = true → x ≠ s.next →
      s.live x = true := fun x hx hne => by
    rwa [Function.update_noteq hne] at hx
  have hwf1 : WellFormed
      { live := Function.update s.live s.next true
        kind := Function.update s.kind s.next kind
        parentItem := Function.update s.parentItem s.next parentIn
        childItems := Function.update s.childItems s.next []
        next := s.next + 1 } := by
    refine ⟨?_, ?_, ?_⟩
    · intro p hp
      by_cases hpn : p = s.next
      · subst hpn
        simp
      · simp only [Function.update_noteq hpn]
        exact hnd p (hliveOld p hp hpn)
    · intro p c hp hc hmem
      by_cases hpn : p = s.next
      · subst hpn
        simp at hmem
      · simp only [Function.update_noteq hpn] at hmem
        have hpl := hliveOld p hp hpn
        have hcn : c ≠ s.next := fun h => hnextOut p hpl (h ▸ hmem)
        simp only [Function.update_noteq hcn]
        exact hpar p c hpl (hliveOld c hc hcn) hmem
    · intro p q c hp hq hmp hmq
      by_cases hpn : p = s.next
      · subst hpn
        simp at hmp
      · by_cases hqn : q = s.next
        · subst hqn
          simp at hmq
        · simp only [Function.update_noteq hpn] at hmp
          simp only [Function.update_noteq hqn] at hmq
          exact huniq p q c (hliveOld p hp hpn) (hliveOld q hq hqn) hmp hmq
  have hfresh1 : Fresh
      { live := Function.update s.live s.next true
        kind := Function.update s.kind s.next kind
        parentItem := Function.update s.parentItem s.next parentIn
        childItems := Function.update s.childItems s.next []
        next := s.next + 1 } := by
    intro a ha
    have ha' : s.next + 1 ≤ a := ha
    have hane : a ≠ s.next := by omega
    obtain ⟨hdead, hnot⟩ := hfresh a (by omega)
    refine ⟨by simpa only [Function.update_noteq hane] using hdead, ?_⟩
    intro p hp
    by_cases hpn : p = s.next
    · subst hpn
      simp
    · simp only [Function.update_noteq hpn]
      exact hnot p (hliveOld p hp hpn)
  have hdet1 : Detached
      { live := Function.update s.live s.next true
        kind := Function.update s.kind s.next kind
        parentItem := Function.update s.parentItem s.next parentIn
        childItems := Function.update s.childItems s.next []
        next := s.next + 1 } s.next := by
    intro p hp
    by_cases hpn : p = s.next
    · subst hpn
      simp
    · simp only [Function.update_noteq hpn]
      exact hnextOut p (hliveOld p hp hpn)
  unfold ItemStore.construct
  cases parentIn with
  | none => exact ⟨hwf1, hfresh1⟩
  | some parent => exact appendChild_inv parent s.next _ hwf1 hfresh1 (by simp) hdet1

theorem shrinks_refl (s : ItemStore) : Shrinks s s :=
  ⟨fun _ h => h, fun _ => List.Sublist.refl _, rfl, rfl⟩

theorem shrinks_trans {s t u : ItemStore} (h1 : Shrinks s t) (h2 : Shrinks t u) :
    Shrinks s u :=
  ⟨fun p h => h1.1 p (h2.1 p h), fun p => (h2.2.1 p).trans (h1.2.1 p),
    h2.2.2.1.trans h1.2.2.1, h2.2.2.2.trans h1.2.2.2⟩

theorem shrinks_inv {s t : ItemStore} (h : Shrinks s t) (hwf : WellFormed s)
    (hfresh : Fresh s) : WellFormed t ∧ Fresh t := by
  obtain ⟨hlive, hsub, hparent, hnext⟩ := h
  obtain ⟨hnd, hpar, huniq⟩ := hwf
  refine ⟨⟨?_, ?_, ?_⟩, ?_⟩
  · intro p hp
    exact (hnd p (hlive p hp)).sublist (hsub p)
  · intro p c hp hc hmem
    rw [hparent]
    exact hpar p c (hlive p hp) (hlive c hc) ((hsub p).subset hmem)
  · intro p q c hp hq hmp hmq
    exact huniq p q c (hlive p hp) (hlive q hq) ((hsub p).subset hmp) ((hsub q).subset hmq)
  · intro a ha
    rw [hnext] at ha
    obtain ⟨hdead, hnot⟩ := hfresh a ha
    refine ⟨?_, ?_⟩
    · cases hta : t.live a with
      | false => rfl
      | true => rw [hlive a hta] at hdead; exact Bool.noConfusion hdead
    · intro p hp hmem
      exact hnot p (hlive p hp) ((hsub p).subset hmem)

theorem foldl_shrinks (f : ItemStore → Nat → ItemStore)
    (hf : ∀ st c, Shrinks st (f st c)) (l : List Nat) (s : ItemStore) :
    Shrinks s (l.foldl f s) := by
  induction l generalizing s with
  | nil => exact shrinks_refl s
  | cons c rest ih => exact shrinks_trans (hf s c) (ih (f s c))

theorem destroy_shrinks (fuel item : Nat) (s : ItemStore) :
    Shrinks s (ItemStore.destroy fuel item s) := by
  induction fuel generalizing item s with
  | zero => exact shrinks_refl s
  | succ fuel ih =>
    unfold ItemStore.destroy
    by_cases hl : s.live item = true
    · simp only [hl, if_true]
      have hfold := foldl_shrinks (fun st c => ItemStore.destroy fuel c st)
        (fun st c => ih c st) (s.childItems item) s
      refine shrinks_trans hfold ⟨?_, fun _ => List.Sublist.refl _, rfl, rfl⟩
      intro p hp
      by_cases hpi : p = item
      · subst hpi
        simp at hp
      · simpa only [Function.update_noteq hpi] using hp
    · simp only [hl]
      exact shrinks_refl s

theorem removeChildrenLoop_shrinks (fuel this : Nat) (position : Int) (rows : Nat)
    (s : ItemStore) :
    Shrinks s (ItemStore.removeChildrenLoop fuel this position rows s) := by
  induction rows generalizing s with
  | zero => exact shrinks_refl s
  | succ rows ih =>
    unfold ItemStore.removeChildrenLoop
    cases hget : (s.childItems this).get? position.toNat with
    | none => exact shrinks_refl s
    | some c =>
      simp only []
      have hunlink : Shrinks s
          { s with childItems := Function.update s.childItems this
                     ((s.childItems this).eraseIdx position.toNat) } := by
        refine ⟨fun _ h => h, ?_, rfl, rfl⟩
        intro p
        by_cases hpt : p = this
        · subst hpt
          simp only [Function.update_same]
          exact List.eraseIdx_sublist _ _
        · simp only [Function.update_noteq hpt]
          exact List.Sublist.refl _
      exact shrinks_trans (shrinks_trans hunlink (destroy_shrinks fuel c _)) (ih _)

theorem removeChildren_shrinks (fuel this : Nat) (position count : Int) (s : ItemStore) :
    Shrinks s (ItemStore.removeChildren fuel this position count s).2 := by
  unfold ItemStore.removeChildren
  split_ifs
  · exact shrinks_refl s
  · exact removeChildrenLoop_shrinks fuel this position _ s

theorem grows_refl (s : ItemStore) : Grows s s :=
  ⟨fun _ h => h, fun _ _ => List.Sublist.refl _⟩

theorem grows_trans {s t u : ItemStore} (h1 : Grows s t) (h2 : Grows t u) : Grows s u :=
  ⟨fun p h => h2.1 p (h1.1 p h), fun p h => (h1.2 p h).trans (h2.2 p (h1.1 p h))⟩

theorem appendChild_grows (this child : Nat) (s : ItemStore) :
    Grows s (ItemStore.appendChild this child s) := by
  rw [appendChild_eq]
  refine ⟨fun _ h => h, ?_⟩
  intro p _
  by_cases hpt : p = this
  · subst hpt
    simp only [Function.update_same]
    exact List.sublist_append_left _ _
  · simp only [Function.update_noteq hpt]
    exact List.Sublist.refl _

theorem construct_grows (kind : ItemKind) (parentIn : Option Nat) (s : ItemStore)
    (hfresh : Fresh s) : Grows s (ItemStore.construct kind parentIn s).1 := by
  have hne : ∀ p, s.live p = true → p ≠ s.next := by
    intro p hp h
    rw [h, (hfresh s.next (le_refl _)).1] at hp
    exact Bool.noConfusion hp
  have halloc : Grows s
      { live := Function.update s.live s.next true
        kind := Function.update s.kind s.next kind
        parentItem := Function.update s.parentItem s.next parentIn
        childItems := Function.update s.childItems s.next []
        next := s.next + 1 } := by
    refine ⟨?_, ?_⟩
    · intro p hp
      simp only [Function.update_noteq (hne p hp)]
      exact hp
    · intro p hp
      simp only [Function.update_noteq (hne p hp)]
      exact List.Sublist.refl _
  unfold ItemStore.construct
  cases parentIn with
  | none => exact halloc
  | some parent => exact grows_trans halloc (appendChild_grows parent s.next _)

theorem insertChild_grows (this : Nat) (position : Int) (child : Option Nat) (s : ItemStore) :
    Grows s (ItemStore.insertChild this position child s).2 := by
  unfold ItemStore.insertChild
  split_ifs
  · exact grows_refl s
  · cases child with
    | none => exact grows_refl s
    | some c =>
      refine ⟨fun _ h => h, ?_⟩
      intro p _
      by_cases hpt : p = this
      · subst hpt
        simp only [Function.update_same]
        exact sublist_insertAt _ _ _
      · simp only [Function.update_noteq hpt]
        exact List.Sublist.refl _

/-- clone and the loop of the group clone keep the tree well formed and only add
to it, whatever the bound on the recursion. -/
theorem clone_inv_aux (fuel : Nat) :
    (∀ (this : Nat) (parent : Option Nat) (s : ItemStore), WellFormed s → Fresh s →
      WellFormed (ItemStore.clone fuel this parent s).1 ∧
        Fresh (ItemStore.clone fuel this parent s).1 ∧
        Grows s (ItemStore.clone fuel this parent s).1) ∧
    (∀ (this result j : Nat) (s : ItemStore), WellFormed s → Fresh s →
      WellFormed (ItemStore.cloneLoop fuel this result j s) ∧
        Fresh (ItemStore.cloneLoop fuel this result j s) ∧
        Grows s (ItemStore.cloneLoop fuel this result j s)) := by
  induction fuel with
  | zero =>
    refine ⟨?_, ?_⟩
    · intro this parent s hwf hfresh
      simp only [ItemStore.clone]
      exact ⟨hwf, hfresh, grows_refl s⟩
    · intro this result j s hwf hfresh
      simp only [ItemStore.cloneLoop]
      exact ⟨hwf, hfresh, grows_refl s⟩
  | succ fuel ih =>
    obtain ⟨ihClone, ihLoop⟩ := ih
    refine ⟨?_, ?_⟩
    · intro this parent s hwf hfresh
      simp only [ItemStore.clone]
      generalize s.kind this = k
      have hc := construct_inv k parent s hwf hfresh
      have hg := construct_grows k parent s hfresh
      cases k with
      | leaf => exact ⟨hc.1, hc.2, hg⟩
      | group =>
        have hl := ihLoop this (ItemStore.construct ItemKind.group parent s).2 0
          (ItemStore.construct ItemKind.group parent s).1 hc.1 hc.2
        exact ⟨hl.1, hl.2.1, grows_trans hg hl.2.2⟩
    · intro this result j s hwf hfresh
      simp only [ItemStore.cloneLoop]
      cases hget : (s.childItems this).get? j with
      | none => exact ⟨hwf, hfresh, grows_refl s⟩
      | some theChild =>
        have h1 := ihClone theChild (some result) s hwf hfresh
        have h2 := ihLoop this result (j + 1) _ h1.1 h1.2.1
        exact ⟨h2.1, h2.2.1, grows_trans h1.2.2 h2.2.2⟩

theorem applyOp_inv (op : StructuralOp) (s : ItemStore) (hwf : WellFormed s)
    (hfresh : Fresh s) (hadm : OpAdmissible op s) :
    WellFormed (applyOp op s) ∧ Fresh (applyOp op s) := by
  cases op with
  | construct kind parentIn => exact construct_inv kind parentIn s hwf hfresh
  | appendChild this child => exact appendChild_inv this child s hwf hfresh hadm.1 hadm.2
  | insertChild this position child =>
    exact insertChild_inv this position child s hwf hfresh hadm
  | removeChildren fuel this position count =>
    exact shrinks_inv (removeChildren_shrinks fuel this position count s) hwf hfresh
  | clone fuel this parent =>
    have h := (clone_inv_aux fuel).1 this parent s hwf hfresh
    exact ⟨h.1, h.2.1⟩

theorem applyOp_orderKept (op : StructuralOp) (s : ItemStore) (hwf : WellFormed s)
    (hfresh : Fresh s) : OrderKept s (applyOp op s) := by
  have ofGrows : ∀ t, Grows s t → OrderKept s t := fun t h p hp _ => Or.inl (h.2 p hp)
  cases op with
  | construct kind parentIn => exact ofGrows _ (construct_grows kind parentIn s hfresh)
  | appendChild this child => exact ofGrows _ (appendChild_grows this child s)
  | insertChild this position child =>
    exact ofGrows _ (insertChild_grows this position child s)
  | removeChildren fuel this position count =>
    intro p _ _
    exact Or.inr ((removeChildren_shrinks fuel this position count s).2.1 p)
  | clone fuel this parent =>
    exact ofGrows _ ((clone_inv_aux fuel).1 this parent s hwf hfresh).2.2

theorem runOps_inv (ops : List StructuralOp) (s : ItemStore) (hwf : WellFormed s)
    (hfresh : Fresh s) (hadm : Admissible ops s) :
    WellFormed (runOps ops s) ∧ Fresh (runOps ops s) := by
  induction ops generalizing s with
  | nil => exact ⟨hwf, hfresh⟩
  | cons op rest ih =>
    have h := applyOp_inv op s hwf hfresh hadm.1
    exact ih (applyOp op s) h.1 h.2 hadm.2

/-- C20 (amended): starting from a well-formed tree, after any sequence of
structural operations (construction with or without a parent, appendChild,
insertChild, removeChildren, clone) in which every node given to appendChild or
to an accepted insertChild is alive and in no child list, the tree is well
formed: no child list holds a node twice, no node is in two child lists, and
the owner of the list a node is in is its parentItem. Any further operation
keeps the relative order of the children of every node. -/
theorem structural_ops_keep_wellFormed (ops : List StructuralOp) (s : ItemStore)
    (hwf : WellFormed s) (hfresh : Fresh s) (hadm : Admissible ops s) :
    WellFormed (runOps ops s) ∧
    ∀ op : StructuralOp, OrderKept (runOps ops s) (applyOp op (runOps ops s)) := by
  have h := runOps_inv ops s hwf hfresh hadm
  exact ⟨h.1, fun op => applyOp_orderKept op _ h.1 h.2⟩

theorem empty_wellFormed : WellFormed ItemStore.empty ∧ Fresh ItemStore.empty := by
  refine ⟨⟨?_, ?_, ?_⟩, ?_⟩
  · intro p hp
    simp [ItemStore.empty] at hp
  · intro p c hp
    simp [ItemStore.empty] at hp
  · intro p q c hp
    simp [ItemStore.empty] at hp
  · intro a _
    simp [ItemStore.empty]

/-- C20 as stated fails: after building a root group and a leaf with the root as
parent, insertChild (0, leaf) on the root is accepted (it returns true) and the
child list of the root holds the leaf twice, so the tree is not well formed. -/
theorem insertChild_of_attached_child_duplicates :
    (ItemStore.insertChild 0 0 (some 1)
        (runOps [StructuralOp.construct ItemKind.group none,
          StructuralOp.construct ItemKind.leaf (some 0)] ItemStore.empty)).1 = true ∧
    (runOps sampleDoubleInsert ItemStore.empty).live 0 = true ∧
    (runOps sampleDoubleInsert ItemStore.empty).childItems 0 = [1, 1] ∧
    ¬ WellFormed (runOps sampleDoubleInsert ItemStore.empty) := by
  have hlive : (runOps sampleDoubleInsert ItemStore.empty).live 0 = true := by decide
  have hlist : (runOps sampleDoubleInsert ItemStore.empty).childItems 0 = [1, 1] := by decide
  refine ⟨by decide, hlive, hlist, ?_⟩
  intro hwf
  have hnd := hwf.1 0 hlive
  rw [hlist] at hnd
  simp at hnd

theorem sampleOpSequence_admissible : Admissible sampleOpSequence ItemStore.empty := by
  refine ⟨trivial, trivial, trivial, ?_, trivial, trivial, trivial⟩
  intro _
  refine ⟨by decide, ?_⟩
  intro p hp
  simp only [applyOp, ItemStore.construct, ItemStore.appendChild, ItemStore.empty,
    Function.update_apply] at hp ⊢
  split_ifs at hp ⊢ <;> simp_all

theorem structural_ops_keep_wellFormed_witness :
    Admissible sampleOpSequence ItemStore.empty ∧
    WellFormed (runOps sampleOpSequence ItemStore.empty) ∧
    (runOps sampleOpSequence ItemStore.empty).childItems 0 = [1] ∧
    (runOps (sampleOpSequence.take 5) ItemStore.empty).childItems 0 = [2, 1] ∧
    (runOps (sampleOpSequence.take 5) ItemStore.empty).childItems 2 = [3] :=
  ⟨sampleOpSequence_admissible,
    (structural_ops_keep_wellFormed sampleOpSequence ItemStore.empty empty_wellFormed.1
      empty_wellFormed.2 sampleOpSequence_admissible).1,
    by decide, by decide, by decide⟩

/-! ## Summary counts against the leaf count -/

theorem leaf_summary_counts_aux (Q : QVariantOps V D) (l : QEPvLoadSaveLeaf V A T) :
    0 ≤ (getStatusSummary Q l).1.isEqualCount ∧
    0 ≤ (getStatusSummary Q l).1.isNotEqualCount ∧
    0 ≤ (getStatusSummary Q l).1.isNotAplicableCount ∧
    (getStatusSummary Q l).1.isEqualCount + (getStatusSummary Q l).1.isNotEqualCount +
      (getStatusSummary Q l).1.isNotAplicableCount = 1 := by
  simp only [getStatusSummary, determineDeltaAndLeafStatus]
  split_ifs <;> simp [wrapInt]

mutual
theorem summary_counts_aux (Q : QVariantOps V D) : ∀ (item : QEPvLoadSaveItem V A T),
    (QEPvLoadSaveItem.numLeaves item : Int) ≤ INT_MAX →
      0 ≤ (QEPvLoadSaveItem.getStatusSummary Q item).1.isEqualCount ∧
      0 ≤ (QEPvLoadSaveItem.getStatusSummary Q item).1.isNotEqualCount ∧
      0 ≤ (QEPvLoadSaveItem.getStatusSummary Q item).1.isNotAplicableCount ∧
      (QEPvLoadSaveItem.getStatusSummary Q item).1.isEqualCount +
          (QEPvLoadSaveItem.getStatusSummary Q item).1.isNotEqualCount +
          (QEPvLoadSaveItem.getStatusSummary Q item).1.isNotAplicableCount
        = QEPvLoadSaveItem.numLeaves item
  | QEPvLoadSaveItem.group _ _ childItems, h => by
    simp only [QEPvLoadSaveItem.getStatusSummary, QEPvLoadSaveItem.numLeaves] at h ⊢
    have hl := summary_counts_loop_aux Q childItems clear (by simp [clear]) (by simp [clear])
      (by simp [clear]) (by simpa [clear] using h)
    simpa [clear] using hl
  | QEPvLoadSaveItem.leaf l, _ => by
    simp only [QEPvLoadSaveItem.getStatusSummary, QEPvLoadSaveItem.numLeaves, Nat.cast_one]
    exact leaf_summary_counts_aux Q l
theorem summary_counts_loop_aux (Q : QVariantOps V D) :
    ∀ (childItems : List (QEPvLoadSaveItem V A T)) (result : StatusSummary),
    0 ≤ result.isEqualCount → 0 ≤ result.isNotEqualCount → 0 ≤ result.isNotAplicableCount →
    result.isEqualCount + result.isNotEqualCount + result.isNotAplicableCount +
        (QEPvLoadSaveItem.numLeavesList childItems : Int) ≤ INT_MAX →
      0 ≤ (QEPvLoadSaveItem.getStatusSummaryLoop Q childItems result).1.isEqualCount ∧
      0 ≤ (QEPvLoadSaveItem.getStatusSummaryLoop Q childItems result).1.isNotEqualCount ∧
      0 ≤ (QEPvLoadSaveItem.getStatusSummaryLoop Q childItems result).1.isNotAplicableCount ∧
      (QEPvLoadSaveItem.getStatusSummaryLoop Q childItems result).1.isEqualCount +
          (QEPvLoadSaveItem.getStatusSummaryLoop Q childItems result).1.isNotEqualCount +
          (QEPvLoadSaveItem.getStatusSummaryLoop Q childItems result).1.isNotAplicableCount
        = result.isEqualCount + result.isNotEqualCount + result.isNotAplicableCount +
            QEPvLoadSaveItem.numLeavesList childItems
  | [], result, h1, h2, h3, _ => by
    simp [QEPvLoadSaveItem.getStatusSummaryLoop, QEPvLoadSaveItem.numLeavesList, h1, h2, h3]
  | item :: rest, result, h1, h2, h3, h => by
    simp only [QEPvLoadSaveItem.numLeavesList, Nat.cast_add] at h
    have hn : (0 : Int) ≤ QEPvLoadSaveItem.numLeaves item := Int.natCast_nonneg _
    have hr : (0 : Int) ≤ QEPvLoadSaveItem.numLeavesList rest := Int.natCast_nonneg _
    obtain ⟨c1, c2, c3, csum⟩ := summary_counts_aux Q item (by omega)
    have hINT : INT_MAX = 2147483647 := rfl
    have w1 : wrapInt (result.isEqualCount +
          (QEPvLoadSaveItem.getStatusSummary Q item).1.isEqualCount)
        = result.isEqualCount + (QEPvLoadSaveItem.getStatusSummary Q item).1.isEqualCount :=
      wrapInt_of_inRange _ (by omega) (by omega)
    have w2 : wrapInt (result.isNotEqualCount +
          (QEPvLoadSaveItem.getStatusSummary Q item).1.isNotEqualCount)
        = result.isNotEqualCount
            + (QEPvLoadSaveItem.getStatusSummary Q item).1.isNotEqualCount :=
      wrapInt_of_inRange _ (by omega) (by omega)
    have w3 : wrapInt (result.isNotAplicableCount +
          (QEPvLoadSaveItem.getStatusSummary Q item).1.isNotAplicableCount)
        = result.isNotAplicableCount
            + (QEPvLoadSaveItem.getStatusSummary Q item).1.isNotAplicableCount :=
      wrapInt_of_inRange _ (by omega) (by omega)
    have hm : merge result (QEPvLoadSaveItem.getStatusSummary Q item).1
        = { isEqualCount := result.isEqualCount
              + (QEPvLoadSaveItem.getStatusSummary Q item).1.isEqualCount
            isNotEqualCount := result.isNotEqualCount
              + (QEPvLoadSaveItem.getStatusSummary Q item).1.isNotEqualCount
            isNotAplicableCount := result.isNotAplicableCount
              + (QEPvLoadSaveItem.getStatusSummary Q item).1.isNotAplicableCount } := by
      simp only [merge, w1, w2, w3]
    have hl := summary_counts_loop_aux Q rest
      { isEqualCount := result.isEqualCount
          + (QEPvLoadSaveItem.getStatusSummary Q item).1.isEqualCount
        isNotEqualCount := result.isNotEqualCount
          + (QEPvLoadSaveItem.getStatusSummary Q item).1.isNotEqualCount
        isNotAplicableCount := result.isNotAplicableCount
          + (QEPvLoadSaveItem.getStatusSummary Q item).1.isNotAplicableCount }
      (by simp only []; omega) (by simp only []; omega)
      (by simp only []; omega) (by simp only []; omega)
    simp only [QEPvLoadSaveItem.getStatusSummaryLoop, QEPvLoadSaveItem.numLeavesList,
      Nat.cast_add, hm]
    refine ⟨hl.1, hl.2.1, hl.2.2.1, ?_⟩
    rw [hl.2.2.2]
    simp only []
    omega
end

/-- C21: for every tree of Group and Leaf nodes whose number of leaves is within
the range of int, the three counts of the getStatusSummary of the root add up to
the leafCount of the root. -/
theorem summary_counts_add_up_to_leafCount (Q : QVariantOps V D)
    (item : QEPvLoadSaveItem V A T)
    (hrange : (QEPvLoadSaveItem.numLeaves item : Int) ≤ INT_MAX) :
    (QEPvLoadSaveItem.getStatusSummary Q item).1.isEqualCount +
        (QEPvLoadSaveItem.getStatusSummary Q item).1.isNotEqualCount +
        (QEPvLoadSaveItem.getStatusSummary Q item).1.isNotAplicableCount
      = QEPvLoadSaveItem.leafCount item := by
  rw [(summary_counts_aux Q item hrange).2.2.2, leafCount_eq_aux item hrange]

theorem summary_counts_add_up_to_leafCount_witness :
    (QEPvLoadSaveItem.getStatusSummary sampleOps sampleTree).1.isEqualCount +
        (QEPvLoadSaveItem.getStatusSummary sampleOps sampleTree).1.isNotEqualCount +
        (QEPvLoadSaveItem.getStatusSummary sampleOps sampleTree).1.isNotAplicableCount
      = 3 := by
  have h3 : QEPvLoadSaveItem.numLeaves sampleTree = 3 := by
    simp [sampleTree, sampleChildren, QEPvLoadSaveItem.numLeaves,
      QEPvLoadSaveItem.numLeavesList]
  have hc : QEPvLoadSaveItem.leafCount sampleTree = 3 := by
    rw [leafCount_eq_aux sampleTree (by rw [h3]; decide), h3]
    rfl
  rw [summary_counts_add_up_to_leafCount sampleOps sampleTree (by rw [h3]; decide), hc]

/-! ## A scalar against a list or vector -/

/-- C22: code evaluated at the failing input. A scalar against a list that is not
empty is reported different (not-equal), but the scalar 5.0 against an empty
vector, and the text "on" against an empty list, are reported identical
(isEqualCount = 1). -/
theorem scalar_against_empty_vector_identical :
    ((getStatusSummary sampleOps
          (sampleLeafOf 1 (SampleVariant.double 5) (SampleVariant.list [5]))).1
        = { isEqualCount := 0, isNotEqualCount := 1, isNotAplicableCount := 0 } ∧
      (getData sampleOps sampleTextOps (some ColumnKinds.Delta)
          (sampleLeafOf 1 (SampleVariant.double 5) (SampleVariant.list [5]))).1
        = SampleVariant.text "different") ∧
    ((getStatusSummary sampleOps
          (sampleLeafOf 1 (SampleVariant.double 5) (SampleVariant.vector []))).1
        = { isEqualCount := 1, isNotEqualCount := 0, isNotAplicableCount := 0 } ∧
      (getData sampleOps sampleTextOps (some ColumnKinds.Delta)
          (sampleLeafOf 1 (SampleVariant.double 5) (SampleVariant.vector []))).1
        = SampleVariant.text "identical") ∧
    ((getStatusSummary sampleOps
          (sampleLeafOf 1 (SampleVariant.list []) (SampleVariant.text "on"))).1
        = { isEqualCount := 1, isNotEqualCount := 0, isNotAplicableCount := 0 } ∧
      (getData sampleOps sampleTextOps (some ColumnKinds.Delta)
          (sampleLeafOf 1 (SampleVariant.list []) (SampleVariant.text "on"))).1
        = SampleVariant.text "identical") := by
  refine ⟨⟨?_, ?_⟩, ⟨?_, ?_⟩, ⟨?_, ?_⟩⟩ <;>
    simp [getStatusSummary, getData, determineDeltaAndLeafStatus, sampleLeafOf, sampleLeaf,
      sampleOps, listEqual, wrapInt, UnknownType, QVariantListType]

/-! ## Abort -/

/-- C23: in the sequence readArchiveData (t); abortAction (); setArchiveData with
okay true and a point list that is not empty, abortAction reports the read as
incomplete and marks the action complete, and the late response still replaces
value by the value of the first point and emits the action-complete report
(this leaf, ReadArchive, true). -/
theorem late_archive_response_after_abort (Q : QVariantOps V D) (l : QEPvLoadSaveLeaf V A T)
    (atTime : T) (c : Int) (p : QCaDataPoint D A T) (ps : List (QCaDataPoint D A T)) :
    (abortAction (readArchiveData atTime l c).1).2
      = [Event.reportActionInComplete l.self ActionKinds.ReadArchive] ∧
    (abortAction (readArchiveData atTime l c).1).1.actionIsComplete = true ∧
    (setArchiveData Q true (p :: ps)
        (abortAction (readArchiveData atTime l c).1).1).1.value = Q.ofDouble p.value ∧
    (setArchiveData Q true (p :: ps)
        (abortAction (readArchiveData atTime l c).1).1).1.alarmInfo = p.alarm ∧
    (setArchiveData Q true (p :: ps)
        (abortAction (readArchiveData atTime l c).1).1).2
      = [Event.reportActionComplete l.self ActionKinds.ReadArchive true] := by
  simp [abortAction, readArchiveData, setArchiveData, emitReportActionComplete]

mutual
theorem leaves_mapLeaves_aux (f : QEPvLoadSaveLeaf V A T → QEPvLoadSaveLeaf V A T) :
    ∀ (item : QEPvLoadSaveItem V A T),
      QEPvLoadSaveItem.leaves (QEPvLoadSaveItem.mapLeaves f item)
        = (QEPvLoadSaveItem.leaves item).map f
  | QEPvLoadSaveItem.group _ _ childItems => by
    simp only [QEPvLoadSaveItem.mapLeaves, QEPvLoadSaveItem.leaves]
    exact leavesList_mapLeaves_aux f childItems
  | QEPvLoadSaveItem.leaf _ => by
    simp [QEPvLoadSaveItem.mapLeaves, QEPvLoadSaveItem.leaves]
theorem leavesList_mapLeaves_aux (f : QEPvLoadSaveLeaf V A T → QEPvLoadSaveLeaf V A T) :
    ∀ (childItems : List (QEPvLoadSaveItem V A T)),
      QEPvLoadSaveItem.leavesList (QEPvLoadSaveItem.mapLeavesList f childItems)
        = (QEPvLoadSaveItem.leavesList childItems).map f
  | [] => by simp [QEPvLoadSaveItem.mapLeavesList, QEPvLoadSaveItem.leavesList]
  | item :: rest => by
    simp [QEPvLoadSaveItem.mapLeavesList, QEPvLoadSaveItem.leavesList,
      leaves_mapLeaves_aux f item, leavesList_mapLeaves_aux f rest]
end

mutual
theorem abortAction_tree_aux : ∀ (item : QEPvLoadSaveItem V A T),
    (QEPvLoadSaveItem.abortAction item).1
        = QEPvLoadSaveItem.mapLeaves (fun l => { l with actionIsComplete := true }) item ∧
      (QEPvLoadSaveItem.abortAction item).2
        = ((QEPvLoadSaveItem.leaves item).filter fun l => !l.actionIsComplete).map
            fun l => (Event.reportActionInComplete l.self l.action : Event V T)
  | QEPvLoadSaveItem.group _ _ childItems => by
    have h := abortActionLoop_aux childItems
    simp only [QEPvLoadSaveItem.abortAction, QEPvLoadSaveItem.mapLeaves,
      QEPvLoadSaveItem.leaves, h.1, h.2, and_self]
  | QEPvLoadSaveItem.leaf l => by
    cases hc : l.actionIsComplete <;>
      simp [QEPvLoadSaveItem.abortAction, QEPvLoadSaveItem.mapLeaves,
        QEPvLoadSaveItem.leaves, QEPvLoadSaveLeaf.abortAction, hc]
theorem abortActionLoop_aux : ∀ (childItems : List (QEPvLoadSaveItem V A T)),
    (QEPvLoadSaveItem.abortActionLoop childItems).1
        = QEPvLoadSaveItem.mapLeavesList (fun l => { l with actionIsComplete := true })
            childItems ∧
      (QEPvLoadSaveItem.abortActionLoop childItems).2
        = ((QEPvLoadSaveItem.leavesList childItems).filter fun l => !l.actionIsComplete).map
            fun l => (Event.reportActionInComplete l.self l.action : Event V T)
  | [] => by
    simp [QEPvLoadSaveItem.abortActionLoop, QEPvLoadSaveItem.mapLeavesList,
      QEPvLoadSaveItem.leavesList]
  | item :: rest => by
    have h1 := abortAction_tree_aux item
    have h2 := abortActionLoop_aux rest
    simp [QEPvLoadSaveItem.abortActionLoop, QEPvLoadSaveItem.mapLeavesList,
      QEPvLoadSaveItem.leavesList, h1.1, h1.2, h2.1, h2.2]
end

/-- C24: abortAction on the root gives the same tree with actionIsComplete set to
true in every leaf and nothing else changed (values, live values, names and
children are kept), so every leaf has actionIsComplete = true afterwards; the
signals emitted are one action-incomplete notification for each leaf whose
actionIsComplete was false beforehand, in depth-first child order, and no
other. -/
theorem abortAction_tree (item : QEPvLoadSaveItem V A T) :
    (QEPvLoadSaveItem.abortAction item).1
      = QEPvLoadSaveItem.mapLeaves (fun l => { l with actionIsComplete := true }) item ∧
    (∀ l ∈ QEPvLoadSaveItem.leaves (QEPvLoadSaveItem.abortAction item).1,
      l.actionIsComplete = true) ∧
    (QEPvLoadSaveItem.abortAction item).2
      = ((QEPvLoadSaveItem.leaves item).filter fun l => !l.actionIsComplete).map
          (fun l => (Event.reportActionInComplete l.self l.action : Event V T)) ∧
    (QEPvLoadSaveItem.abortAction item).2.length
      = ((QEPvLoadSaveItem.leaves item).filter fun l => !l.actionIsComplete).length := by
  have h := abortAction_tree_aux item
  refine ⟨h.1, ?_, h.2, ?_⟩
  · rw [h.1, leaves_mapLeaves_aux]
    intro l hl
    rw [List.mem_map] at hl
    obtain ⟨l0, _, rfl⟩ := hl
    rfl
  · rw [h.2, List.length_map]

/-! ## Branches of the delta computation -/

/-- C25: the final branch of determineDeltaAndLeafStatus is unreachable. Whatever
code stands in the final else, the function is the same; the branch taken is
never the final one; and for defined value and liveValue the first (both
scalar) branch is taken when both are scalar and the second one when at least
one is not scalar. -/
theorem mixture_branch_unreachable (Q : QVariantOps V D) (l : QEPvLoadSaveLeaf V A T) :
    (∀ mixture : QEPvLoadSaveLeaf V A T → QEPvLoadSaveLeaf V A T,
      determineDeltaWithMixture Q mixture l = determineDeltaAndLeafStatus Q l) ∧
    deltaBranch Q l ≠ DeltaBranch.mixture ∧
    (Q.metaType l.value ≠ UnknownType → Q.metaType l.liveValue ≠ UnknownType →
      ((isMultiValue Q l.value = false ∧ isMultiValue Q l.liveValue = false →
          deltaBranch Q l = DeltaBranch.bothScalar) ∧
        (isMultiValue Q l.value = true ∨ isMultiValue Q l.liveValue = true →
          deltaBranch Q l = DeltaBranch.multiValue))) := by
  refine ⟨?_, ?_, ?_⟩
  · intro mixture
    simp only [determineDeltaWithMixture, determineDeltaAndLeafStatus]
    split_ifs <;> first | rfl | simp_all
  · simp only [deltaBranch]
    split_ifs <;> simp_all
  · intro hself hlive
    have hself2 : (Q.metaType l.value == UnknownType) = false := by simpa using hself
    have hlive2 : (Q.metaType l.liveValue == UnknownType) = false := by simpa using hlive
    simp only [deltaBranch, isMultiValue, hself2, hlive2]
    constructor
    · rintro ⟨h1, h2⟩
      simp [h1, h2]
    · rintro (h1 | h1) <;> simp [h1]

theorem abortAction_tree_witness :
    (QEPvLoadSaveItem.abortAction sampleAbortTree).2
      = [Event.reportActionInComplete 2 ActionKinds.Apply,
          Event.reportActionInComplete 3 ActionKinds.ReadArchive] := by
  rw [(abortAction_tree sampleAbortTree).2.2.1]
  simp [sampleAbortTree, sampleLeaf, QEPvLoadSaveItem.leaves, QEPvLoadSaveItem.leavesList]

/-! ## insertChild, getChild and getNodePath -/

theorem insertAt_length (l : List Nat) (n c : Nat) :
    (ItemStore.insertAt l n c).length = l.length + 1 := by
  have h := (insertAt_perm l n c).length_eq
  simpa using h

theorem insertAt_get? (l : List Nat) (n c : Nat) (hn : n ≤ l.length) :
    (ItemStore.insertAt l n c).get? n = some c := by
  unfold ItemStore.insertAt
  have hlen : (l.take n).length = n := by simp [hn]
  rw [List.get?_eq_getElem?, List.getElem?_append_right (by omega), hlen]
  simp

theorem insertAt_eraseIdx (l : List Nat) (n c : Nat) (hn : n ≤ l.length) :
    (ItemStore.insertAt l n c).eraseIdx n = l := by
  unfold ItemStore.insertAt
  have hlen : (l.take n).length = n := by simp [hn]
  rw [List.eraseIdx_append_of_length_le (by omega), hlen]
  simp

/-- C26: for a node with n children, insertChild (position, child) returns false
and changes nothing when position < 0, position > n or child is null; otherwise
it returns true, the child list has n + 1 entries, getChild (position) is the
child, the list without that entry is the former child list (the former
children keep their relative order), and the parentItem of the child is this
node. -/
theorem insertChild_rejects_or_inserts (this : Nat) (position : Int) (child : Option Nat)
    (s : ItemStore) :
    (position < 0 ∨ position > ((s.childItems this).length : Int) ∨ child = none →
      ItemStore.insertChild this position child s = (false, s)) ∧
    (∀ c : Nat, 0 ≤ position → position ≤ ((s.childItems this).length : Int) →
      child = some c →
        (ItemStore.insertChild this position child s).1 = true ∧
        ((ItemStore.insertChild this position child s).2.childItems this).length
          = (s.childItems this).length + 1 ∧
        ItemStore.getChild this position (ItemStore.insertChild this position child s).2
          = some c ∧
        ((ItemStore.insertChild this position child s).2.childItems this).eraseIdx
            position.toNat = s.childItems this ∧
        (ItemStore.insertChild this position child s).2.parentItem c = some this) := by
  constructor
  · intro h
    unfold ItemStore.insertChild
    by_cases hpos : (position < 0 || position > ((s.childItems this).length : Int)) = true
    · simp only [hpos, if_true]
    · simp only [hpos]
      have hrange : 0 ≤ position ∧ position ≤ ((s.childItems this).length : Int) := by
        simpa only [Bool.or_eq_true, decide_eq_true_eq, not_or, not_lt] using hpos
      rcases h with h | h | h
      · omega
      · omega
      · subst h
        rfl
  · intro c h0 hn hc
    subst hc
    have hpos : (position < 0 || position > ((s.childItems this).length : Int)) = false := by
      simp only [Bool.or_eq_false_iff, decide_eq_false_iff_not, not_lt]
      exact ⟨h0, hn⟩
    have hnat : position.toNat ≤ (s.childItems this).length := by omega
    have hneg : ¬ position < 0 := by omega
    have heq : ItemStore.insertChild this position (some c) s
        = (true,
            { s with parentItem := Function.update s.parentItem c (some this)
                     childItems := Function.update s.childItems this
                       (ItemStore.insertAt (s.childItems this) position.toNat c) }) := by
      unfold ItemStore.insertChild
      simp only [hpos, Bool.false_eq_true, if_false]
    rw [heq]
    refine ⟨rfl, ?_, ?_, ?_, ?_⟩
    · simp only [Function.update_same, insertAt_length]
    · simp only [ItemStore.getChild, hneg, if_false, Function.update_same,
        insertAt_get? _ _ _ hnat]
    · simp only [Function.update_same, insertAt_eraseIdx _ _ _ hnat]
    · simp only [Function.update_same]

theorem insertChild_rejects_or_inserts_witness :
    ItemStore.insertChild 0 3 (some 2) (runOps (sampleOpSequence.take 3) ItemStore.empty)
      = (false, runOps (sampleOpSequence.take 3) ItemStore.empty) ∧
    (ItemStore.insertChild 0 1 (some 2)
        (runOps (sampleOpSequence.take 3) ItemStore.empty)).2.childItems 0 = [1, 2] ∧
    (ItemStore.insertChild 0 1 (some 2)
        (runOps (sampleOpSequence.take 3) ItemStore.empty)).2.parentItem 2 = some 0 := by
  have hreject := (insertChild_rejects_or_inserts 0 3 (some 2)
    (runOps (sampleOpSequence.take 3) ItemStore.empty)).1 (Or.inr (Or.inl (by decide)))
  have hinsert := (insertChild_rejects_or_inserts 0 1 (some 2)
    (runOps (sampleOpSequence.take 3) ItemStore.empty)).2 2 (by decide) (by decide) rfl
  exact ⟨hreject, by decide, hinsert.2.2.2.2⟩

theorem getNodePath_aux (nodeName : Nat → String) (s : ItemStore) (node : Nat)
    (chain : List Nat) (hchain : AncestorsOf s node chain) :
    ∀ fuel : Nat, chain.length < fuel →
      ItemStore.getNodePath nodeName s fuel node = some (chain.tail.map nodeName) := by
  induction hchain with
  | root node hroot =>
    intro fuel hfuel
    cases fuel with
    | zero => simp at hfuel
    | succ fuel => simp [ItemStore.getNodePath, hroot]
  | child node parent chain hparent hrest ih =>
    intro fuel hfuel
    cases fuel with
    | zero => simp at hfuel
    | succ fuel =>
      have hlen : chain.length < fuel := by
        simp only [List.length_append, List.length_singleton] at hfuel
        omega
      cases hrest with
      | root _ hroot =>
        simp [ItemStore.getNodePath, hparent, hroot]
      | child _ grand chain2 hgrand hrest2 =>
        have hrec := ih fuel hlen
        simp only [ItemStore.getNodePath, hparent, hgrand, hrec, Option.map_some']
        have hne : chain2 ++ [grand] ≠ [] := by simp
        rw [List.tail_append_of_ne_nil hne]
        simp

/-- C27: for a node at depth d, that is with ancestors a0 (the core root), a1,
..., a(d-1) (its parent), getNodePath terminates: with every bound above d on
the nested calls it returns the node names of a1, ..., a(d-1) in top-down order.
The core root and the node itself are left out, the path is empty for the root
and for its direct children, and it has d - 1 entries for d >= 1. -/
theorem getNodePath_names_of_ancestors (nodeName : Nat → String) (s : ItemStore) (node : Nat)
    (chain : List Nat) (hchain : AncestorsOf s node chain) (fuel : Nat)
    (hfuel : chain.length < fuel) :
    ItemStore.getNodePath nodeName s fuel node = some (chain.tail.map nodeName) ∧
    (chain.tail.map nodeName).length = chain.length - 1 ∧
    (chain.length ≤ 1 → ItemStore.getNodePath nodeName s fuel node = some []) := by
  have h := getNodePath_aux nodeName s node chain hchain fuel hfuel
  refine ⟨h, by simp, ?_⟩
  intro hshort
  rw [h]
  match chain, hshort with
  | [], _ => rfl
  | [_], _ => rfl

theorem sampleChain_ancestors : AncestorsOf sampleChainStore 3 [0, 1, 2] := by
  have h0 : AncestorsOf sampleChainStore 0 [] := AncestorsOf.root 0 (by decide)
  have h1 : AncestorsOf sampleChainStore 1 ([] ++ [0]) :=
    AncestorsOf.child 1 0 [] (by decide) h0
  have h2 : AncestorsOf sampleChainStore 2 (([] ++ [0]) ++ [1]) :=
    AncestorsOf.child 2 1 _ (by decide) h1
  exact AncestorsOf.child 3 2 _ (by decide) h2

theorem getNodePath_names_of_ancestors_witness :
    AncestorsOf sampleChainStore 3 [0, 1, 2] ∧
    ItemStore.getNodePath sampleNodeName sampleChainStore 4 3
      = some ["user root", "magnets"] ∧
    ItemStore.getNodePath sampleNodeName sampleChainStore 4 1 = some [] :=
  ⟨sampleChain_ancestors,
    (getNodePath_names_of_ancestors sampleNodeName sampleChainStore 3 [0, 1, 2]
      sampleChain_ancestors 4 (by decide)).1,
    by decide⟩

end QEPvLoadSave

namespace QESpectrogram

open QECommon

theorem toInt_of_limited (scaled : Rat) (high : Int) (hhigh : 0 ≤ high) :
    0 ≤ toInt (LIMIT scaled ((0 : Int) : Rat) (high : Rat)) ∧
      toInt (LIMIT scaled ((0 : Int) : Rat) (high : Rat)) ≤ high := by
  have hlow : (0 : Rat) ≤ LIMIT scaled ((0 : Int) : Rat) (high : Rat) := by
    simp only [LIMIT, MAX, MIN, Int.cast_zero]
    exact le_max_left _ _
  have hup : LIMIT scaled ((0 : Int) : Rat) (high : Rat) ≤ (high : Rat) := by
    simp only [LIMIT, MAX, MIN, Int.cast_zero]
    exact max_le (by exact_mod_cast hhigh) (min_le_right _ _)
  unfold toInt
  rw [if_pos hlow]
  refine ⟨Int.floor_nonneg.2 hlow, ?_⟩
  have h := (Int.floor_le (LIMIT scaled ((0 : Int) : Rat) (high : Rat))).trans hup
  exact_mod_cast h

theorem wrap_in_range (mScaleWrap index : Int) (h1 : 1 ≤ mScaleWrap)
    (hlow : 0 ≤ index) (hhigh : index ≤ 255 + ((mScaleWrap - 1) * (224 - 32))) :
    0 ≤ index - (MIN ((index - 32).tdiv (224 - 32)) (mScaleWrap - 1) * (224 - 32)) ∧
      index - (MIN ((index - 32).tdiv (224 - 32)) (mScaleWrap - 1) * (224 - 32)) ≤ 255 := by
  simp only [MIN]
  have h192 : (224 : Int) - 32 = 192 := by norm_num
  rw [h192] at hhigh ⊢
  by_cases hsmall : index < 32
  · have hdiv : (index - 32).tdiv 192 = 0 := by
      have hneg : index - 32 = -(32 - index) := by omega
      rw [hneg, Int.neg_tdiv, Int.tdiv_eq_zero_of_lt (by omega) (by omega)]
      rfl
    rw [hdiv]
    have hmin : min (0 : Int) (mScaleWrap - 1) = 0 := min_eq_left (by omega)
    rw [hmin]
    omega
  · have hdiv : (index - 32).tdiv 192 = (index - 32) / 192 :=
      Int.tdiv_eq_ediv (by omega) (by norm_num)
    rw [hdiv]
    rcases le_total ((index - 32) / 192) (mScaleWrap - 1) with hle | hle
    · rw [min_eq_left hle]
      omega
    · rw [min_eq_right hle]
      have hge : 32 + (mScaleWrap - 1) * 192 ≤ index := by omega
      constructor <;> nlinarith

/-- C28: with breakPoint1 = 32, breakPoint2 = 224 and mScaleWrap in 1 .. 10, for
every scaled value (limited by the code to 0 .. 255 + (mScaleWrap - 1) * 192
before it is truncated) the wrapped colour index lies in 0 .. 255, so the final
LIMIT (index, 0, 255) does not change it and the pixel map of 256 entries is
indexed within its bounds. -/
theorem pixelIndex_within_pixel_map (mScaleWrap : Int) (scaled : Rat) (h1 : 1 ≤ mScaleWrap)
    (h10 : mScaleWrap ≤ 10) :
    0 ≤ (pixelIndex 32 224 mScaleWrap scaled).wrapped ∧
    (pixelIndex 32 224 mScaleWrap scaled).wrapped ≤ 255 ∧
    (pixelIndex 32 224 mScaleWrap scaled).limited
      = (pixelIndex 32 224 mScaleWrap scaled).wrapped := by
  have hmax : (0 : Int) ≤ 255 + ((mScaleWrap - 1) * (224 - 32)) := by omega
  have hidx := toInt_of_limited scaled (255 + ((mScaleWrap - 1) * (224 - 32))) hmax
  have hwrap := wrap_in_range mScaleWrap
    (toInt (LIMIT scaled ((0 : Int) : Rat) ((255 + ((mScaleWrap - 1) * (224 - 32)) : Int) : Rat)))
    h1 hidx.1 hidx.2
  simp only [pixelIndex]
  refine ⟨hwrap.1, hwrap.2, ?_⟩
  simp only [LIMIT, MAX, MIN] at hwrap ⊢
  rw [min_eq_left hwrap.2, max_eq_right hwrap.1]

theorem pixelIndex_within_pixel_map_witness :
    setScaleWrap 3 = 3 ∧
    scaledMax 32 224 (setScaleWrap 3) = 639 ∧
    (pixelIndex 32 224 (setScaleWrap 3) 1000).limited
      = (pixelIndex 32 224 (setScaleWrap 3) 1000).wrapped ∧
    0 ≤ (pixelIndex 32 224 (setScaleWrap 3) 1000).wrapped ∧
    (pixelIndex 32 224 (setScaleWrap 3) 1000).wrapped ≤ 255 := by
  have hw : setScaleWrap 3 = 3 := by decide
  have h := pixelIndex_within_pixel_map (setScaleWrap 3) 1000 (by rw [hw]; decide)
    (by rw [hw]; decide)
  exact ⟨hw, by rw [hw]; decide, h.2.2, h.1, h.2.1⟩

end QESpectrogram

namespace QEAxisPainter

open QECommon

/-! ## Rounding to double -/

theorem intLog_two_eq (x : Rat) (e : Int) (hlo : (2 : Rat) ^ e ≤ x)
    (hhi : x < (2 : Rat) ^ (e + 1)) : Int.log 2 x = e := by
  have hpos : 0 < x := lt_of_lt_of_le (by positivity) hlo
  have h1 : e ≤ Int.log 2 x :=
    (Int.zpow_le_iff_le_log (by norm_num) hpos).1 (by exact_mod_cast hlo)
  have h2 : Int.log 2 x < e + 1 :=
    (Int.lt_zpow_iff_log_lt (by norm_num) hpos).1 (by exact_mod_cast hhi)
  omega

theorem roundHalfEven_of_near (q : Rat) (m : Int) (h : |q - (m : Rat)| < 1 / 2) :
    roundHalfEven q = m := by
  rw [abs_lt] at h
  obtain ⟨h1, h2⟩ := h
  unfold roundHalfEven
  by_cases hq : (m : Rat) ≤ q
  · have hf : ⌊q⌋ = m := by
      rw [Int.floor_eq_iff]
      constructor
      · exact hq
      · linarith
    simp only [hf]
    rw [if_pos (by linarith)]
  · have hf : ⌊q⌋ = m - 1 := by
      rw [Int.floor_eq_iff]
      push_cast
      constructor <;> linarith
    simp only [hf]
    push_cast
    rw [if_neg (by linarith), if_pos (by linarith)]
    ring

theorem roundDouble_of_near (x : Rat) (e m : Int) (hlo : (2 : Rat) ^ e ≤ |x|)
    (hhi : |x| < (2 : Rat) ^ (e + 1)) (he : -1022 ≤ e)
    (hnear : |x / (2 : Rat) ^ (e - 52) - (m : Rat)| < 1 / 2) :
    roundDouble x = (m : Rat) * (2 : Rat) ^ (e - 52) := by
  unfold roundDouble ulpExponent
  rw [intLog_two_eq |x| e hlo hhi, max_eq_left he]
  simp only []
  rw [roundHalfEven_of_near _ m hnear]

theorem roundDouble_zero : roundDouble 0 = 0 := by
  simp [roundDouble, roundHalfEven]

theorem toDouble_zero : toDouble 0 = some 0 := by
  unfold toDouble
  rw [roundDouble_zero, if_pos]
  norm_num [DBL_MAX]

theorem min_interval_eq : MIN_INTERVAL = 6646139978924579 * (2 : Rat) ^ (-119 : Int) := by
  unfold MIN_INTERVAL
  have h := roundDouble_of_near (1 / 10 ^ 20) (-67) 6646139978924579
    (by norm_num [abs_of_pos]) (by norm_num [abs_of_pos]) (by norm_num)
    (by norm_num [abs_lt])
  rw [h]
  norm_num

theorem max_value_eq : MAX_VALUE = 7450580596923828 * (2 : Rat) ^ (27 : Int) := by
  unfold MAX_VALUE
  have h := roundDouble_of_near (10 ^ 24) 79 7450580596923828
    (by norm_num [abs_of_pos]) (by norm_num [abs_of_pos]) (by norm_num)
    (by norm_num [abs_lt])
  rw [h]
  norm_num


theorem minor_interval_eq :
    roundDouble (2 / 10) = 7205759403792794 * (2 : Rat) ^ (-55 : Int) := by
  have h := roundDouble_of_near (2 / 10) (-3) 7205759403792794
    (by norm_num [abs_of_pos]) (by norm_num [abs_of_pos]) (by norm_num)
    (by norm_num [abs_lt])
  rw [h]
  norm_num

/-- Adding MIN_INTERVAL to the double 10.0 gives 10.0 again. -/
theorem dadd_ten_min_interval : dadd 10 MIN_INTERVAL = some 10 := by
  have h : roundDouble (10 + MIN_INTERVAL) = 10 := by
    have h := roundDouble_of_near (10 + MIN_INTERVAL) 3 (10 * 2 ^ 49)
      (by rw [min_interval_eq]; norm_num [abs_of_pos])
      (by rw [min_interval_eq]; norm_num [abs_of_pos]) (by norm_num)
      (by rw [min_interval_eq]; norm_num [abs_lt])
    rw [h]
    norm_num
  unfold dadd toDouble
  rw [h, if_pos]
  norm_num [DBL_MAX]

/-- Subtracting MIN_INTERVAL from the double -5.0 gives -5.0 again. -/
theorem dsub_minus_five_min_interval : dsub (-5) MIN_INTERVAL = some (-5) := by
  have h : roundDouble (-5 - MIN_INTERVAL) = -5 := by
    have h := roundDouble_of_near (-5 - MIN_INTERVAL) 2 (-(5 * 2 ^ 50))
      (by rw [min_interval_eq]; norm_num [abs_of_neg])
      (by rw [min_interval_eq]; norm_num [abs_of_neg]) (by norm_num)
      (by rw [min_interval_eq]; norm_num [abs_lt])
    rw [h]
    norm_num
  unfold dsub toDouble
  rw [h, if_pos]
  norm_num [DBL_MAX]

theorem limit_in_bounds (x : Rat) (hlow : -(10 ^ 23) ≤ x) (hhigh : x ≤ 10 ^ 23) :
    LIMIT x MIN_VALUE MAX_VALUE = x := by
  unfold LIMIT MAX MIN MIN_VALUE
  rw [← MAX_VALUE, max_value_eq]
  rw [min_eq_left, max_eq_right]
  · norm_num
    linarith
  · norm_num
    linarith

theorem dsub_self (x : Rat) : dsub x x = some 0 := by
  unfold dsub
  rw [sub_self, toDouble_zero]

theorem ddiv_zero_minor_interval : ddiv 0 (roundDouble (2 / 10)) = some 0 := by
  unfold ddiv
  rw [minor_interval_eq, if_neg (by norm_num), zero_div, toDouble_zero]

/-- C29: code evaluated at the failing input. On the constructed axis (0, 10),
setMinimum (10.0) leaves mMinimum = mMaximum = 10.0, because the double sum
10.0 + 1.0E-20 is 10.0; the divisor mMaximum - mMinimum of calcFraction is then
0.0 and calcFraction divides by zero for every x. In the same way
setMaximum (-5.0) leaves mMinimum = mMaximum = -5.0. -/
theorem setMinimum_ten_leaves_bounds_equal :
    dadd 10 MIN_INTERVAL = some 10 ∧
    setMinimum 10 constructed
      = some { mMinimum := 10, mMaximum := 10, mMinorInterval := roundDouble (2 / 10) } ∧
    dsub (10 : Rat) 10 = some 0 ∧
    (∀ x : Rat, calcFraction x
      { mMinimum := 10, mMaximum := 10, mMinorInterval := roundDouble (2 / 10) } = none) ∧
    setMaximum (-5) constructed
      = some { mMinimum := -5, mMaximum := -5, mMinorInterval := roundDouble (2 / 10) } ∧
    (∀ x : Rat, calcFraction x
      { mMinimum := -5, mMaximum := -5, mMinorInterval := roundDouble (2 / 10) } = none) := by
  have hten : LIMIT (10 : Rat) MIN_VALUE MAX_VALUE = 10 :=
    limit_in_bounds 10 (by norm_num) (by norm_num)
  have hfive : LIMIT (-5 : Rat) MIN_VALUE MAX_VALUE = -5 :=
    limit_in_bounds (-5) (by norm_num) (by norm_num)
  have hmin : MIN (0 : Rat) (-5) = -5 := by norm_num [MIN]
  have hticks : ¬ (0 : Rat) > MAX_MINOR_TICKS := by norm_num [MAX_MINOR_TICKS]
  refine ⟨dadd_ten_min_interval, ?_, dsub_self 10, ?_, ?_, ?_⟩
  · simp only [setMinimum, constructed, hten, dadd_ten_min_interval, Option.some_bind, MAX,
      max_self, dsub_self, ddiv_zero_minor_interval, hticks, if_false]
  · intro x
    simp only [calcFraction, dsub_self, Option.some_bind, ddiv, if_true, Option.bind_none,
      Option.none_bind]
  · simp only [setMaximum, constructed, hfive, dsub_minus_five_min_interval, Option.some_bind,
      hmin, dsub_self, ddiv_zero_minor_interval, hticks, if_false]
  · intro x
    simp only [calcFraction, dsub_self, Option.some_bind, ddiv, if_true, Option.bind_none,
      Option.none_bind]

/-! ## Marker index guard -/

theorem assertValidIndexActs_false (NUMBER_OF_MARKERS index : Int)
    (hN : 0 < NUMBER_OF_MARKERS) : assertValidIndexActs NUMBER_OF_MARKERS index = false := by
  unfold assertValidIndexActs
  by_cases h : index < 0
  · have h2 : ¬ index ≥ NUMBER_OF_MARKERS := by omega
    simp [h2]
  · simp [h]

/-- C30: code evaluated at every failing input. With NUMBER_OF_MARKERS positive
the condition (index < 0) && (index >= NUMBER_OF_MARKERS) of ASSERT_VALID_INDEX
never holds, so for an index outside 0 .. NUMBER_OF_MARKERS - 1 the early-return
action is not taken and each of the six marker functions indexes its array
outside the bounds. -/
theorem marker_guard_never_acts {D : Type} (zero value : D) (colour : QColor)
    (isVisible : Bool) (NUMBER_OF_MARKERS index : Int) (m : Markers D)
    (hN : 0 < NUMBER_OF_MARKERS) (hsized : Markers.Sized NUMBER_OF_MARKERS m)
    (hout : index < 0 ∨ NUMBER_OF_MARKERS ≤ index) :
    assertValidIndexActs NUMBER_OF_MARKERS index = false ∧
    setMarkerColour NUMBER_OF_MARKERS index colour m = Outcome.outOfBounds ∧
    getMarkerColour NUMBER_OF_MARKERS index m = Outcome.outOfBounds ∧
    setMarkerVisible NUMBER_OF_MARKERS index isVisible m = Outcome.outOfBounds ∧
    getMarkerVisible NUMBER_OF_MARKERS index m = Outcome.outOfBounds ∧
    setMarkerValue NUMBER_OF_MARKERS index value m = Outcome.outOfBounds ∧
    getMarkerValue zero NUMBER_OF_MARKERS index m = Outcome.outOfBounds := by
  have hact := assertValidIndexActs_false NUMBER_OF_MARKERS index hN
  obtain ⟨hc, hv, hd⟩ := hsized
  have hset : ∀ {α : Type} (array : List α) (x : α),
      (array.length : Int) = NUMBER_OF_MARKERS → arraySet array index x = none := by
    intro α array x hlen
    unfold arraySet
    rw [if_neg]
    omega
  have hget : ∀ {α : Type} (array : List α),
      (array.length : Int) = NUMBER_OF_MARKERS → arrayAt array index = none := by
    intro α array hlen
    unfold arrayAt
    by_cases h0 : 0 ≤ index
    · rw [if_pos h0, List.get?_eq_none]
      omega
    · rw [if_neg h0]
  refine ⟨hact, ?_, ?_, ?_, ?_, ?_, ?_⟩
  · simp [setMarkerColour, hact, hset _ colour hc]
  · simp [getMarkerColour, hact, hget _ hc]
  · simp [setMarkerVisible, hact, hset _ isVisible hv]
  · simp [getMarkerVisible, hact, hget _ hv]
  · simp [setMarkerValue, hact, hset _ value hd]
  · simp [getMarkerValue, hact, hget _ hd]

theorem marker_guard_never_acts_witness :
    getMarkerValue (0 : Rat) 4 (-1) sampleMarkers = Outcome.outOfBounds ∧
    setMarkerValue 4 4 (5 : Rat) sampleMarkers = Outcome.outOfBounds ∧
    getMarkerVisible 4 4 sampleMarkers = Outcome.outOfBounds ∧
    getMarkerColour 4 (-1) sampleMarkers = Outcome.outOfBounds := by
  have hsized : Markers.Sized 4 sampleMarkers := by
    simp [Markers.Sized, sampleMarkers]
  have hlow := marker_guard_never_acts (0 : Rat) 5
    { red := 1, green := 2, blue := 3, alpha := 255 } true 4 (-1) sampleMarkers (by decide)
    hsized (Or.inl (by decide))
  have hhigh := marker_guard_never_acts (0 : Rat) 5
    { red := 1, green := 2, blue := 3, alpha := 255 } true 4 4 sampleMarkers (by decide)
    hsized (Or.inr (by decide))
  exact ⟨hlow.2.2.2.2.2.2, hhigh.2.2.2.2.2.1, hhigh.2.2.2.2.1, hlow.2.2.1⟩

end QEAxisPainter
